import Mathlib

/-!
# Timesheet accounting engine

Shallow embedding of `server/src/controllers/timesheetsController.js`, of the timesheet
schemas of `server/src/validators/schemas.js` and of `hasPermission` of
`server/src/utils/permissions.js`.

Conventions of the embedding:

* a JavaScript string is a Lean `String`, read through its list of characters;
* a value that may be `undefined`/`null` is an `Option`;
* a finite JavaScript number is modelled by its exact mathematical value in `ℚ`
  (on integers below `2^53`, which is where the minute arithmetic lives, JavaScript
  arithmetic is exact); `NaN` and the infinities only arise from `Number(...)` and
  are kept apart in `JSNum`;
* a function that throws returns `Except` with the thrown message;
* a request handler is a function from the environment, the store, the principal and the
  request to the response and the store it leaves; reads and writes of the `timesheets`
  and `users` collections are taken to succeed, the write to `movements` may throw;
* the list and summary handlers take the store query as a function `runQuery` from the
  query they build to the documents returned, and `String.prototype.localeCompare` as a
  function `localeCompare`; `Array.prototype.sort` is a stable sort, and the summary
  object keeps its own keys in the order of their creation;
* `totalMinutes` is the total of a row in `client/src/pages/timesheets/HoursSummary.jsx`.
-/

namespace Timesheets

/-! ## JavaScript primitives used by the controller -/

/-- WhiteSpace and LineTerminator code points: what `String.prototype.trim` strips and
what `Number(...)` ignores around a numeric literal. -/
def isJsWhiteSpace (c : Char) : Bool :=
  let n := c.toNat
  n == 0x09 || n == 0x0A || n == 0x0B || n == 0x0C || n == 0x0D || n == 0x20 ||
  n == 0xA0 || n == 0x1680 || (decide (0x2000 ≤ n) && decide (n ≤ 0x200A)) ||
  n == 0x2028 || n == 0x2029 || n == 0x202F || n == 0x205F || n == 0x3000 || n == 0xFEFF

/-- `String.prototype.trim` on the list of characters. -/
def trimChars (cs : List Char) : List Char :=
  ((cs.dropWhile isJsWhiteSpace).reverse.dropWhile isJsWhiteSpace).reverse

/-- `String.prototype.trim`. -/
def jsTrim (s : String) : String := String.mk (trimChars s.data)

/-- `String.prototype.split(sep)` for a one-character separator. -/
def jsSplit (sep : Char) : List Char → List (List Char)
  | [] => [[]]
  | c :: cs =>
    if c = sep then [] :: jsSplit sep cs
    else
      match jsSplit sep cs with
      | [] => [[c]]
      | piece :: pieces => (c :: piece) :: pieces

/-- Result of `Number(string)`: `NaN`, an infinity, or a finite value. -/
inductive JSNum where
  | nan : JSNum
  | posInf : JSNum
  | negInf : JSNum
  | fin (q : ℚ) : JSNum
  deriving DecidableEq

/-- Unary minus on a converted number. -/
def JSNum.neg : JSNum → JSNum
  | .nan => .nan
  | .posInf => .negInf
  | .negInf => .posInf
  | .fin q => .fin (-q)

/-- Value of a digit character in bases up to sixteen. -/
def digitValue (c : Char) : Option ℕ :=
  if '0' ≤ c ∧ c ≤ '9' then some (c.toNat - 48)
  else if 'a' ≤ c ∧ c ≤ 'f' then some (c.toNat - 87)
  else if 'A' ≤ c ∧ c ≤ 'F' then some (c.toNat - 55)
  else none

/-- Whether `c` is a digit of base `radix`. -/
def isRadixDigit (radix : ℕ) (c : Char) : Bool :=
  match digitValue c with
  | some d => decide (d < radix)
  | none => false

/-- Mathematical value of a run of digits of base `radix`. -/
def radixValue (radix : ℕ) (cs : List Char) : ℕ :=
  cs.foldl (fun n c => radix * n + (digitValue c).getD 0) 0

/-- A non-empty run of digits of base `radix`. -/
def isDigitRun (radix : ℕ) (cs : List Char) : Bool :=
  !cs.isEmpty && cs.all (isRadixDigit radix)

/-- The optional ExponentPart closing a decimal literal: nothing (exponent 0), or `e`/`E`,
an optional sign and at least one digit. `none` when what is left is neither. -/
def parseExponent : List Char → Option ℤ
  | [] => some 0
  | c :: rest =>
    if c = 'e' ∨ c = 'E' then
      match rest with
      | '+' :: ds => if isDigitRun 10 ds then some (radixValue 10 ds) else none
      | '-' :: ds => if isDigitRun 10 ds then some (-(radixValue 10 ds : ℤ)) else none
      | ds => if isDigitRun 10 ds then some (radixValue 10 ds) else none
    else none

/-- StrUnsignedDecimalLiteral: `Infinity`, or digits with an optional fraction and an
optional exponent (at least one digit before or after the dot). -/
def parseUnsignedDecimal (cs : List Char) : JSNum :=
  if cs = ['I', 'n', 'f', 'i', 'n', 'i', 't', 'y'] then .posInf
  else
    let intPart := cs.takeWhile (isRadixDigit 10)
    let afterInt := cs.dropWhile (isRadixDigit 10)
    match afterInt with
    | '.' :: afterDot =>
      let fracPart := afterDot.takeWhile (isRadixDigit 10)
      let afterFrac := afterDot.dropWhile (isRadixDigit 10)
      if intPart.isEmpty && fracPart.isEmpty then .nan
      else
        match parseExponent afterFrac with
        | some e => .fin ((radixValue 10 (intPart ++ fracPart) : ℚ) * 10 ^ (e - fracPart.length))
        | none => .nan
    | _ =>
      if intPart.isEmpty then .nan
      else
        match parseExponent afterInt with
        | some e => .fin ((radixValue 10 intPart : ℚ) * 10 ^ e)
        | none => .nan

/-- StrDecimalLiteral: an unsigned decimal literal with an optional sign. -/
def parseSignedDecimal : List Char → JSNum
  | '+' :: cs => parseUnsignedDecimal cs
  | '-' :: cs => (parseUnsignedDecimal cs).neg
  | cs => parseUnsignedDecimal cs

/-- NonDecimalIntegerLiteral body: a non-empty run of digits of the base. -/
def parseRadixDigits (radix : ℕ) (ds : List Char) : JSNum :=
  if isDigitRun radix ds then .fin (radixValue radix ds) else .nan

/-- StrNumericLiteral: a hexadecimal, octal or binary integer literal, or a signed
decimal literal; anything else is `NaN`. -/
def parseNumericLiteral (cs : List Char) : JSNum :=
  match cs with
  | '0' :: x :: ds =>
    if x = 'x' ∨ x = 'X' then parseRadixDigits 16 ds
    else if x = 'o' ∨ x = 'O' then parseRadixDigits 8 ds
    else if x = 'b' ∨ x = 'B' then parseRadixDigits 2 ds
    else parseSignedDecimal cs
  | _ => parseSignedDecimal cs

/-- `Number(s)` for a string `s`: white space around the literal is ignored, the empty
string converts to 0, a string that is not a numeric literal converts to `NaN`. -/
def jsNumber (cs : List Char) : JSNum :=
  let body := trimChars cs
  if body.isEmpty then .fin 0 else parseNumericLiteral body

/-! ## Time arithmetic -/

/-- `TIME_PATTERN = /^([01]\d|2[0-3]):[0-5]\d$/` of `validators/schemas.js`. -/
def matchesTimePattern (t : String) : Bool :=
  match t.data with
  | [a, b, sep, c, d] =>
    (((a = '0' ∨ a = '1') ∧ ('0' ≤ b ∧ b ≤ '9')) ∨ (a = '2' ∧ ('0' ≤ b ∧ b ≤ '3'))) ∧
      sep = ':' ∧ ('0' ≤ c ∧ c ≤ '5') ∧ ('0' ≤ d ∧ d ≤ '9')
  | _ => false

/-- `parseTimeToMinutes(time)`; `none` on the argument side stands for a value that is not
a string, `none` on the result side for `null`. Once both pieces convert to numbers that
pass the range checks they are finite, so the result is a finite number. -/
def parseTimeToMinutes (time : Option String) : Option ℚ :=
  match time with
  | none => none
  | some t =>
    if t.data.isEmpty || !t.data.contains ':' then none
    else
      match jsSplit ':' t.data with
      | hoursStr :: minutesStr :: _ =>
        match jsNumber hoursStr, jsNumber minutesStr with
        | .fin hours, .fin minutes =>
          if hours < 0 ∨ hours > 23 ∨ minutes < 0 ∨ minutes > 59 then none
          else some (hours * 60 + minutes)
        | _, _ => none
      | _ => none

/-- `DAY_MINUTES = 24 * 60`. -/
def DAY_MINUTES : ℚ := 24 * 60

/-- `NIGHT_WINDOWS`: 21:00-24:00 and 24:00-30:00, as pairs (start, end). -/
def NIGHT_WINDOWS : List (ℚ × ℚ) := [(21 * 60, 24 * 60), (24 * 60, 30 * 60)]

/-- `computeDuration(startMinutes, endMinutes)`. -/
def computeDuration (startMinutes endMinutes : ℚ) : ℚ :=
  let diff := endMinutes - startMinutes
  if diff ≤ 0 then diff + DAY_MINUTES else diff

/-- The body of the `forEach` in `computeNightMinutes`: adds the overlap of
`[startMinutes, adjustedEnd)` with one range to the running total. -/
def addOverlap (startMinutes adjustedEnd : ℚ) (minutes : ℚ) (range : ℚ × ℚ) : ℚ :=
  let overlapStart := max startMinutes range.1
  let overlapEnd := min adjustedEnd range.2
  if overlapEnd > overlapStart then minutes + (overlapEnd - overlapStart) else minutes

/-- `computeNightMinutes(startMinutes, endMinutes)`. -/
def computeNightMinutes (startMinutes endMinutes : ℚ) : ℚ :=
  let adjustedEnd := if endMinutes ≤ startMinutes then endMinutes + DAY_MINUTES else endMinutes
  let ranges := NIGHT_WINDOWS ++ NIGHT_WINDOWS.map (fun w => (w.1 + DAY_MINUTES, w.2 + DAY_MINUTES))
  let minutes := ranges.foldl (addOverlap startMinutes adjustedEnd) 0
  min minutes (adjustedEnd - startMinutes)

/-! ## Entry composer -/

/-- `sanitizeText(value)`: the text, trimmed. -/
def sanitizeText (value : String) : String := jsTrim value

/-- `lower(value)`: `sanitizeText(value).toLowerCase()`. The Unicode case mapping of
`String.prototype.toLowerCase` is a parameter of the model. -/
def lower (toLowerCase : String → String) (value : String) : String :=
  toLowerCase (sanitizeText value)

/-- The validated request body handed to `composeEntry` as `input`. -/
structure EntryInput where
  userId : Option String
  date : Option String
  startTime : Option String
  endTime : Option String
  client : Option String
  task : Option String
  workOrder : Option String
  isHoliday : Option Bool

/-- The fields of the stored record that `composeEntry` reads from `previous`. -/
structure Previous where
  date : Option String
  startTime : Option String
  endTime : Option String
  client : Option String
  task : Option String
  workOrder : Option String
  isHoliday : Option Bool

/-- The default `previous = {}`. -/
def Previous.empty : Previous :=
  { date := none, startTime := none, endTime := none, client := none, task := none,
    workOrder := none, isHoliday := none }

/-- The owner returned by `resolveOwner`. -/
structure Owner where
  userId : String
  username : String
  displayName : String

/-- The authenticated principal `req.user`, as far as `composeEntry` reads it. -/
structure Actor where
  uid : String
  displayName : Option String
  username : Option String

/-- The object returned by `composeEntry`. -/
structure Entry where
  userId : String
  userDisplayName : String
  username : String
  date : Option String
  startTime : Option String
  endTime : Option String
  startMinutes : ℚ
  durationMinutes : ℚ
  nightMinutes : ℚ
  holidayMinutes : ℚ
  isHoliday : Bool
  client : String
  task : String
  workOrder : String
  updatedAt : ℕ
  updatedBy : String
  updatedByName : String
  searchText : String

/-- `a || b` on an optional string: `a` when it is a non-empty string, else `b`. -/
def orElse (a : Option String) (b : String) : String :=
  match a with
  | some s => if s.data.isEmpty then b else s
  | none => b

/-- `buildSearchText(entry)` on the six values it joins; `join` writes an undefined
date as the empty string. -/
def buildSearchText (toLowerCase : String → String) (date : Option String)
    (client task workOrder userDisplayName username : String) : String :=
  lower toLowerCase
    (" ".intercalate [date.getD "", client, task, workOrder, userDisplayName, username])

/-- `composeEntry({ previous, input, owner, actor })`; `now` is the value of `new Date()`. -/
def composeEntry (toLowerCase : String → String) (now : ℕ) (previous : Previous)
    (input : EntryInput) (owner : Owner) (actor : Actor) : Except String Entry :=
  let baseDate := input.date <|> previous.date
  let baseStartTime := input.startTime <|> previous.startTime
  let baseEndTime := input.endTime <|> previous.endTime
  let baseClient := (input.client <|> previous.client).getD ""
  let baseTask := (input.task <|> previous.task).getD ""
  let baseWorkOrder := (input.workOrder <|> previous.workOrder).getD ""
  let baseIsHoliday := input.isHoliday.getD (previous.isHoliday.getD false)
  match parseTimeToMinutes baseStartTime, parseTimeToMinutes baseEndTime with
  | some startMinutes, some endMinutes =>
    let durationMinutes := computeDuration startMinutes endMinutes
    if durationMinutes ≤ 0 then .error "La duracion debe ser mayor a 0"
    else
      let nightMinutes := computeNightMinutes startMinutes endMinutes
      let holidayMinutes := if baseIsHoliday then durationMinutes else 0
      let client := sanitizeText baseClient
      let task := sanitizeText baseTask
      let workOrder := sanitizeText baseWorkOrder
      .ok
        { userId := owner.userId
          userDisplayName := owner.displayName
          username := owner.username
          date := baseDate
          startTime := baseStartTime
          endTime := baseEndTime
          startMinutes := startMinutes
          durationMinutes := durationMinutes
          nightMinutes := nightMinutes
          holidayMinutes := holidayMinutes
          isHoliday := baseIsHoliday
          client := client
          task := task
          workOrder := workOrder
          updatedAt := now
          updatedBy := actor.uid
          updatedByName := orElse actor.displayName (orElse actor.username "Sistema")
          searchText :=
            buildSearchText toLowerCase baseDate client task workOrder owner.displayName
              owner.username }
  | _, _ => .error "Horarios invalidos"

/-! ## Well-formed clock strings -/

/-- The ASCII digit character of a number below ten. -/
def digitChar (k : ℕ) : Char := Char.ofNat (48 + k)

/-- The string `HH:MM` written for hour `h` and minute `m`, two digits each. -/
def clockString (h m : ℕ) : String :=
  String.mk [digitChar (h / 10), digitChar (h % 10), ':', digitChar (m / 10), digitChar (m % 10)]

/-! ## Permissions -/

/-- A value inside a permission object: a boolean, or an object with named members. -/
inductive PermissionValue where
  | flag (b : Bool) : PermissionValue
  | object (members : List (String × PermissionValue)) : PermissionValue

/-- Member access `value?.[key]`; a boolean has no members. -/
def PermissionValue.member (value : PermissionValue) (key : String) : Option PermissionValue :=
  match value with
  | .flag _ => none
  | .object members => members.lookup key

/-- `hasPermission(permissions, path)` of `utils/permissions.js`: walks the dotted path and
compares what it reaches with `true`. -/
def hasPermission (permissions : PermissionValue) (path : String) : Bool :=
  if path.data.isEmpty then false
  else
    match (jsSplit '.' path.data).foldl
        (fun acc segment => acc.bind (fun value => value.member (String.mk segment)))
        (some permissions) with
    | some (.flag true) => true
    | _ => false

/-- The authenticated principal `req.user` set by the `authRequired` middleware. -/
structure Principal where
  uid : String
  username : Option String
  displayName : Option String
  roles : List String
  permissions : PermissionValue

/-- The principal as the actor of `composeEntry`. -/
def Principal.toActor (user : Principal) : Actor :=
  { uid := user.uid, displayName := user.displayName, username := user.username }

/-! ## The document store -/

/-- A stored `createdAt`/`updatedAt` value as `timestampToDate` sees it: `missing` for an
absent value or one that it maps to null, `timestamp ms` for a Firestore timestamp, a date
or a seconds/nanoseconds object, given by the epoch milliseconds it converts to, and
`text s` for a string, which is handed to the `Date` constructor. -/
inductive StoredTime where
  | missing : StoredTime
  | timestamp (ms : ℤ) : StoredTime
  | text (s : String) : StoredTime

/-- A document of the `timesheets` collection; a field the document lacks is `none`. -/
structure StoredRecord where
  userId : Option String
  userDisplayName : Option String
  username : Option String
  date : Option String
  startTime : Option String
  endTime : Option String
  startMinutes : Option ℚ
  durationMinutes : Option ℚ
  nightMinutes : Option ℚ
  holidayMinutes : Option ℚ
  isHoliday : Option Bool
  client : Option String
  task : Option String
  workOrder : Option String
  updatedAt : StoredTime
  updatedBy : Option String
  updatedByName : Option String
  searchText : Option String
  createdAt : StoredTime
  createdBy : Option String
  createdByName : Option String

/-- The stored record read as the `previous` argument of `composeEntry`. -/
def StoredRecord.toPrevious (existing : StoredRecord) : Previous :=
  { date := existing.date, startTime := existing.startTime, endTime := existing.endTime,
    client := existing.client, task := existing.task, workOrder := existing.workOrder,
    isHoliday := existing.isHoliday }

/-- A document of the `users` collection, as far as `resolveOwner` reads it. -/
structure UserDoc where
  username : Option String
  displayName : Option String

/-- The object built by `buildMovementPayload`. -/
structure MovementPayload where
  timesheetId : String
  userId : Option String
  userDisplayName : Option String
  username : Option String
  date : Option String
  startTime : Option String
  endTime : Option String
  client : Option String
  task : Option String
  workOrder : Option String
  durationMinutes : Option ℚ
  nightMinutes : Option ℚ
  isHoliday : Bool

/-- A document written by `logMovement` to the `movements` collection (`by` and `at` are
named `author` and `time` here). -/
structure Movement where
  entity : String
  entityId : String
  type : String
  payload : MovementPayload
  author : String
  time : ℕ

/-- The collections the timesheet handlers read and write. -/
structure Store where
  timesheets : String → Option StoredRecord
  users : String → Option UserDoc
  movements : List Movement

/-- What the handlers take from outside the request and the store: the clock
(`Date.now()` and `new Date()`, epoch milliseconds), the case mapping of `toLowerCase`,
the string parser of the `Date` constructor (`none` for an invalid date), the id the store
gives to an added document, and the message of the error thrown by the write to the
`movements` collection when that write fails (`none` when it succeeds). -/
structure Env where
  now : ℕ
  toLowerCase : String → String
  dateParse : String → Option ℤ
  newId : String
  auditFailure : Option String

/-- What a handler sends: an error body with its status, an entry with its status, or
the body `{ ok: true }` of a delete. -/
inductive Response where
  | error (status : ℕ) (message : String) : Response
  | entry (status : ℕ) (id : String) (doc : StoredRecord) : Response
  | ok : Response

/-- `DAY_IN_MS = 24 * 60 * 60 * 1000`. -/
def DAY_IN_MS : ℤ := 24 * 60 * 60 * 1000

/-- `a || b` on two optional strings: `a` when it is a non-empty string, else `b`. -/
def orOption (a b : Option String) : Option String :=
  match a with
  | some s => if s.data.isEmpty then b else some s
  | none => b

/-- `resolveOwner(userId, fallback)`, reading the `users` collection. -/
def resolveOwner (users : String → Option UserDoc) (userId : Option String)
    (fallback : Principal) : Except String Owner :=
  let targetId := orElse userId fallback.uid
  if targetId.data.isEmpty then .error "Usuario no encontrado"
  else if targetId = fallback.uid ∧ orElse fallback.username "" ≠ "" then
    .ok
      { userId := fallback.uid
        username := orElse fallback.username ""
        displayName := orElse fallback.displayName (orElse fallback.username "Usuario") }
  else
    match users targetId with
    | none => .error "Usuario no encontrado"
    | some data =>
      .ok
        { userId := targetId
          username := orElse data.username targetId
          displayName := orElse data.displayName (orElse data.username "Usuario") }

/-- `timestampToDate(value)`: null (`none`) or a date, given by its time value. -/
def timestampToDate (dateParse : String → Option ℤ) (value : StoredTime) : Option (Option ℤ) :=
  match value with
  | .missing => none
  | .timestamp ms => some (some ms)
  | .text s =>
    if s.data.isEmpty then none
    else
      match dateParse s with
      | some ms => some (some ms)
      | none => none

/-- The `createdAt` computed in the non-manager branch of `updateTimesheetEntry`:
`timestampToDate(existing.createdAt)`, or else the date built from `existing.date` and
`T00:00:00Z` (a date whose time value is `none` when that string is not a valid date),
or else null. -/
def creationDate (env : Env) (existing : StoredRecord) : Option (Option ℤ) :=
  match timestampToDate env.dateParse existing.createdAt with
  | some date => some date
  | none =>
    match existing.date with
    | some d => if d.data.isEmpty then none else some (env.dateParse (d ++ "T00:00:00Z"))
    | none => none

/-- The test `!createdAt || (Date.now() - createdAt.getTime()) > DAY_IN_MS`; a comparison
with the `NaN` of an invalid date is false. -/
def editWindowExpired (env : Env) (existing : StoredRecord) : Bool :=
  match creationDate env existing with
  | none => true
  | some none => false
  | some (some createdMs) => decide ((env.now : ℤ) - createdMs > DAY_IN_MS)

/-! ## Request validation -/

/-- The date pattern `/^\d{4}-\d{2}-\d{2}$/` of `timesheetSchema`. -/
def matchesDatePattern (t : String) : Bool :=
  match t.data with
  | [y1, y2, y3, y4, s1, m1, m2, s2, d1, d2] =>
    [y1, y2, y3, y4, m1, m2, d1, d2].all (fun c => decide ('0' ≤ c ∧ c ≤ '9')) &&
      decide (s1 = '-') && decide (s2 = '-')
  | _ => false

/-- The message of the validation library for a missing required key. -/
def requiredMessage (label : String) : String := "\"" ++ label ++ "\" is required"

/-- The message of the validation library for an empty string that is not allowed. -/
def emptyMessage (label : String) : String := "\"" ++ label ++ "\" is not allowed to be empty"

/-- The message of the validation library for a string that fails its pattern. -/
def patternMessage (label value pattern : String) : String :=
  "\"" ++ label ++ "\" with value \"" ++ value ++
    "\" fails to match the required pattern: " ++ pattern

/-- A string key with a pattern: `Joi.string().pattern(...)`, required or optional. -/
def validatePattern (label pattern : String) (accepts : String → Bool) (required : Bool)
    (value : Option String) : Except String (Option String) :=
  match value with
  | none => if required then .error (requiredMessage label) else .ok none
  | some v =>
    if v.data.isEmpty then .error (emptyMessage label)
    else if accepts v then .ok (some v)
    else .error (patternMessage label v pattern)

/-- The keys of `timesheetSchema` after `userId`, in the order of the schema: the three
patterned strings, required or optional, then the keys that have a default. -/
def validateSchedule (required : Bool) (body : EntryInput) (userId : Option String) :
    Except String EntryInput :=
  match validatePattern "date" "/^\\d\x7b4\x7d-\\d\x7b2\x7d-\\d\x7b2\x7d$/" matchesDatePattern
      required body.date with
  | .error msg => .error msg
  | .ok date =>
    match validatePattern "startTime" "/^([01]\\d|2[0-3]):[0-5]\\d$/" matchesTimePattern
        required body.startTime with
    | .error msg => .error msg
    | .ok startTime =>
      match validatePattern "endTime" "/^([01]\\d|2[0-3]):[0-5]\\d$/" matchesTimePattern
          required body.endTime with
      | .error msg => .error msg
      | .ok endTime =>
        .ok
          { userId := userId
            date := date
            startTime := startTime
            endTime := endTime
            client := some (jsTrim (body.client.getD ""))
            task := some (jsTrim (body.task.getD ""))
            workOrder := some (jsTrim (body.workOrder.getD ""))
            isHoliday := some (body.isHoliday.getD false) }

/-- Validation of a request body against `timesheetSchema` (`required = true`) or against
`timesheetUpdateSchema`, its fork in which `date`, `startTime` and `endTime` are optional
(`required = false`). The body is given with its keys typed; a key it lacks is `none`.
The result is the validated value, with the defaults of the schema filled in. -/
def validateTimesheet (required : Bool) (body : EntryInput) : Except String EntryInput :=
  match body.userId with
  | some u =>
    if u.data.isEmpty then .error (emptyMessage "userId")
    else validateSchedule required body (some u)
  | none => validateSchedule required body none

/-- `timesheetSchema.validate(body, { stripUnknown: true })`. -/
def timesheetSchema (body : EntryInput) : Except String EntryInput :=
  validateTimesheet true body

/-- `timesheetUpdateSchema.validate(body, { stripUnknown: true })`. -/
def timesheetUpdateSchema (body : EntryInput) : Except String EntryInput :=
  validateTimesheet false body

/-! ## Handlers -/

/-- `buildMovementPayload(entry)` for a serialized document with its id. -/
def buildMovementPayload (id : String) (entry : StoredRecord) : MovementPayload :=
  { timesheetId := id
    userId := entry.userId
    userDisplayName := orOption entry.userDisplayName entry.username
    username := entry.username
    date := entry.date
    startTime := entry.startTime
    endTime := entry.endTime
    client := entry.client
    task := entry.task
    workOrder := entry.workOrder
    durationMinutes := entry.durationMinutes
    nightMinutes := entry.nightMinutes
    isHoliday := entry.isHoliday.getD false }

/-- `stripInternalFields(entry)`: the entry without `searchText` and `startMinutes`. -/
def stripInternalFields (entry : StoredRecord) : StoredRecord :=
  { entry with searchText := none, startMinutes := none }

/-- The document that results from writing the composed `data` together with the three
creation fields. -/
def writtenRecord (data : Entry) (createdAt : StoredTime) (createdBy createdByName : String) :
    StoredRecord :=
  { userId := some data.userId
    userDisplayName := some data.userDisplayName
    username := some data.username
    date := data.date
    startTime := data.startTime
    endTime := data.endTime
    startMinutes := some data.startMinutes
    durationMinutes := some data.durationMinutes
    nightMinutes := some data.nightMinutes
    holidayMinutes := some data.holidayMinutes
    isHoliday := some data.isHoliday
    client := some data.client
    task := some data.task
    workOrder := some data.workOrder
    updatedAt := .timestamp data.updatedAt
    updatedBy := some data.updatedBy
    updatedByName := some data.updatedByName
    searchText := some data.searchText
    createdAt := createdAt
    createdBy := some createdBy
    createdByName := some createdByName }

/-- `existing.createdAt || new Date()`. -/
def createdAtOrNow (now : ℕ) (createdAt : StoredTime) : StoredTime :=
  match createdAt with
  | .missing => .timestamp now
  | .timestamp ms => .timestamp ms
  | .text s => if s.data.isEmpty then .timestamp now else .text s

/-- The end of the three mutating handlers: `await logMovement(...)` and then the response.
When the write to `movements` throws, the `catch` of the handler answers 400 with the
message of the error, or with the fallback text of the handler when it is empty. -/
def auditAndRespond (env : Env) (store : Store) (user : Principal) (entityId type : String)
    (payload : MovementPayload) (fallback : String) (response : Response) : Response × Store :=
  match env.auditFailure with
  | some msg => (.error 400 (orElse (some msg) fallback), store)
  | none =>
    (response,
      { store with
        movements := store.movements ++
          [{ entity := "timesheets", entityId := entityId, type := type, payload := payload,
             author := user.username.getD "system", time := env.now }] })

/-- `createTimesheetEntry(req, res)` with `req.user = user` and `req.body = body`. -/
def createTimesheetEntry (env : Env) (store : Store) (user : Principal) (body : EntryInput) :
    Response × Store :=
  match timesheetSchema body with
  | .error msg => (.error 400 msg, store)
  | .ok value =>
    let canManage := hasPermission user.permissions "timesheets.manage"
    match resolveOwner store.users (if canManage then value.userId else some user.uid) user with
    | .error msg => (.error 400 msg, store)
    | .ok owner =>
      match composeEntry env.toLowerCase env.now Previous.empty value owner user.toActor with
      | .error msg => (.error 400 msg, store)
      | .ok data =>
        let created := writtenRecord data (.timestamp env.now) user.uid
          (orElse user.displayName (orElse user.username "Sistema"))
        auditAndRespond env
          { store with timesheets := Function.update store.timesheets env.newId (some created) }
          user env.newId "create" (buildMovementPayload env.newId created)
          "No se pudo guardar la hora" (.entry 201 env.newId (stripInternalFields created))

/-- `updateTimesheetEntry(req, res)` with `req.params.id = id`. -/
def updateTimesheetEntry (env : Env) (store : Store) (user : Principal) (id : String)
    (body : EntryInput) : Response × Store :=
  match store.timesheets id with
  | none => (.error 404 "Registro no encontrado", store)
  | some existing =>
    let canManage := hasPermission user.permissions "timesheets.manage"
    if !canManage && decide (existing.userId ≠ some user.uid) then
      (.error 403 "No podes editar este registro", store)
    else if !canManage && editWindowExpired env existing then
      (.error 403 "Solo podes editar durante las primeras 24 horas", store)
    else
      match timesheetUpdateSchema body with
      | .error msg => (.error 400 msg, store)
      | .ok value =>
        match resolveOwner store.users
            (if canManage then orOption value.userId existing.userId else existing.userId)
            user with
        | .error msg => (.error 400 msg, store)
        | .ok owner =>
          match composeEntry env.toLowerCase env.now existing.toPrevious value owner
              user.toActor with
          | .error msg => (.error 400 msg, store)
          | .ok data =>
            let updatedEntry := writtenRecord data (createdAtOrNow env.now existing.createdAt)
              (orElse existing.createdBy owner.userId)
              (orElse existing.createdByName owner.displayName)
            auditAndRespond env
              { store with timesheets := Function.update store.timesheets id (some updatedEntry) }
              user id "update" (buildMovementPayload id updatedEntry)
              "No se pudo actualizar la hora" (.entry 200 id (stripInternalFields updatedEntry))

/-- `deleteTimesheetEntry(req, res)` with `req.params.id = id`. -/
def deleteTimesheetEntry (env : Env) (store : Store) (user : Principal) (id : String) :
    Response × Store :=
  match store.timesheets id with
  | none => (.error 404 "Registro no encontrado", store)
  | some existing =>
    let canManage := hasPermission user.permissions "timesheets.manage"
    if !canManage && decide (existing.userId ≠ some user.uid) then
      (.error 403 "No podes eliminar este registro", store)
    else
      auditAndRespond env
        { store with timesheets := Function.update store.timesheets id none }
        user id "delete" (buildMovementPayload id existing)
        "No se pudo eliminar la hora" .ok

/-! ## Values used to state the claims -/

/-- An input that sets no field. -/
def EntryInput.empty : EntryInput :=
  { userId := none, date := none, startTime := none, endTime := none, client := none,
    task := none, workOrder := none, isHoliday := none }

/-- A composed entry read back as the `previous` argument of `composeEntry`. -/
def Entry.toPrevious (entry : Entry) : Previous :=
  { date := entry.date, startTime := entry.startTime, endTime := entry.endTime,
    client := some entry.client, task := some entry.task, workOrder := some entry.workOrder,
    isHoliday := some entry.isHoliday }

/-- A stored shift of user `u1`: 2024-05-01, 08:00 to 16:00, a holiday, created at
08:00 UTC of that day (epoch milliseconds 1714550400000). -/
def sampleRecord : StoredRecord :=
  { userId := some "u1"
    userDisplayName := some "Ana"
    username := some "ana"
    date := some "2024-05-01"
    startTime := some "08:00"
    endTime := some "16:00"
    startMinutes := some 480
    durationMinutes := some 480
    nightMinutes := some 0
    holidayMinutes := some 480
    isHoliday := some true
    client := some "Acme"
    task := some "Montaje"
    workOrder := some "OT-7"
    updatedAt := .timestamp 1714550400000
    updatedBy := some "u1"
    updatedByName := some "Ana"
    searchText := some "2024-05-01 acme montaje ot-7 ana ana"
    createdAt := .timestamp 1714550400000
    createdBy := some "u1"
    createdByName := some "Ana" }

/-- A store with `sampleRecord` under the id `t1`, the same record without `createdAt`
under `t2`, and two users. -/
def sampleStore : Store :=
  { timesheets := fun id =>
      if id = "t1" then some sampleRecord
      else if id = "t2" then some { sampleRecord with createdAt := .missing }
      else none
    users := fun id =>
      if id = "u1" then some { username := some "ana", displayName := some "Ana" }
      else if id = "u2" then some { username := some "luis", displayName := some "Luis" }
      else none
    movements := [] }

/-- An environment at the instant `now` whose audit sink works and whose date parser
knows midnight UTC of 2024-05-01 (epoch milliseconds 1714521600000). -/
def sampleEnv (now : ℕ) : Env :=
  { now := now
    toLowerCase := id
    dateParse := fun s => if s = "2024-05-01T00:00:00Z" then some 1714521600000 else none
    newId := "t9"
    auditFailure := none }

/-- The owner of `sampleRecord`, a user who may submit hours and nothing more. -/
def sampleOwner : Principal :=
  { uid := "u1", username := some "ana", displayName := some "Ana", roles := ["operario"],
    permissions := .object [("timesheets", .object [("submit", .flag true)])] }

/-- Another user who may submit hours and nothing more. -/
def sampleColleague : Principal :=
  { uid := "u2", username := some "luis", displayName := some "Luis", roles := ["operario"],
    permissions := .object [("timesheets", .object [("submit", .flag true)])] }

/-- A user whose merged permissions hold `timesheets.manage`. -/
def sampleManager : Principal :=
  { uid := "u3", username := some "marta", displayName := some "Marta", roles := ["jefe"],
    permissions :=
      .object [("timesheets", .object [("submit", .flag true), ("manage", .flag true)])] }

/-- A user with the role `admin` whose merged permissions lack `timesheets.manage`. -/
def sampleAdmin : Principal :=
  { uid := "u4", username := some "root", displayName := some "Root", roles := ["admin"],
    permissions := .object [("timesheets", .object [("submit", .flag true)])] }

/-! ## Query and filter engine -/

/-- A flag of the query string as `parseBoolean` sees it: absent, a boolean, or a text. -/
inductive FlagValue where
  | absent : FlagValue
  | bool (b : Bool) : FlagValue
  | text (s : String) : FlagValue

/-- `parseBoolean(value)`: undefined (`none`) for an absent value, the value itself for a
boolean, and for a text whether its lower-case form is one of `true`, `1`, `yes`, `si`. -/
def parseBoolean (toLowerCase : String → String) (value : FlagValue) : Option Bool :=
  match value with
  | .absent => none
  | .bool b => some b
  | .text s => some (["true", "1", "yes", "si"].contains (toLowerCase s))

/-- The `filters` argument of `applyFilters`. -/
structure Filters where
  client : Option String
  task : Option String
  workOrder : Option String
  user : Option String
  q : Option String
  isHoliday : Option Bool
  nightOnly : FlagValue

/-- A serialized document: its id and its data (`serializeDoc`). -/
abbrev Doc := String × StoredRecord

/-- `haystack.includes(needle)`. -/
def jsIncludes (haystack needle : String) : Bool :=
  decide (needle.data <:+: haystack.data)

/-- Truthiness of an optional string: set and not empty. -/
def isTruthy (value : Option String) : Bool :=
  match value with
  | some s => !s.data.isEmpty
  | none => false

/-- One step of `applyFilters` for a text criterion: when the criterion is truthy, keep
the items for which `keep needle item` holds, where `needle = lower(criterion)`. -/
def filterText (toLowerCase : String → String) (criterion : Option String)
    (keep : String → Doc → Bool) (result : List Doc) : List Doc :=
  if isTruthy criterion then result.filter (keep (lower toLowerCase (criterion.getD "")))
  else result

/-- `applyFilters(entries, filters)`. -/
def applyFilters (toLowerCase : String → String) (entries : List Doc) (filters : Filters) :
    List Doc :=
  let byClient := filterText toLowerCase filters.client
    (fun needle item => jsIncludes (lower toLowerCase (item.2.client.getD "")) needle) entries
  let byTask := filterText toLowerCase filters.task
    (fun needle item => jsIncludes (lower toLowerCase (item.2.task.getD "")) needle) byClient
  let byWorkOrder := filterText toLowerCase filters.workOrder
    (fun needle item => jsIncludes (lower toLowerCase (item.2.workOrder.getD "")) needle) byTask
  let byUser := filterText toLowerCase filters.user
    (fun needle item =>
      jsIncludes (lower toLowerCase (item.2.userDisplayName.getD "")) needle ||
        jsIncludes (lower toLowerCase (item.2.username.getD "")) needle) byWorkOrder
  let byHoliday :=
    match filters.isHoliday with
    | some flag => byUser.filter (fun item => item.2.isHoliday.getD false == flag)
    | none => byUser
  let byNight :=
    if (parseBoolean toLowerCase filters.nightOnly).getD false then
      byHoliday.filter (fun item => decide (item.2.nightMinutes.getD 0 > 0))
    else byHoliday
  filterText toLowerCase filters.q
    (fun needle item => jsIncludes (lower toLowerCase (item.2.searchText.getD "")) needle) byNight

/-- The criterion of the specification for one text field: an absent (or empty) criterion
accepts every value; otherwise the criterion, trimmed and lower-cased, has to occur in the
value, trimmed and lower-cased. -/
def textCriterionHolds (toLowerCase : String → String) (criterion : Option String)
    (value : Option String) : Bool :=
  match criterion with
  | none => true
  | some c =>
    c.data.isEmpty ||
      jsIncludes (lower toLowerCase (value.getD "")) (lower toLowerCase c)

/-- The conjunction of the specification: an item satisfies every supplied criterion. -/
def satisfiesCriteria (toLowerCase : String → String) (filters : Filters) (item : Doc) :
    Bool :=
  textCriterionHolds toLowerCase filters.client item.2.client &&
  textCriterionHolds toLowerCase filters.task item.2.task &&
  textCriterionHolds toLowerCase filters.workOrder item.2.workOrder &&
  (textCriterionHolds toLowerCase filters.user item.2.userDisplayName ||
    textCriterionHolds toLowerCase filters.user item.2.username) &&
  (match filters.isHoliday with
    | some flag => item.2.isHoliday.getD false == flag
    | none => true) &&
  (if (parseBoolean toLowerCase filters.nightOnly).getD false then
      decide (item.2.nightMinutes.getD 0 > 0)
    else true) &&
  textCriterionHolds toLowerCase filters.q item.2.searchText

/-- A `limit` as the handlers receive or compute it: absent, a text of the query string,
or a number. -/
inductive LimitArg where
  | absent : LimitArg
  | text (s : String) : LimitArg
  | number (n : JSNum) : LimitArg

/-- `Number(value)` for a limit; `Number(undefined)` is `NaN`. -/
def LimitArg.toNumber (value : LimitArg) : JSNum :=
  match value with
  | .absent => .nan
  | .text s => jsNumber s.data
  | .number n => n

/-- `n || fallback` on a number: the fallback replaces `NaN` and 0. -/
def numberOr (n : JSNum) (fallback : ℚ) : JSNum :=
  match n with
  | .nan => .fin fallback
  | .fin q => if q = 0 then .fin fallback else .fin q
  | .posInf => .posInf
  | .negInf => .negInf

/-- `Math.min(n, cap)` for a finite `cap`. -/
def minWith (n : JSNum) (cap : ℚ) : JSNum :=
  match n with
  | .nan => .nan
  | .fin q => .fin (min q cap)
  | .posInf => .fin cap
  | .negInf => .negInf

/-- The argument of `fetchEntries`; `from` and `to` are named `fromDate` and `toDate`. -/
structure Scope where
  userId : Option String
  date : Option String
  fromDate : Option String
  toDate : Option String
  limit : LimitArg
  order : Option String

/-- The query that `fetchEntries` hands to the store: the direction of `orderBy('date')`,
the `where` clauses that were added (`none` when a clause was not added) and the argument
of `limit`. -/
structure StoreQuery where
  ascending : Bool
  userId : Option String
  date : Option String
  fromDate : Option String
  toDate : Option String
  limit : JSNum

/-- The value of `Math.min(Number(limit) || 500, 1000)` in `fetchEntries`, where an absent
limit takes the default 500 of the parameter list. -/
def storeLimit (limit : LimitArg) : JSNum :=
  match limit with
  | .absent => minWith (numberOr (.fin 500) 500) 1000
  | value => minWith (numberOr value.toNumber 500) 1000

/-- The query built by `fetchEntries`. -/
def buildQuery (scope : Scope) : StoreQuery :=
  { ascending := decide (scope.order = some "asc")
    userId := if isTruthy scope.userId then scope.userId else none
    date := if isTruthy scope.date then scope.date else none
    fromDate := if isTruthy scope.date then none
      else if isTruthy scope.fromDate then scope.fromDate else none
    toDate := if isTruthy scope.date then none
      else if isTruthy scope.toDate then scope.toDate else none
    limit := storeLimit scope.limit }

/-- The start used by the comparator of `fetchEntries`:
`a.startMinutes ?? parseTimeToMinutes(a.startTime) ?? 0`. -/
def startOf (doc : Doc) : ℚ :=
  (doc.2.startMinutes <|> parseTimeToMinutes doc.2.startTime).getD 0

/-- The comparator of the `sort` in `fetchEntries`, for two documents that have a date. -/
def compareEntries (localeCompare : String → String → ℤ) (ascending : Bool) (a b : Doc) : ℚ :=
  let compareDate : ℤ :=
    if ascending then localeCompare (a.2.date.getD "") (b.2.date.getD "")
    else localeCompare (b.2.date.getD "") (a.2.date.getD "")
  if compareDate ≠ 0 then (compareDate : ℚ)
  else if ascending then startOf a - startOf b
  else startOf b - startOf a

/-- `docs.sort(comparator)`: a stable sort that puts `a` before `b` when the comparator is
not positive. The comparator is not called on fewer than two documents. It throws when
it reads `localeCompare` of a missing date; which calls the engine makes is not fixed,
and the model takes a list with a missing date as throwing. -/
def sortEntries (localeCompare : String → String → ℤ) (ascending : Bool) (docs : List Doc) :
    Except String (List Doc) :=
  if docs.length ≤ 1 then .ok docs
  else if docs.all (fun doc => doc.2.date.isSome) then
    .ok (docs.insertionSort (fun a b => compareEntries localeCompare ascending a b ≤ 0))
  else .error "Cannot read properties of undefined (reading 'localeCompare')"

/-- `fetchEntries(scope)`. The store is a parameter: `runQuery` answers the query with the
documents it returns, or throws. -/
def fetchEntries (localeCompare : String → String → ℤ)
    (runQuery : StoreQuery → Except String (List Doc)) (scope : Scope) :
    Except String (List Doc) :=
  match runQuery (buildQuery scope) with
  | .error msg => .error msg
  | .ok docs => sortEntries localeCompare (decide (scope.order = some "asc")) docs

/-! ## Summarizer -/

/-- A row of the summary. -/
structure SummaryRow where
  userId : Option String
  displayName : Option String
  username : Option String
  normalMinutes : ℚ
  holidayMinutes : ℚ
  nightMinutes : ℚ

/-- The property key under which `acc[key]` stores the row of an entry: the user id as a
string, an undefined user id being the key `undefined`. -/
def summaryKey (entry : Doc) : String := entry.2.userId.getD "undefined"

/-- The row created for the first entry of a key. -/
def newRow (entry : Doc) : SummaryRow :=
  { userId := entry.2.userId
    displayName := orOption entry.2.userDisplayName entry.2.username
    username := entry.2.username
    normalMinutes := 0
    holidayMinutes := 0
    nightMinutes := 0 }

/-- The three `+=` of the reducer applied to the row of the entry. -/
def addEntry (row : SummaryRow) (entry : Doc) : SummaryRow :=
  { row with
    holidayMinutes := row.holidayMinutes + entry.2.holidayMinutes.getD 0
    nightMinutes := row.nightMinutes + entry.2.nightMinutes.getD 0
    normalMinutes :=
      if entry.2.isHoliday.getD false then row.normalMinutes
      else row.normalMinutes +
        max (entry.2.durationMinutes.getD 0 - entry.2.nightMinutes.getD 0) 0 }

/-- Whether a key names a member that every plain object inherits from
`Object.prototype`; for such a key `acc[key]` is truthy although `acc` has no own property
of that name. -/
def isInheritedKey (key : String) : Bool :=
  ["constructor", "__defineGetter__", "__defineSetter__", "hasOwnProperty",
    "__lookupGetter__", "__lookupSetter__", "isPrototypeOf", "propertyIsEnumerable",
    "toString", "valueOf", "__proto__", "toLocaleString"].contains key

/-- The reducer of `summarizeTimesheets`; the accumulator object is the list of its own
keys with their rows, in the order in which the keys were created. For an inherited key
`acc[key]` is the inherited member: no row is created and the three `+=` fall on that
member, so the own properties of `acc` stay as they are. -/
def accumulate (acc : List (String × SummaryRow)) (entry : Doc) : List (String × SummaryRow) :=
  if isInheritedKey (summaryKey entry) then acc
  else
    let withRow :=
      if (acc.lookup (summaryKey entry)).isSome then acc
      else acc ++ [(summaryKey entry, newRow entry)]
    withRow.map (fun kv => if kv.1 = summaryKey entry then (kv.1, addEntry kv.2 entry) else kv)

/-- The function that the reducer maps over the accumulator: the three `+=` on the row of
the key of the entry, the other rows as they are. -/
def bumpRow (entry : Doc) (kv : String × SummaryRow) : String × SummaryRow :=
  if kv.1 = summaryKey entry then (kv.1, addEntry kv.2 entry) else kv

/-- Whether a property key is an array index: the canonical decimal form of an integer
below `2 ^ 32 - 1`. -/
def isArrayIndex (key : String) : Bool :=
  !key.data.isEmpty && key.data.all (isRadixDigit 10) &&
    (key.data.length == 1 || key.data.head? != some '0') &&
    decide (radixValue 10 key.data < 2 ^ 32 - 1)

/-- `Object.values(acc)`: the rows of the keys that are array indices, by ascending
index, then the rows of the other keys in the order of their creation. -/
def objectValues (acc : List (String × SummaryRow)) : List SummaryRow :=
  (((acc.filter (fun kv => isArrayIndex kv.1)).insertionSort
      (fun a b => radixValue 10 a.1.data ≤ radixValue 10 b.1.data)) ++
    acc.filter (fun kv => !isArrayIndex kv.1)).map Prod.snd

/-- The `sort` of the summary: a stable sort by `a.displayName.localeCompare(b.displayName)`.
The comparator is not called on fewer than two rows. It throws when it reads
`localeCompare` of a missing display name; which calls the engine makes is not fixed, and
the model takes a list with a missing display name as throwing. -/
def sortRows (localeCompare : String → String → ℤ) (rows : List SummaryRow) :
    Except String (List SummaryRow) :=
  if rows.length ≤ 1 then .ok rows
  else if rows.all (fun row => row.displayName.isSome) then
    .ok (rows.insertionSort
      (fun a b => localeCompare (a.displayName.getD "") (b.displayName.getD "") ≤ 0))
  else .error "Cannot read properties of undefined (reading 'localeCompare')"

/-- The summary computed by `summarizeTimesheets` from the filtered entries:
`Object.values(filtered.reduce(...)).sort(...)`. -/
def summaryOf (localeCompare : String → String → ℤ) (filtered : List Doc) :
    Except String (List SummaryRow) :=
  sortRows localeCompare (objectValues (filtered.foldl accumulate []))

/-- The query string of the list and summary endpoints (`req.query`). -/
structure ListQuery where
  userId : Option String
  date : Option String
  fromDate : Option String
  toDate : Option String
  limit : LimitArg
  client : Option String
  task : Option String
  workOrder : Option String
  user : Option String
  q : Option String
  isHoliday : FlagValue
  nightOnly : FlagValue

/-- The filters that `listTimesheets` and `summarizeTimesheets` build from the query. -/
def filtersOf (toLowerCase : String → String) (query : ListQuery) : Filters :=
  { client := query.client
    task := query.task
    workOrder := query.workOrder
    user := query.user
    q := query.q
    isHoliday := parseBoolean toLowerCase query.isHoliday
    nightOnly := query.nightOnly }

/-- `listTimesheets(req, res)`: the documents sent with status 200, or the message sent
with status 400. -/
def listTimesheets (toLowerCase : String → String) (localeCompare : String → String → ℤ)
    (runQuery : StoreQuery → Except String (List Doc)) (query : ListQuery) :
    Except String (List Doc) :=
  match fetchEntries localeCompare runQuery
      { userId := query.userId, date := query.date, fromDate := query.fromDate,
        toDate := query.toDate, limit := query.limit, order := none } with
  | .error msg => .error (orElse (some msg) "No se pudieron listar las horas")
  | .ok entries =>
    .ok ((applyFilters toLowerCase entries (filtersOf toLowerCase query)).map
      (fun doc => (doc.1, stripInternalFields doc.2)))

/-- The limit that `summarizeTimesheets` passes to `fetchEntries`:
`Math.min(Number(req.query?.limit) || 1000, 2000)`. -/
def summaryLimit (limit : LimitArg) : LimitArg :=
  .number (minWith (numberOr limit.toNumber 1000) 2000)

/-- `summarizeTimesheets(req, res)`: the rows sent with status 200, or the message sent
with status 400. -/
def summarizeTimesheets (toLowerCase : String → String) (localeCompare : String → String → ℤ)
    (runQuery : StoreQuery → Except String (List Doc)) (query : ListQuery) :
    Except String (List SummaryRow) :=
  match fetchEntries localeCompare runQuery
      { userId := query.userId, date := none, fromDate := query.fromDate,
        toDate := query.toDate, limit := summaryLimit query.limit, order := some "asc" } with
  | .error msg => .error (orElse (some msg) "No se pudo generar el resumen")
  | .ok entries =>
    match summaryOf localeCompare
        (applyFilters toLowerCase entries (filtersOf toLowerCase query)) with
    | .error msg => .error (orElse (some msg) "No se pudo generar el resumen")
    | .ok summary => .ok summary

/-! ## Summary view of the client -/

/-- The `totalMinutes` of a row in `HoursSummary.jsx`. -/
def totalMinutes (nightOnlyMode : Bool) (row : SummaryRow) : ℚ :=
  if nightOnlyMode then row.nightMinutes
  else row.normalMinutes + row.holidayMinutes + row.nightMinutes

/-! ## Notions used to state the claims on lists -/

/-- What is assumed of `localeCompare`: it is a consistent comparator, that is, swapping
the arguments swaps the sign, and "not after" is transitive. -/
def IsCollation (localeCompare : String → String → ℤ) : Prop :=
  (∀ a b, localeCompare a b ≤ 0 ↔ 0 ≤ localeCompare b a) ∧
    ∀ a b c, localeCompare a b ≤ 0 → localeCompare b c ≤ 0 → localeCompare a c ≤ 0

/-- The order of the specification for two fetched documents `a`, `b` with `a` first:
by date, then by start; ascending, or descending with the roles of `a` and `b` swapped. -/
def inFetchOrder (localeCompare : String → String → ℤ) (ascending : Bool) (a b : Doc) : Prop :=
  if ascending then
    localeCompare (a.2.date.getD "") (b.2.date.getD "") < 0 ∨
      (localeCompare (a.2.date.getD "") (b.2.date.getD "") = 0 ∧ startOf a ≤ startOf b)
  else
    localeCompare (b.2.date.getD "") (a.2.date.getD "") < 0 ∨
      (localeCompare (b.2.date.getD "") (a.2.date.getD "") = 0 ∧ startOf b ≤ startOf a)

/-- Filters with no criterion. -/
def Filters.empty : Filters :=
  { client := none, task := none, workOrder := none, user := none, q := none,
    isHoliday := none, nightOnly := .absent }

/-- A comparator by code points, used as the `localeCompare` of the examples. -/
def codePointCompare (a b : String) : ℤ :=
  if a < b then -1 else if a = b then 0 else 1

/-- The entries of a user: those whose userId is `u`. -/
def entriesOf (entries : List Doc) (u : String) : List Doc :=
  entries.filter (fun e => decide (e.2.userId = some u))

/-- A holiday shift of user `u1`, 14:00 to 22:00: 480 minutes, 60 of them at night. -/
def sampleHolidayShift : Doc :=
  ("h1", { sampleRecord with
    startTime := some "14:00", endTime := some "22:00", startMinutes := some 840,
    nightMinutes := some 60 })

/-- A normal shift of user `u1`, 08:00 to 16:00 on the next day: 480 minutes, none at
night. -/
def sampleNormalShift : Doc :=
  ("n1", { sampleRecord with
    date := some "2024-05-02", isHoliday := some false, holidayMinutes := some 0 })

/-- A normal night shift of user `u2`, 22:00 to 06:00: 480 minutes, all at night. -/
def sampleNightShift : Doc :=
  ("n2", { sampleRecord with
    userId := some "u2", userDisplayName := some "Luis", username := some "luis",
    startTime := some "22:00", endTime := some "06:00", startMinutes := some 1320,
    isHoliday := some false, holidayMinutes := some 0, nightMinutes := some 480 })

/-- The invariants of the data model on a stored entry: the night minutes lie between 0
and the duration, and the holiday minutes are the duration on a holiday and 0
otherwise. -/
def SatisfiesInvariants (entry : Doc) : Prop :=
  0 ≤ entry.2.nightMinutes.getD 0 ∧
    entry.2.nightMinutes.getD 0 ≤ entry.2.durationMinutes.getD 0 ∧
    entry.2.holidayMinutes.getD 0
      = if entry.2.isHoliday.getD false then entry.2.durationMinutes.getD 0 else 0

/-! ## Lemmas on characters and on `Number` -/

theorem char_le_iff (a b : Char) : a ≤ b ↔ a.toNat ≤ b.toNat := by
  rw [Char.le_def]
  exact Iff.rfl

theorem digitChar_toNat (k : ℕ) (hk : k < 10) : (digitChar k).toNat = 48 + k := by
  interval_cases k <;> rfl

theorem exists_digitChar (c : Char) (j : ℕ) (hj : j < 10) (h0 : '0' ≤ c) (hc : c ≤ digitChar j) :
    ∃ k, k ≤ j ∧ c = digitChar k := by
  rw [char_le_iff] at h0 hc
  rw [digitChar_toNat j hj] at hc
  have h48 : ('0' : Char).toNat = 48 := rfl
  rw [h48] at h0
  refine ⟨c.toNat - 48, by omega, ?_⟩
  have : 48 + (c.toNat - 48) = c.toNat := by omega
  rw [digitChar, this, Char.ofNat_toNat]

theorem digitValue_digitChar (k : ℕ) (hk : k < 10) : digitValue (digitChar k) = some k := by
  interval_cases k <;> rfl

theorem isRadixDigit_digitChar (k : ℕ) (hk : k < 10) : isRadixDigit 10 (digitChar k) = true := by
  interval_cases k <;> rfl

theorem isJsWhiteSpace_digitChar (k : ℕ) (hk : k < 10) : isJsWhiteSpace (digitChar k) = false := by
  interval_cases k <;> rfl

theorem digitChar_not_marker (k : ℕ) (hk : k < 10) :
    digitChar k ≠ '+' ∧ digitChar k ≠ '-' ∧ digitChar k ≠ 'I' ∧ digitChar k ≠ 'x' ∧
      digitChar k ≠ 'X' ∧ digitChar k ≠ 'o' ∧ digitChar k ≠ 'O' ∧ digitChar k ≠ 'b' ∧
      digitChar k ≠ 'B' ∧ digitChar k ≠ ':' := by
  interval_cases k <;> decide

theorem radixValue_two (a b : ℕ) (ha : a < 10) (hb : b < 10) :
    radixValue 10 [digitChar a, digitChar b] = 10 * a + b := by
  simp [radixValue, digitValue_digitChar, ha, hb]

/-- `Number` of two decimal digits is the number they write. -/
theorem jsNumber_two_digits (a b : ℕ) (ha : a < 10) (hb : b < 10) :
    jsNumber [digitChar a, digitChar b] = .fin ((10 * a + b : ℕ) : ℚ) := by
  have wa := isJsWhiteSpace_digitChar a ha
  have wb := isJsWhiteSpace_digitChar b hb
  have da := isRadixDigit_digitChar a ha
  have db := isRadixDigit_digitChar b hb
  obtain ⟨a1, a2, a3, -⟩ := digitChar_not_marker a ha
  obtain ⟨-, -, -, b4, b5, b6, b7, b8, b9, -⟩ := digitChar_not_marker b hb
  have htrim : trimChars [digitChar a, digitChar b] = [digitChar a, digitChar b] := by
    simp [trimChars, wa, wb]
  have hsigned : parseSignedDecimal [digitChar a, digitChar b]
      = parseUnsignedDecimal [digitChar a, digitChar b] := by
    unfold parseSignedDecimal
    split
    · next h => simp at h; exact absurd h.1 a1
    · next h => simp at h; exact absurd h.1 a2
    · rfl
  have hlit : parseNumericLiteral [digitChar a, digitChar b]
      = parseSignedDecimal [digitChar a, digitChar b] := by
    unfold parseNumericLiteral
    split
    · next x ds h =>
      simp at h
      obtain ⟨-, hx, -⟩ := h
      subst hx
      simp [b4, b5, b6, b7, b8, b9]
    · rfl
  have hdec : parseUnsignedDecimal [digitChar a, digitChar b]
      = .fin ((radixValue 10 [digitChar a, digitChar b] : ℕ) : ℚ) := by
    simp [parseUnsignedDecimal, a3, da, db, parseExponent]
  simp only [jsNumber, htrim, hlit, hsigned, hdec, radixValue_two a b ha hb]
  simp

theorem jsSplit_clock (a b c d : Char) (ha : a ≠ ':') (hb : b ≠ ':') (hc : c ≠ ':')
    (hd : d ≠ ':') : jsSplit ':' [a, b, ':', c, d] = [[a, b], [c, d]] := by
  simp [jsSplit, ha, hb, hc, hd]

theorem parseTimeToMinutes_clockString (h m : ℕ) (hh : h ≤ 23) (hm : m ≤ 59) :
    parseTimeToMinutes (some (clockString h m)) = some (60 * (h : ℚ) + m) := by
  have h1 : h / 10 < 10 := by omega
  have h2 : h % 10 < 10 := by omega
  have m1 : m / 10 < 10 := by omega
  have m2 : m % 10 < 10 := by omega
  have hsplit := jsSplit_clock _ _ _ _ (digitChar_not_marker _ h1).2.2.2.2.2.2.2.2.2
    (digitChar_not_marker _ h2).2.2.2.2.2.2.2.2.2 (digitChar_not_marker _ m1).2.2.2.2.2.2.2.2.2
    (digitChar_not_marker _ m2).2.2.2.2.2.2.2.2.2
  have hH : 10 * (h / 10) + h % 10 = h := by omega
  have hM : 10 * (m / 10) + m % 10 = m := by omega
  have c0 : ¬ ((h : ℚ) < 0) := by
    have : (0 : ℚ) ≤ h := Nat.cast_nonneg h
    linarith
  have c1 : ¬ ((h : ℚ) > 23) := by
    have : (h : ℚ) ≤ 23 := by exact_mod_cast hh
    linarith
  have c2 : ¬ ((m : ℚ) < 0) := by
    have : (0 : ℚ) ≤ m := Nat.cast_nonneg m
    linarith
  have c3 : ¬ ((m : ℚ) > 59) := by
    have : (m : ℚ) ≤ 59 := by exact_mod_cast hm
    linarith
  simp only [parseTimeToMinutes, clockString, hsplit, jsNumber_two_digits _ _ h1 h2,
    jsNumber_two_digits _ _ m1 m2, hH, hM]
  simp only [List.isEmpty_cons, List.contains, List.elem, Bool.false_or]
  have e3 : (':' == digitChar (h / 10)) = false :=
    beq_eq_false_iff_ne.mpr (Ne.symm (digitChar_not_marker _ h1).2.2.2.2.2.2.2.2.2)
  have e4 : (':' == digitChar (h % 10)) = false :=
    beq_eq_false_iff_ne.mpr (Ne.symm (digitChar_not_marker _ h2).2.2.2.2.2.2.2.2.2)
  simp [e3, e4, c0, c1, c2, c3]
  ring

theorem matchesTimePattern_clockString (h m : ℕ) (hh : h ≤ 23) (hm : m ≤ 59) :
    matchesTimePattern (clockString h m) = true := by
  have key : ∀ x : Fin 24, ∀ y : Fin 60, matchesTimePattern (clockString x y) = true := by
    decide
  exact key ⟨h, by omega⟩ ⟨m, by omega⟩

theorem exists_clockString_of_matches (t : String) (ht : matchesTimePattern t = true) :
    ∃ h m : ℕ, h ≤ 23 ∧ m ≤ 59 ∧ t = clockString h m := by
  obtain ⟨cs⟩ := t
  unfold matchesTimePattern at ht
  split at ht
  · next a b sep c d hdata =>
    simp only [decide_eq_true_eq] at ht
    obtain ⟨hab, hsep, ⟨hc0, hc5⟩, hd0, hd9⟩ := ht
    simp only at hdata
    subst hdata
    subst hsep
    obtain ⟨kc, hkc, rfl⟩ := exists_digitChar c 5 (by norm_num) hc0 hc5
    obtain ⟨kd, hkd, rfl⟩ := exists_digitChar d 9 (by norm_num) hd0 hd9
    have hm : ∀ ka kb : ℕ, ka < 10 → kb < 10 → 10 * ka + kb ≤ 23 →
        ∃ h m : ℕ, h ≤ 23 ∧ m ≤ 59 ∧
          String.mk [digitChar ka, digitChar kb, ':', digitChar kc, digitChar kd]
            = clockString h m := by
      intro ka kb hka hkb hle
      refine ⟨10 * ka + kb, 10 * kc + kd, hle, by omega, ?_⟩
      have e1 : (10 * ka + kb) / 10 = ka := by omega
      have e2 : (10 * ka + kb) % 10 = kb := by omega
      have e3 : (10 * kc + kd) / 10 = kc := by omega
      have e4 : (10 * kc + kd) % 10 = kd := by omega
      simp only [clockString, e1, e2, e3, e4]
    rcases hab with ⟨ha, hb0, hb9⟩ | ⟨ha, hb0, hb3⟩
    · obtain ⟨kb, hkb, rfl⟩ := exists_digitChar b 9 (by norm_num) hb0 hb9
      rcases ha with rfl | rfl
      · exact hm 0 kb (by norm_num) (by omega) (by omega)
      · exact hm 1 kb (by norm_num) (by omega) (by omega)
    · obtain ⟨kb, hkb, rfl⟩ := exists_digitChar b 3 (by norm_num) hb0 hb3
      subst ha
      exact hm 2 kb (by norm_num) (by omega) (by omega)
  · exact absurd ht (by simp)

/-- Every value returned by `parseTimeToMinutes` lies between 0 and 23 * 60 + 59. -/
theorem parseTimeToMinutes_range (time : Option String) (v : ℚ)
    (h : parseTimeToMinutes time = some v) : 0 ≤ v ∧ v ≤ 1439 := by
  unfold parseTimeToMinutes at h
  split at h
  · exact absurd h (by simp)
  · split at h
    · exact absurd h (by simp)
    · split at h
      · split at h
        · split at h
          · exact absurd h (by simp)
          · next hours minutes _ _ hr =>
            simp only [Option.some.injEq] at h
            simp only [not_or, not_lt] at hr
            obtain ⟨h1, h2, h3, h4⟩ := hr
            constructor <;> linarith
        · exact absurd h (by simp)
      · exact absurd h (by simp)

/-! ## Lemmas on the time arithmetic -/

/-- The end of the shift on the two-day scale used by `computeNightMinutes`. -/
theorem computeNightMinutes_eq (s e : ℚ) :
    computeNightMinutes s e =
      min (addOverlap s (if e ≤ s then e + 1440 else e)
            (addOverlap s (if e ≤ s then e + 1440 else e)
              (addOverlap s (if e ≤ s then e + 1440 else e)
                (addOverlap s (if e ≤ s then e + 1440 else e) 0 (1260, 1440)) (1440, 1800))
              (2700, 2880)) (2880, 3240))
        ((if e ≤ s then e + 1440 else e) - s) := by
  simp only [computeNightMinutes, NIGHT_WINDOWS, DAY_MINUTES, List.map, List.cons_append,
    List.nil_append, List.foldl]
  norm_num

theorem addOverlap_before (s ae m lo hi : ℚ) (h : ae ≤ lo) : addOverlap s ae m (lo, hi) = m := by
  unfold addOverlap
  have h1 : min ae hi ≤ max s lo := le_trans (min_le_left _ _) (le_trans h (le_max_right _ _))
  simp only [gt_iff_lt, not_lt.mpr h1, if_false]

theorem addOverlap_after (s ae m lo hi : ℚ) (h : hi ≤ s) : addOverlap s ae m (lo, hi) = m := by
  unfold addOverlap
  have h1 : min ae hi ≤ max s lo := le_trans (min_le_right _ _) (le_trans h (le_max_left _ _))
  simp only [gt_iff_lt, not_lt.mpr h1, if_false]

theorem addOverlap_eq (s ae m lo hi : ℚ) (h1 : max s lo < min ae hi) :
    addOverlap s ae m (lo, hi) = m + (min ae hi - max s lo) := by
  unfold addOverlap
  simp only [gt_iff_lt, h1, if_true]

theorem le_addOverlap (s ae m : ℚ) (w : ℚ × ℚ) : m ≤ addOverlap s ae m w := by
  unfold addOverlap
  simp only
  split_ifs with h
  · linarith
  · exact le_refl m

theorem computeDuration_eq (s e : ℚ) :
    computeDuration s e = (if e ≤ s then e + 1440 else e) - s := by
  unfold computeDuration DAY_MINUTES
  simp only
  by_cases h : e ≤ s
  · have : e - s ≤ 0 := by linarith
    rw [if_pos this, if_pos h]; ring
  · have : ¬ (e - s ≤ 0) := by intro h2; apply h; linarith
    rw [if_neg this, if_neg h]

theorem computeNightMinutes_le_duration (s e : ℚ) :
    computeNightMinutes s e ≤ computeDuration s e := by
  rw [computeNightMinutes_eq, computeDuration_eq]
  exact min_le_right _ _

theorem computeNightMinutes_nonneg (s e : ℚ) (h : 0 ≤ computeDuration s e) :
    0 ≤ computeNightMinutes s e := by
  rw [computeDuration_eq] at h
  rw [computeNightMinutes_eq]
  refine le_min ?_ h
  exact le_trans (le_trans (le_trans (le_addOverlap _ _ _ _) (le_addOverlap _ _ _ _))
    (le_addOverlap _ _ _ _)) (le_addOverlap _ _ _ _)

theorem computeDuration_pos (s e : ℚ) (hs : s ≤ 1439) (he : 0 ≤ e) :
    0 < computeDuration s e := by
  rw [computeDuration_eq]
  split_ifs with h <;> linarith

/-- A same-day shift that ends by 06:00 meets none of the four ranges. -/
theorem computeNightMinutes_before_six (s e : ℕ) (hse : s < e) (he : e ≤ 360) :
    computeNightMinutes s e = 0 := by
  have hse' : (s : ℚ) < e := by exact_mod_cast hse
  have he' : (e : ℚ) ≤ 360 := by exact_mod_cast he
  rw [computeNightMinutes_eq, if_neg (not_le.mpr hse')]
  rw [addOverlap_before _ _ _ 2880 3240 (by linarith),
    addOverlap_before _ _ _ 2700 2880 (by linarith),
    addOverlap_before _ _ _ 1440 1800 (by linarith),
    addOverlap_before _ _ _ 1260 1440 (by linarith)]
  exact min_eq_left (by linarith)

/-- A 24-hour shift that starts at or after 06:00 contains one full night. -/
theorem computeNightMinutes_full_day (s : ℕ) (hs : 360 ≤ s) (hs' : s ≤ 1439) :
    computeNightMinutes s s = 540 := by
  have h1 : (360 : ℚ) ≤ s := by exact_mod_cast hs
  have h2 : (s : ℚ) ≤ 1439 := by exact_mod_cast hs'
  rw [computeNightMinutes_eq, if_pos (le_refl _)]
  have hmin2 : min ((s : ℚ) + 1440) 1800 = 1800 := min_eq_right (by linarith)
  have hmax2 : max (s : ℚ) 1440 = 1440 := max_eq_right (by linarith)
  have hmin1 : min ((s : ℚ) + 1440) 1440 = 1440 := min_eq_right (by linarith)
  rw [addOverlap_before _ _ _ 2880 3240 (by linarith)]
  by_cases hc : (s : ℚ) ≤ 1260
  · have hmax1 : max (s : ℚ) 1260 = 1260 := max_eq_right hc
    rw [addOverlap_before _ _ _ 2700 2880 (by linarith),
      addOverlap_eq _ _ _ 1440 1800 (by rw [hmax2, hmin2]; norm_num), hmax2, hmin2,
      addOverlap_eq _ _ _ 1260 1440 (by rw [hmax1, hmin1]; norm_num), hmax1, hmin1]
    rw [min_eq_left (by linarith)]
    norm_num
  · have hc' : (1260 : ℚ) < s := not_le.mp hc
    have hmax1 : max (s : ℚ) 1260 = s := max_eq_left (le_of_lt hc')
    have hmax3 : max (s : ℚ) 2700 = 2700 := max_eq_right (by linarith)
    have hmin3 : min ((s : ℚ) + 1440) 2880 = (s : ℚ) + 1440 := min_eq_left (by linarith)
    rw [addOverlap_eq _ _ _ 2700 2880 (by rw [hmax3, hmin3]; linarith), hmax3, hmin3,
      addOverlap_eq _ _ _ 1440 1800 (by rw [hmax2, hmin2]; norm_num), hmax2, hmin2,
      addOverlap_eq _ _ _ 1260 1440 (by rw [hmax1, hmin1]; linarith), hmax1, hmin1]
    rw [min_eq_left (by linarith)]
    ring

/-- A 24-hour shift that starts before 06:00 loses the minutes up to 06:00 of its first
day: only the evening and the part of the next morning before the shift ends count. -/
theorem computeNightMinutes_full_day_early (s : ℕ) (hs : s < 360) :
    computeNightMinutes s s = 180 + s := by
  have h1 : (s : ℚ) < 360 := by exact_mod_cast hs
  have h0 : (0 : ℚ) ≤ s := Nat.cast_nonneg s
  rw [computeNightMinutes_eq, if_pos (le_refl _)]
  have hmax2 : max (s : ℚ) 1440 = 1440 := max_eq_right (by linarith)
  have hmin2 : min ((s : ℚ) + 1440) 1800 = (s : ℚ) + 1440 := min_eq_left (by linarith)
  have hmax1 : max (s : ℚ) 1260 = 1260 := max_eq_right (by linarith)
  have hmin1 : min ((s : ℚ) + 1440) 1440 = 1440 := min_eq_right (by linarith)
  rw [addOverlap_before _ _ _ 2880 3240 (by linarith),
    addOverlap_before _ _ _ 2700 2880 (by linarith)]
  by_cases hz : (s : ℚ) = 0
  · rw [addOverlap_before _ _ _ 1440 1800 (by linarith),
      addOverlap_eq _ _ _ 1260 1440 (by rw [hmax1, hmin1]; norm_num), hmax1, hmin1]
    rw [min_eq_left (by linarith), hz]
    norm_num
  · have hpos : (0 : ℚ) < s := lt_of_le_of_ne h0 (Ne.symm hz)
    rw [addOverlap_eq _ _ _ 1440 1800 (by rw [hmax2, hmin2]; linarith), hmax2, hmin2,
      addOverlap_eq _ _ _ 1260 1440 (by rw [hmax1, hmin1]; norm_num), hmax1, hmin1]
    rw [min_eq_left (by linarith)]
    ring

/-! ## Lemmas on the entry composer -/

/-- When both merged times parse, `composeEntry` returns the composed entry. -/
theorem composeEntry_of_parsed (toLowerCase : String → String) (now : ℕ) (previous : Previous)
    (input : EntryInput) (owner : Owner) (actor : Actor) (sm em : ℚ)
    (hs : parseTimeToMinutes (input.startTime <|> previous.startTime) = some sm)
    (he : parseTimeToMinutes (input.endTime <|> previous.endTime) = some em) :
    composeEntry toLowerCase now previous input owner actor = .ok
      { userId := owner.userId
        userDisplayName := owner.displayName
        username := owner.username
        date := input.date <|> previous.date
        startTime := input.startTime <|> previous.startTime
        endTime := input.endTime <|> previous.endTime
        startMinutes := sm
        durationMinutes := computeDuration sm em
        nightMinutes := computeNightMinutes sm em
        holidayMinutes :=
          if input.isHoliday.getD (previous.isHoliday.getD false) then computeDuration sm em
          else 0
        isHoliday := input.isHoliday.getD (previous.isHoliday.getD false)
        client := sanitizeText ((input.client <|> previous.client).getD "")
        task := sanitizeText ((input.task <|> previous.task).getD "")
        workOrder := sanitizeText ((input.workOrder <|> previous.workOrder).getD "")
        updatedAt := now
        updatedBy := actor.uid
        updatedByName := orElse actor.displayName (orElse actor.username "Sistema")
        searchText :=
          buildSearchText toLowerCase (input.date <|> previous.date)
            (sanitizeText ((input.client <|> previous.client).getD ""))
            (sanitizeText ((input.task <|> previous.task).getD ""))
            (sanitizeText ((input.workOrder <|> previous.workOrder).getD ""))
            owner.displayName owner.username } := by
  have hpos : ¬ (computeDuration sm em ≤ 0) :=
    not_le.mpr (computeDuration_pos sm em (parseTimeToMinutes_range _ _ hs).2
      (parseTimeToMinutes_range _ _ he).1)
  simp only [composeEntry, hs, he, hpos, if_false]

/-- A well-formed time string parses to an integer number of minutes below 1440. -/
theorem parseTimeToMinutes_of_matches (t : String) (ht : matchesTimePattern t = true) :
    ∃ n : ℕ, n ≤ 1439 ∧ parseTimeToMinutes (some t) = some (n : ℚ) := by
  obtain ⟨h, m, hh, hm, rfl⟩ := exists_clockString_of_matches t ht
  refine ⟨60 * h + m, by omega, ?_⟩
  rw [parseTimeToMinutes_clockString h m hh hm]
  push_cast
  rfl

theorem composeEntry_same_times (toLowerCase : String → String) (now : ℕ)
    (previous : Previous) (input : EntryInput) (owner : Owner) (actor : Actor) (s : String)
    (hvalid : matchesTimePattern s = true)
    (hstart : (input.startTime <|> previous.startTime) = some s)
    (hend : (input.endTime <|> previous.endTime) = some s) :
    ∃ entry, composeEntry toLowerCase now previous input owner actor = .ok entry ∧
      entry.durationMinutes = 1440 := by
  obtain ⟨n, -, hn⟩ := parseTimeToMinutes_of_matches s hvalid
  refine ⟨_, composeEntry_of_parsed toLowerCase now previous input owner actor n n
    (by rw [hstart, hn]) (by rw [hend, hn]), ?_⟩
  simp [computeDuration, DAY_MINUTES]
  norm_num

theorem composeEntry_bounds (toLowerCase : String → String) (now : ℕ)
    (previous : Previous) (input : EntryInput) (owner : Owner) (actor : Actor) (s e : String)
    (hs : matchesTimePattern s = true) (he : matchesTimePattern e = true)
    (hstart : (input.startTime <|> previous.startTime) = some s)
    (hend : (input.endTime <|> previous.endTime) = some e) :
    ∃ entry, composeEntry toLowerCase now previous input owner actor = .ok entry ∧
      0 ≤ entry.nightMinutes ∧ entry.nightMinutes ≤ entry.durationMinutes := by
  obtain ⟨n, hn1, hn⟩ := parseTimeToMinutes_of_matches s hs
  obtain ⟨k, hk1, hk⟩ := parseTimeToMinutes_of_matches e he
  have hn' : (n : ℚ) ≤ 1439 := by exact_mod_cast hn1
  refine ⟨_, composeEntry_of_parsed toLowerCase now previous input owner actor n k
    (by rw [hstart, hn]) (by rw [hend, hk]), ?_, ?_⟩
  · exact computeNightMinutes_nonneg _ _
      (le_of_lt (computeDuration_pos _ _ hn' (Nat.cast_nonneg k)))
  · exact computeNightMinutes_le_duration _ _

/-! ## Claims on `parseTimeToMinutes` -/

/-- C1, as stated, fails: the string `1:5` is not of the form HH:MM (it does not match
`TIME_PATTERN`), yet `parseTimeToMinutes` splits it into `1` and `5`, converts both with
`Number` and returns 65 instead of null. -/
theorem parseTimeToMinutes_accepts_malformed :
    parseTimeToMinutes (some "1:5") = some 65 ∧ matchesTimePattern "1:5" = false := by
  have hsplit : jsSplit ':' "1:5".data = [['1'], ['5']] := by decide
  have h1 : jsNumber ['1'] = .fin 1 := by
    simp [jsNumber, trimChars, isJsWhiteSpace, parseNumericLiteral, parseSignedDecimal,
      parseUnsignedDecimal, isRadixDigit, digitValue, parseExponent, radixValue]
  have h5 : jsNumber ['5'] = .fin 5 := by
    simp [jsNumber, trimChars, isJsWhiteSpace, parseNumericLiteral, parseSignedDecimal,
      parseUnsignedDecimal, isRadixDigit, digitValue, parseExponent, radixValue]
  refine ⟨?_, by decide⟩
  simp only [parseTimeToMinutes, hsplit, h1, h5]
  norm_num

/-- C1, amended: every string of the form HH:MM with hours 00-23 and minutes 00-59 (every
match of `TIME_PATTERN`) is accepted by `parseTimeToMinutes`, which returns a minute value
for it, and every string without a colon is rejected with null. -/
theorem parseTimeToMinutes_pattern_accepted (t : String) :
    (matchesTimePattern t = true → (parseTimeToMinutes (some t)).isSome = true) ∧
      (t.data.contains ':' = false → parseTimeToMinutes (some t) = none) := by
  constructor
  · intro ht
    obtain ⟨n, -, hn⟩ := parseTimeToMinutes_of_matches t ht
    rw [hn]
    rfl
  · intro hc
    have hguard : (t.data.isEmpty || !t.data.contains ':') = true := by
      rw [hc]
      simp
    simp only [parseTimeToMinutes, hguard, if_true]

theorem parseTimeToMinutes_pattern_accepted_witness :
    (parseTimeToMinutes (some "12:30")).isSome = true ∧
      parseTimeToMinutes (some "1230") = none :=
  ⟨(parseTimeToMinutes_pattern_accepted "12:30").1 (by decide),
    (parseTimeToMinutes_pattern_accepted "1230").2 (by decide)⟩

/-- C2: for every hour `h` in 0..23 and minute `m` in 0..59, the well-formed string HH:MM
(which matches `TIME_PATTERN`) is parsed by `parseTimeToMinutes` to exactly `60 * h + m`,
an integer between 0 and 1439. -/
theorem parseTimeToMinutes_wellformed (h m : ℕ) (hh : h ≤ 23) (hm : m ≤ 59) :
    matchesTimePattern (clockString h m) = true ∧
      parseTimeToMinutes (some (clockString h m)) = some ((60 * h + m : ℕ) : ℚ) ∧
      60 * h + m ≤ 1439 := by
  refine ⟨matchesTimePattern_clockString h m hh hm, ?_, by omega⟩
  rw [parseTimeToMinutes_clockString h m hh hm]
  push_cast
  rfl

theorem parseTimeToMinutes_wellformed_witness :
    matchesTimePattern (clockString 23 59) = true ∧
      parseTimeToMinutes (some (clockString 23 59)) = some ((60 * 23 + 59 : ℕ) : ℚ) ∧
      60 * 23 + 59 ≤ 1439 :=
  parseTimeToMinutes_wellformed 23 59 (by decide) (by decide)

/-! ## Claims on `computeDuration` and `composeEntry` -/

/-- C3: for all start and end minutes in 0..1439, `computeDuration` equals `end - start`
when that is positive and `end - start + 1440` otherwise, and the result lies in the
interval (0, 1440]. The statement holds for equal start and end too (the result is then
1440), so the hypothesis that they differ is not needed. -/
theorem computeDuration_wraparound (s e : ℕ) (hs : s ≤ 1439) (he : e ≤ 1439) :
    computeDuration s e = (if (0 : ℚ) < (e : ℚ) - s then (e : ℚ) - s else (e : ℚ) - s + 1440) ∧
      0 < computeDuration s e ∧ computeDuration s e ≤ 1440 := by
  have hs' : (s : ℚ) ≤ 1439 := by exact_mod_cast hs
  have he' : (e : ℚ) ≤ 1439 := by exact_mod_cast he
  have hs0 : (0 : ℚ) ≤ s := Nat.cast_nonneg s
  have he0 : (0 : ℚ) ≤ e := Nat.cast_nonneg e
  rw [computeDuration_eq]
  by_cases h : (e : ℚ) ≤ s
  · have hlt : ¬ ((0 : ℚ) < (e : ℚ) - s) := by linarith
    rw [if_pos h, if_neg hlt]
    refine ⟨by ring, by linarith, by linarith⟩
  · have hlt : (0 : ℚ) < (e : ℚ) - s := by linarith
    rw [if_neg h, if_pos hlt]
    refine ⟨rfl, hlt, by linarith⟩

theorem computeDuration_wraparound_witness :
    computeDuration ((1320 : ℕ) : ℚ) ((420 : ℕ) : ℚ) =
        (if (0 : ℚ) < ((420 : ℕ) : ℚ) - ((1320 : ℕ) : ℚ) then ((420 : ℕ) : ℚ) - ((1320 : ℕ) : ℚ)
          else ((420 : ℕ) : ℚ) - ((1320 : ℕ) : ℚ) + 1440) ∧
      0 < computeDuration ((1320 : ℕ) : ℚ) ((420 : ℕ) : ℚ) ∧
      computeDuration ((1320 : ℕ) : ℚ) ((420 : ℕ) : ℚ) ≤ 1440 :=
  computeDuration_wraparound 1320 420 (by decide) (by decide)

/-- C4, as stated, fails: a submission with startTime = endTime = 08:00 is not rejected;
`composeEntry` returns an entry, whose duration is 1440 minutes. -/
theorem composeEntry_equal_times_accepted :
    ∃ entry,
      composeEntry id 0 Previous.empty
          { userId := none, date := some "2024-05-01", startTime := some "08:00",
            endTime := some "08:00", client := none, task := none, workOrder := none,
            isHoliday := none }
          { userId := "u1", username := "ana", displayName := "Ana" }
          { uid := "u1", displayName := some "Ana", username := some "ana" } = .ok entry ∧
        entry.durationMinutes = 1440 :=
  composeEntry_same_times id 0 Previous.empty _ _ _ "08:00" (by decide) rfl rfl

/-- C4, amended: a submission whose startTime equals its endTime is composed as a 24-hour
shift: for every valid time `s`, `composeEntry` with merged startTime = endTime = `s`
returns an entry (no empty-duration error) with durationMinutes = 1440. -/
theorem composeEntry_equal_times_full_day (toLowerCase : String → String) (now : ℕ)
    (previous : Previous) (input : EntryInput) (owner : Owner) (actor : Actor) (s : String)
    (hvalid : matchesTimePattern s = true)
    (hstart : (input.startTime <|> previous.startTime) = some s)
    (hend : (input.endTime <|> previous.endTime) = some s) :
    ∃ entry, composeEntry toLowerCase now previous input owner actor = .ok entry ∧
      entry.durationMinutes = 1440 :=
  composeEntry_same_times toLowerCase now previous input owner actor s hvalid hstart hend

theorem composeEntry_equal_times_full_day_witness :
    ∃ entry,
      composeEntry id 7 Previous.empty
          { userId := none, date := some "2024-05-02", startTime := some "23:15",
            endTime := some "23:15", client := some "Obra", task := none, workOrder := none,
            isHoliday := some true }
          { userId := "u2", username := "luis", displayName := "Luis" }
          { uid := "u2", displayName := none, username := some "luis" } = .ok entry ∧
        entry.durationMinutes = 1440 :=
  composeEntry_equal_times_full_day id 7 Previous.empty _ _ _ "23:15" (by decide) rfl rfl

/-- C5: for every pair of valid start and end times, `composeEntry` returns an entry and
that entry satisfies 0 <= nightMinutes <= durationMinutes. -/
theorem composeEntry_night_within_duration (toLowerCase : String → String) (now : ℕ)
    (previous : Previous) (input : EntryInput) (owner : Owner) (actor : Actor) (s e : String)
    (hs : matchesTimePattern s = true) (he : matchesTimePattern e = true)
    (hstart : (input.startTime <|> previous.startTime) = some s)
    (hend : (input.endTime <|> previous.endTime) = some e) :
    ∃ entry, composeEntry toLowerCase now previous input owner actor = .ok entry ∧
      0 ≤ entry.nightMinutes ∧ entry.nightMinutes ≤ entry.durationMinutes :=
  composeEntry_bounds toLowerCase now previous input owner actor s e hs he hstart hend

theorem composeEntry_night_within_duration_witness :
    ∃ entry,
      composeEntry id 0 Previous.empty
          { userId := none, date := some "2024-05-03", startTime := some "22:00",
            endTime := some "07:00", client := none, task := none, workOrder := none,
            isHoliday := none }
          { userId := "u1", username := "ana", displayName := "Ana" }
          { uid := "u1", displayName := some "Ana", username := some "ana" } = .ok entry ∧
        0 ≤ entry.nightMinutes ∧ entry.nightMinutes ≤ entry.durationMinutes :=
  composeEntry_night_within_duration id 0 Previous.empty _ _ _ "22:00" "07:00" (by decide)
    (by decide) rfl rfl

/-! ## Claims on `computeNightMinutes` -/

/-- C6: a shift entirely within daytime has no night minutes: for all start and end with
360 <= start < end <= 1260, `computeNightMinutes start end = 0`. -/
theorem computeNightMinutes_daytime (s e : ℕ) (_hs : 360 ≤ s) (hse : s < e) (he : e ≤ 1260) :
    computeNightMinutes s e = 0 := by
  have hse' : (s : ℚ) < e := by exact_mod_cast hse
  have he' : (e : ℚ) ≤ 1260 := by exact_mod_cast he
  rw [computeNightMinutes_eq, if_neg (not_le.mpr hse')]
  rw [addOverlap_before _ _ _ _ _ (by linarith), addOverlap_before _ _ _ _ _ (by linarith),
    addOverlap_before _ _ _ _ _ (by linarith), addOverlap_before _ _ _ _ _ (by linarith)]
  exact min_eq_left (by linarith)

theorem computeNightMinutes_daytime_witness : computeNightMinutes (6 * 60) (14 * 60) = 0 := by
  have h := computeNightMinutes_daytime 360 840 (by decide) (by decide) (by decide)
  norm_num at h ⊢
  exact h

/-- C7: a shift that starts at or after 21:00 and ends later the same evening (up to 24:00)
or no later than 06:00 the next morning lies inside the night windows:
`computeNightMinutes` returns the whole shift duration, the minute 21:00 included. -/
theorem computeNightMinutes_evening (s e : ℕ) (hs : 1260 ≤ s) (hs' : s ≤ 1439)
    (he : (s < e ∧ e ≤ 1440) ∨ e ≤ 360) :
    computeNightMinutes s e = computeDuration s e := by
  have h1 : (1260 : ℚ) ≤ s := by exact_mod_cast hs
  have h2 : (s : ℚ) ≤ 1439 := by exact_mod_cast hs'
  have he0 : (0 : ℚ) ≤ e := Nat.cast_nonneg e
  rw [computeNightMinutes_eq, computeDuration_eq]
  rcases he with ⟨hse, he⟩ | he
  · have hse' : (s : ℚ) < e := by exact_mod_cast hse
    have he' : (e : ℚ) ≤ 1440 := by exact_mod_cast he
    rw [if_neg (not_le.mpr hse')]
    rw [addOverlap_before _ _ _ 2880 3240 (by linarith),
      addOverlap_before _ _ _ 2700 2880 (by linarith),
      addOverlap_before _ _ _ 1440 1800 (by linarith),
      addOverlap_eq _ _ _ 1260 1440 (by rw [max_eq_left h1, min_eq_left he']; exact hse'),
      max_eq_left h1, min_eq_left he']
    rw [min_eq_left (by linarith)]
    ring
  · have he' : (e : ℚ) ≤ 360 := by exact_mod_cast he
    have hle : (e : ℚ) ≤ s := by linarith
    have hmin : min ((e : ℚ) + 1440) 1440 = 1440 := min_eq_right (by linarith)
    rw [if_pos hle]
    rw [addOverlap_before _ _ _ 2880 3240 (by linarith),
      addOverlap_before _ _ _ 2700 2880 (by linarith)]
    rw [addOverlap_eq _ _ 0 1260 1440 (by rw [max_eq_left h1, hmin]; linarith),
      max_eq_left h1, hmin]
    by_cases hz : (e : ℚ) = 0
    · rw [addOverlap_before _ _ _ 1440 1800 (by linarith)]
      rw [min_eq_left (by linarith)]
      linarith
    · have hpos : (0 : ℚ) < e := lt_of_le_of_ne he0 (Ne.symm hz)
      have hmax : max (s : ℚ) 1440 = 1440 := max_eq_right (by linarith)
      have hmin2 : min ((e : ℚ) + 1440) 1800 = (e : ℚ) + 1440 := min_eq_left (by linarith)
      rw [addOverlap_eq _ _ _ 1440 1800 (by rw [hmax, hmin2]; linarith), hmax, hmin2]
      rw [min_eq_left (by linarith)]
      ring

theorem computeNightMinutes_evening_witness :
    computeNightMinutes (21 * 60) (24 * 60) = 180 := by
  have h := computeNightMinutes_evening 1260 1440 (by decide) (by decide)
    (Or.inl ⟨by decide, by decide⟩)
  norm_num [computeDuration, DAY_MINUTES] at h ⊢
  exact h

/-- C8 (the code at the failing input): for the shift 00:00 -> 06:00, which lies wholly
before 06:00, `computeNightMinutes` returns 0 and not the 360 minutes of the shift. -/
theorem computeNightMinutes_early_morning_zero : computeNightMinutes 0 360 = 0 := by
  norm_num [computeNightMinutes, NIGHT_WINDOWS, DAY_MINUTES, addOverlap]

/-- C9, as stated, fails: for the overnight shift 22:00 -> 07:00 `computeNightMinutes`
does not return 360. -/
theorem computeNightMinutes_overnight_ne_360 : computeNightMinutes 1320 420 ≠ 360 := by
  norm_num [computeNightMinutes, NIGHT_WINDOWS, DAY_MINUTES, addOverlap]

/-- C9, amended: for the overnight shift 22:00 -> 07:00 (start 1320, end 420)
`computeNightMinutes` returns 480, the eight hours from 22:00 to 06:00. -/
theorem computeNightMinutes_overnight_480 : computeNightMinutes 1320 420 = 480 := by
  norm_num [computeNightMinutes, NIGHT_WINDOWS, DAY_MINUTES, addOverlap]

/-- C10 (the code at the failing input): for the 24-hour shift 00:00 -> 00:00
`computeNightMinutes` returns 180, not the 540 minutes of a full night. -/
theorem computeNightMinutes_full_day_from_midnight : computeNightMinutes 0 0 = 180 := by
  norm_num [computeNightMinutes, NIGHT_WINDOWS, DAY_MINUTES, addOverlap]

/-! ## Lemmas on trimming and on the composed entry -/

/-- A prefix of a list that `dropWhile` leaves alone is left alone too. -/
theorem dropWhile_prefix_of_fixed (p : Char → Bool) (l r : List Char)
    (hl : l.dropWhile p = l) (hr : r <+: l) : r.dropWhile p = r := by
  cases r with
  | nil => rfl
  | cons b t =>
    obtain ⟨rest, hrest⟩ := hr
    subst hrest
    have hb : ¬ (p b = true) := by
      have h := (List.dropWhile_eq_self_iff).mp hl (by simp)
      simpa using h
    simp [List.dropWhile, hb]

/-- Trimming is idempotent. -/
theorem trimChars_idem (cs : List Char) : trimChars (trimChars cs) = trimChars cs := by
  have hdef : ∀ l : List Char, trimChars l = (l.dropWhile isJsWhiteSpace).rdropWhile isJsWhiteSpace :=
    fun _ => rfl
  rw [hdef (trimChars cs), hdef cs]
  rw [dropWhile_prefix_of_fixed isJsWhiteSpace _ _ (List.dropWhile_idempotent _ _)
    (List.rdropWhile_prefix isJsWhiteSpace _)]
  exact List.rdropWhile_idempotent _ _

theorem sanitizeText_idem (s : String) : sanitizeText (sanitizeText s) = sanitizeText s := by
  simp only [sanitizeText, jsTrim, trimChars_idem]

/-- When a merged time does not parse, `composeEntry` throws the invalid-schedule error. -/
theorem composeEntry_of_unparsed (toLowerCase : String → String) (now : ℕ)
    (previous : Previous) (input : EntryInput) (owner : Owner) (actor : Actor)
    (h : parseTimeToMinutes (input.startTime <|> previous.startTime) = none ∨
      parseTimeToMinutes (input.endTime <|> previous.endTime) = none) :
    composeEntry toLowerCase now previous input owner actor = .error "Horarios invalidos" := by
  unfold composeEntry
  simp only
  split
  · next sm em hs he =>
    rcases h with h | h
    · rw [h] at hs; exact absurd hs (by simp)
    · rw [h] at he; exact absurd he (by simp)
  · rfl

/-- An entry returned by `composeEntry` is the one composed from the two parsed times. -/
theorem composeEntry_ok_inv (toLowerCase : String → String) (now : ℕ) (previous : Previous)
    (input : EntryInput) (owner : Owner) (actor : Actor) (entry : Entry)
    (h : composeEntry toLowerCase now previous input owner actor = .ok entry) :
    ∃ sm em : ℚ,
      parseTimeToMinutes (input.startTime <|> previous.startTime) = some sm ∧
      parseTimeToMinutes (input.endTime <|> previous.endTime) = some em ∧
      entry =
        { userId := owner.userId
          userDisplayName := owner.displayName
          username := owner.username
          date := input.date <|> previous.date
          startTime := input.startTime <|> previous.startTime
          endTime := input.endTime <|> previous.endTime
          startMinutes := sm
          durationMinutes := computeDuration sm em
          nightMinutes := computeNightMinutes sm em
          holidayMinutes :=
            if input.isHoliday.getD (previous.isHoliday.getD false) then computeDuration sm em
            else 0
          isHoliday := input.isHoliday.getD (previous.isHoliday.getD false)
          client := sanitizeText ((input.client <|> previous.client).getD "")
          task := sanitizeText ((input.task <|> previous.task).getD "")
          workOrder := sanitizeText ((input.workOrder <|> previous.workOrder).getD "")
          updatedAt := now
          updatedBy := actor.uid
          updatedByName := orElse actor.displayName (orElse actor.username "Sistema")
          searchText :=
            buildSearchText toLowerCase (input.date <|> previous.date)
              (sanitizeText ((input.client <|> previous.client).getD ""))
              (sanitizeText ((input.task <|> previous.task).getD ""))
              (sanitizeText ((input.workOrder <|> previous.workOrder).getD ""))
              owner.displayName owner.username } := by
  cases hs : parseTimeToMinutes (input.startTime <|> previous.startTime) with
  | none =>
    rw [composeEntry_of_unparsed _ _ _ _ _ _ (Or.inl hs)] at h
    exact absurd h (by simp)
  | some sm =>
    cases he : parseTimeToMinutes (input.endTime <|> previous.endTime) with
    | none =>
      rw [composeEntry_of_unparsed _ _ _ _ _ _ (Or.inr he)] at h
      exact absurd h (by simp)
    | some em =>
      rw [composeEntry_of_parsed toLowerCase now previous input owner actor sm em hs he] at h
      exact ⟨sm, em, rfl, rfl, (Except.ok.inj h).symm⟩

/-- Re-composing a returned entry against itself with an empty input. -/
theorem composeEntry_recompose (toLowerCase : String → String) (now now' : ℕ)
    (previous : Previous) (input : EntryInput) (owner : Owner) (actor actor' : Actor)
    (entry : Entry)
    (h : composeEntry toLowerCase now previous input owner actor = .ok entry) :
    ∃ again, composeEntry toLowerCase now' entry.toPrevious EntryInput.empty owner actor'
        = .ok again ∧
      again.startMinutes = entry.startMinutes ∧
      again.durationMinutes = entry.durationMinutes ∧
      again.nightMinutes = entry.nightMinutes ∧
      again.holidayMinutes = entry.holidayMinutes ∧
      again.client = entry.client ∧ again.task = entry.task ∧
      again.workOrder = entry.workOrder ∧ again.searchText = entry.searchText := by
  obtain ⟨sm, em, hs, he, rfl⟩ := composeEntry_ok_inv _ _ _ _ _ _ _ h
  refine ⟨_, composeEntry_of_parsed toLowerCase now' _ EntryInput.empty owner actor' sm em
    (by simpa [Entry.toPrevious, EntryInput.empty] using hs)
    (by simpa [Entry.toPrevious, EntryInput.empty] using he), ?_⟩
  simp [Entry.toPrevious, EntryInput.empty, sanitizeText_idem]

/-! ## Lemmas on the handlers -/

/-- A non-manager who does not own the record is stopped by the first check of the update
handler. -/
theorem update_not_owner (env : Env) (store : Store) (user : Principal) (id : String)
    (body : EntryInput) (existing : StoredRecord)
    (hexists : store.timesheets id = some existing)
    (hperm : hasPermission user.permissions "timesheets.manage" = false)
    (hother : existing.userId ≠ some user.uid) :
    updateTimesheetEntry env store user id body
      = (.error 403 "No podes editar este registro", store) := by
  simp [updateTimesheetEntry, hexists, hperm, hother]

/-- A non-manager who does not own the record is stopped by the check of the delete
handler. -/
theorem delete_not_owner (env : Env) (store : Store) (user : Principal) (id : String)
    (existing : StoredRecord)
    (hexists : store.timesheets id = some existing)
    (hperm : hasPermission user.permissions "timesheets.manage" = false)
    (hother : existing.userId ≠ some user.uid) :
    deleteTimesheetEntry env store user id
      = (.error 403 "No podes eliminar este registro", store) := by
  simp [deleteTimesheetEntry, hexists, hperm, hother]

/-- The responses of `auditAndRespond`: the 400 of the `catch`, or the given response. -/
theorem auditAndRespond_fst (env : Env) (store : Store) (user : Principal)
    (entityId type : String) (payload : MovementPayload) (fallback : String)
    (response : Response) :
    (∃ msg, (auditAndRespond env store user entityId type payload fallback response).1
        = .error 400 msg) ∨
      (auditAndRespond env store user entityId type payload fallback response).1 = response := by
  unfold auditAndRespond
  cases env.auditFailure with
  | none => exact Or.inr rfl
  | some msg => exact Or.inl ⟨_, rfl⟩

/-- Past its two authority checks the update handler answers 400 or 200, never 403. -/
theorem update_after_checks (env : Env) (store : Store) (user : Principal) (id : String)
    (body : EntryInput) (existing : StoredRecord)
    (hexists : store.timesheets id = some existing)
    (h1 : (!hasPermission user.permissions "timesheets.manage" &&
      decide (existing.userId ≠ some user.uid)) = false)
    (h2 : (!hasPermission user.permissions "timesheets.manage" &&
      editWindowExpired env existing) = false) :
    (∃ msg, (updateTimesheetEntry env store user id body).1 = .error 400 msg) ∨
      ∃ doc, (updateTimesheetEntry env store user id body).1 = .entry 200 id doc := by
  unfold updateTimesheetEntry
  simp only [hexists, h1, h2, Bool.false_eq_true, if_false]
  cases timesheetUpdateSchema body with
  | error msg => exact Or.inl ⟨msg, rfl⟩
  | ok value =>
    simp only
    cases resolveOwner store.users
        (if hasPermission user.permissions "timesheets.manage" = true then
          orOption value.userId existing.userId else existing.userId) user with
    | error msg => exact Or.inl ⟨msg, rfl⟩
    | ok owner =>
      simp only
      cases composeEntry env.toLowerCase env.now existing.toPrevious value owner
          user.toActor with
      | error msg => exact Or.inl ⟨msg, rfl⟩
      | ok data =>
        simp only
        rcases auditAndRespond_fst env _ user id "update" _ "No se pudo actualizar la hora"
          (.entry 200 id _) with h | h
        · exact Or.inl h
        · exact Or.inr ⟨_, h⟩

/-- For a non-manager who owns the record, the update handler answers the edit-window
error exactly when the window test holds. -/
theorem update_owner_window (env : Env) (store : Store) (user : Principal) (id : String)
    (body : EntryInput) (existing : StoredRecord)
    (hexists : store.timesheets id = some existing)
    (hperm : hasPermission user.permissions "timesheets.manage" = false)
    (hown : existing.userId = some user.uid) :
    (updateTimesheetEntry env store user id body).1
        = .error 403 "Solo podes editar durante las primeras 24 horas" ↔
      editWindowExpired env existing = true := by
  constructor
  · intro h
    by_contra hne
    have h2 : editWindowExpired env existing = false := by simpa using hne
    rcases update_after_checks env store user id body existing hexists
        (by simp [hperm, hown]) (by simp [hperm, h2]) with ⟨msg, hm⟩ | ⟨doc, hd⟩
    · rw [hm] at h; simp at h
    · rw [hd] at h; simp at h
  · intro h
    simp [updateTimesheetEntry, hexists, hperm, hown, h]

/-- The successful run of the update handler, step by step. -/
theorem update_ok (env : Env) (store : Store) (user : Principal) (id : String)
    (body value : EntryInput) (existing : StoredRecord) (owner : Owner) (data : Entry)
    (hexists : store.timesheets id = some existing)
    (h1 : (!hasPermission user.permissions "timesheets.manage" &&
      decide (existing.userId ≠ some user.uid)) = false)
    (h2 : (!hasPermission user.permissions "timesheets.manage" &&
      editWindowExpired env existing) = false)
    (hv : timesheetUpdateSchema body = .ok value)
    (ho : resolveOwner store.users
      (if hasPermission user.permissions "timesheets.manage" = true then
        orOption value.userId existing.userId else existing.userId) user = .ok owner)
    (hc : composeEntry env.toLowerCase env.now existing.toPrevious value owner user.toActor
      = .ok data)
    (ha : env.auditFailure = none) :
    updateTimesheetEntry env store user id body =
      (.entry 200 id
          (stripInternalFields
            (writtenRecord data (createdAtOrNow env.now existing.createdAt)
              (orElse existing.createdBy owner.userId)
              (orElse existing.createdByName owner.displayName))),
        { timesheets := Function.update store.timesheets id
            (some (writtenRecord data (createdAtOrNow env.now existing.createdAt)
              (orElse existing.createdBy owner.userId)
              (orElse existing.createdByName owner.displayName)))
          users := store.users
          movements := store.movements ++
            [{ entity := "timesheets", entityId := id, type := "update",
               payload := buildMovementPayload id
                 (writtenRecord data (createdAtOrNow env.now existing.createdAt)
                   (orElse existing.createdBy owner.userId)
                   (orElse existing.createdByName owner.displayName)),
               author := user.username.getD "system", time := env.now }] }) := by
  unfold updateTimesheetEntry
  simp only [hexists, h1, h2, Bool.false_eq_true, if_false, hv, ho, hc, auditAndRespond, ha]

/-- Past its check the delete handler answers 400 or `{ ok: true }`, never 403. -/
theorem delete_after_check (env : Env) (store : Store) (user : Principal) (id : String)
    (existing : StoredRecord)
    (hexists : store.timesheets id = some existing)
    (h1 : (!hasPermission user.permissions "timesheets.manage" &&
      decide (existing.userId ≠ some user.uid)) = false) :
    (∃ msg, (deleteTimesheetEntry env store user id).1 = .error 400 msg) ∨
      (deleteTimesheetEntry env store user id).1 = .ok := by
  unfold deleteTimesheetEntry
  simp only [hexists, h1, Bool.false_eq_true, if_false]
  exact auditAndRespond_fst env _ user id "delete" _ "No se pudo eliminar la hora" .ok

/-- The creation instant used by the edit-window test, once it is known. -/
theorem editWindowExpired_of_created (env : Env) (existing : StoredRecord) (c : ℤ)
    (hcreated : creationDate env existing = some (some c)) :
    editWindowExpired env existing = true ↔ DAY_IN_MS < (env.now : ℤ) - c := by
  simp [editWindowExpired, hcreated]

/-! ## Claims on the fields composed by `composeEntry` -/

/-- C11: for every entry returned by `composeEntry`, holidayMinutes equals durationMinutes
when isHoliday is true and equals 0 otherwise, so it is always 0 or durationMinutes. -/
theorem composeEntry_holiday_minutes (toLowerCase : String → String) (now : ℕ)
    (previous : Previous) (input : EntryInput) (owner : Owner) (actor : Actor) (entry : Entry)
    (h : composeEntry toLowerCase now previous input owner actor = .ok entry) :
    entry.holidayMinutes = (if entry.isHoliday = true then entry.durationMinutes else 0) ∧
      (entry.holidayMinutes = 0 ∨ entry.holidayMinutes = entry.durationMinutes) := by
  obtain ⟨sm, em, -, -, rfl⟩ := composeEntry_ok_inv _ _ _ _ _ _ _ h
  refine ⟨rfl, ?_⟩
  by_cases hh : input.isHoliday.getD (previous.isHoliday.getD false) = true
  · exact Or.inr (if_pos hh)
  · exact Or.inl (if_neg hh)

theorem composeEntry_holiday_minutes_witness :
    ∃ entry,
      composeEntry id 0 Previous.empty
          { userId := none, date := some "2024-05-01", startTime := some "08:00",
            endTime := some "16:00", client := none, task := none, workOrder := none,
            isHoliday := some true }
          { userId := "u1", username := "ana", displayName := "Ana" }
          { uid := "u1", displayName := some "Ana", username := some "ana" } = .ok entry ∧
        entry.holidayMinutes = (if entry.isHoliday = true then entry.durationMinutes else 0) ∧
        (entry.holidayMinutes = 0 ∨ entry.holidayMinutes = entry.durationMinutes) := by
  have h0 := composeEntry_of_parsed id 0 Previous.empty
    { userId := none, date := some "2024-05-01", startTime := some "08:00",
      endTime := some "16:00", client := none, task := none, workOrder := none,
      isHoliday := some true }
    { userId := "u1", username := "ana", displayName := "Ana" }
    { uid := "u1", displayName := some "Ana", username := some "ana" } _ _
    (parseTimeToMinutes_clockString 8 0 (by decide) (by decide))
    (parseTimeToMinutes_clockString 16 0 (by decide) (by decide))
  exact ⟨_, h0, composeEntry_holiday_minutes _ _ _ _ _ _ _ h0⟩

/-- C12, as stated, fails for `date`: when neither the input nor the previous record sets
a date, the composed entry has no date (undefined), not the empty string. -/
theorem composeEntry_date_without_default :
    ∃ entry,
      composeEntry id 0 Previous.empty
          { userId := none, date := none, startTime := some "08:00",
            endTime := some "16:00", client := none, task := none, workOrder := none,
            isHoliday := none }
          { userId := "u1", username := "ana", displayName := "Ana" }
          { uid := "u1", displayName := some "Ana", username := some "ana" } = .ok entry ∧
        entry.date = none ∧ entry.date ≠ some "" :=
  ⟨_, composeEntry_of_parsed id 0 Previous.empty
      { userId := none, date := none, startTime := some "08:00",
        endTime := some "16:00", client := none, task := none, workOrder := none,
        isHoliday := none }
      { userId := "u1", username := "ana", displayName := "Ana" }
      { uid := "u1", displayName := some "Ana", username := some "ana" } _ _
      (parseTimeToMinutes_clockString 8 0 (by decide) (by decide))
      (parseTimeToMinutes_clockString 16 0 (by decide) (by decide)),
    rfl, by simp [Previous.empty]⟩

/-- C12, amended: `composeEntry` merges field by field. For date, startTime and endTime the
entry has the input's value when the input sets it, otherwise the previous record's value,
with no default (a returned entry always has both times; its date may be unset). For
client, task and workOrder it has the input's value, otherwise the previous record's,
otherwise the empty string, trimmed, and never null. For isHoliday it has the input's
value, otherwise the previous record's, otherwise false. -/
theorem composeEntry_merges_fields (toLowerCase : String → String) (now : ℕ)
    (previous : Previous) (input : EntryInput) (owner : Owner) (actor : Actor) (entry : Entry)
    (h : composeEntry toLowerCase now previous input owner actor = .ok entry) :
    entry.date = (input.date <|> previous.date) ∧
      entry.startTime = (input.startTime <|> previous.startTime) ∧
      entry.endTime = (input.endTime <|> previous.endTime) ∧
      entry.startTime ≠ none ∧ entry.endTime ≠ none ∧
      entry.client = jsTrim ((input.client <|> previous.client).getD "") ∧
      entry.task = jsTrim ((input.task <|> previous.task).getD "") ∧
      entry.workOrder = jsTrim ((input.workOrder <|> previous.workOrder).getD "") ∧
      entry.isHoliday = input.isHoliday.getD (previous.isHoliday.getD false) := by
  obtain ⟨sm, em, hs, he, rfl⟩ := composeEntry_ok_inv _ _ _ _ _ _ _ h
  refine ⟨rfl, rfl, rfl, ?_, ?_, rfl, rfl, rfl, rfl⟩
  · intro hnone
    simp only at hnone
    rw [hnone] at hs
    exact absurd hs (by simp [parseTimeToMinutes])
  · intro hnone
    simp only at hnone
    rw [hnone] at he
    exact absurd he (by simp [parseTimeToMinutes])

theorem composeEntry_merges_fields_witness :
    ∃ entry,
      composeEntry id 0
          { date := some "2024-05-01", startTime := some "08:00", endTime := some "12:00",
            client := some "Acme", task := some "Montaje", workOrder := none,
            isHoliday := some true }
          { userId := none, date := none, startTime := none, endTime := some "16:00",
            client := some "  Obra Norte ", task := none, workOrder := none,
            isHoliday := none }
          { userId := "u1", username := "ana", displayName := "Ana" }
          { uid := "u1", displayName := some "Ana", username := some "ana" } = .ok entry ∧
        entry.date = some "2024-05-01" ∧ entry.startTime = some "08:00" ∧
        entry.endTime = some "16:00" ∧ entry.client = "Obra Norte" ∧
        entry.task = "Montaje" ∧ entry.workOrder = "" ∧ entry.isHoliday = true := by
  have h0 := composeEntry_of_parsed id 0
    { date := some "2024-05-01", startTime := some "08:00", endTime := some "12:00",
      client := some "Acme", task := some "Montaje", workOrder := none,
      isHoliday := some true }
    { userId := none, date := none, startTime := none, endTime := some "16:00",
      client := some "  Obra Norte ", task := none, workOrder := none,
      isHoliday := none }
    { userId := "u1", username := "ana", displayName := "Ana" }
    { uid := "u1", displayName := some "Ana", username := some "ana" } _ _
    (parseTimeToMinutes_clockString 8 0 (by decide) (by decide))
    (parseTimeToMinutes_clockString 16 0 (by decide) (by decide))
  obtain ⟨h1, h2, h3, -, -, h4, h5, h6, h7⟩ := composeEntry_merges_fields _ _ _ _ _ _ _ h0
  exact ⟨_, h0, h1, h2, h3, h4.trans (by decide), h5.trans (by decide), h6.trans (by decide),
    h7⟩

/-! ## Claim on the update request -/

/-- C13 (the code at the failing input): the owner updates the record `t1` one hour after
its creation with a body that omits client, task, workOrder and isHoliday. The stored
record had `Acme`, `Montaje`, `OT-7` and true; the update handler persists the empty
string for the three texts and false for isHoliday. -/
theorem update_resets_omitted_fields :
    (((updateTimesheetEntry (sampleEnv (1714550400000 + 3600000)) sampleStore sampleOwner "t1"
          EntryInput.empty).2.timesheets "t1").map
        (fun r => (r.client, r.task, r.workOrder, r.isHoliday))
      = some (some "", some "", some "", some false)) ∧
      ((sampleStore.timesheets "t1").map (fun r => (r.client, r.task, r.workOrder, r.isHoliday))
        = some (some "Acme", some "Montaje", some "OT-7", some true)) := by
  refine ⟨?_, rfl⟩
  have hc := composeEntry_of_parsed id (1714550400000 + 3600000) sampleRecord.toPrevious
    { userId := none, date := none, startTime := none, endTime := none, client := some "",
      task := some "", workOrder := some "", isHoliday := some false }
    ⟨"u1", "ana", "Ana"⟩ sampleOwner.toActor _ _
    (parseTimeToMinutes_clockString 8 0 (by decide) (by decide))
    (parseTimeToMinutes_clockString 16 0 (by decide) (by decide))
  have h1 : (!hasPermission sampleOwner.permissions "timesheets.manage" &&
      decide (sampleRecord.userId ≠ some sampleOwner.uid)) = false := rfl
  have h2 : (!hasPermission sampleOwner.permissions "timesheets.manage" &&
      editWindowExpired (sampleEnv (1714550400000 + 3600000)) sampleRecord) = false := rfl
  have hv : timesheetUpdateSchema EntryInput.empty = .ok
      { userId := none, date := none, startTime := none, endTime := none, client := some "",
        task := some "", workOrder := some "", isHoliday := some false } := rfl
  have ho : resolveOwner sampleStore.users
      (if hasPermission sampleOwner.permissions "timesheets.manage" = true then
        orOption none sampleRecord.userId else sampleRecord.userId) sampleOwner
      = .ok ⟨"u1", "ana", "Ana"⟩ := rfl
  have hu := update_ok (sampleEnv (1714550400000 + 3600000)) sampleStore sampleOwner "t1"
    EntryInput.empty _ sampleRecord _ _ rfl h1 h2 hv ho hc rfl
  rw [hu]
  simp only [Function.update_same, Option.map_some']
  rfl

/-! ## Claims on the errors and the idempotence of `composeEntry` -/

/-- C14: `composeEntry` fails with the invalid-schedule error `Horarios invalidos` if and
only if the merged startTime or the merged endTime fails to parse; the result is then the
error and no entry. -/
theorem composeEntry_invalid_schedule_iff (toLowerCase : String → String) (now : ℕ)
    (previous : Previous) (input : EntryInput) (owner : Owner) (actor : Actor) :
    composeEntry toLowerCase now previous input owner actor = .error "Horarios invalidos" ↔
      (parseTimeToMinutes (input.startTime <|> previous.startTime) = none ∨
        parseTimeToMinutes (input.endTime <|> previous.endTime) = none) := by
  constructor
  · intro h
    by_contra hne
    rw [not_or] at hne
    obtain ⟨sm, hs⟩ := Option.ne_none_iff_exists'.mp hne.1
    obtain ⟨em, he⟩ := Option.ne_none_iff_exists'.mp hne.2
    rw [composeEntry_of_parsed toLowerCase now previous input owner actor sm em hs he] at h
    exact absurd h (by simp)
  · exact composeEntry_of_unparsed toLowerCase now previous input owner actor

/-- C15: composition is idempotent. For every entry returned by `composeEntry`,
re-composing with that entry as the previous record, an empty input and the same owner
returns an entry with the same startMinutes, durationMinutes, nightMinutes,
holidayMinutes, client, task, workOrder and searchText. -/
theorem composeEntry_idempotent (toLowerCase : String → String) (now now' : ℕ)
    (previous : Previous) (input : EntryInput) (owner : Owner) (actor actor' : Actor)
    (entry : Entry)
    (h : composeEntry toLowerCase now previous input owner actor = .ok entry) :
    ∃ again, composeEntry toLowerCase now' entry.toPrevious EntryInput.empty owner actor'
        = .ok again ∧
      again.startMinutes = entry.startMinutes ∧
      again.durationMinutes = entry.durationMinutes ∧
      again.nightMinutes = entry.nightMinutes ∧
      again.holidayMinutes = entry.holidayMinutes ∧
      again.client = entry.client ∧ again.task = entry.task ∧
      again.workOrder = entry.workOrder ∧ again.searchText = entry.searchText :=
  composeEntry_recompose toLowerCase now now' previous input owner actor actor' entry h

theorem composeEntry_idempotent_witness :
    ∃ entry again,
      composeEntry id 0 Previous.empty
          { userId := none, date := some "2024-05-03", startTime := some "22:00",
            endTime := some "07:00", client := some " Acme ", task := none,
            workOrder := none, isHoliday := some true }
          { userId := "u1", username := "ana", displayName := "Ana" }
          { uid := "u1", displayName := some "Ana", username := some "ana" } = .ok entry ∧
        composeEntry id 5 entry.toPrevious EntryInput.empty
          { userId := "u1", username := "ana", displayName := "Ana" }
          { uid := "u3", displayName := none, username := none } = .ok again ∧
        again.startMinutes = entry.startMinutes ∧
        again.durationMinutes = entry.durationMinutes ∧
        again.nightMinutes = entry.nightMinutes ∧
        again.holidayMinutes = entry.holidayMinutes ∧
        again.client = entry.client ∧ again.task = entry.task ∧
        again.workOrder = entry.workOrder ∧ again.searchText = entry.searchText := by
  have h0 := composeEntry_of_parsed id 0 Previous.empty
    { userId := none, date := some "2024-05-03", startTime := some "22:00",
      endTime := some "07:00", client := some " Acme ", task := none,
      workOrder := none, isHoliday := some true }
    { userId := "u1", username := "ana", displayName := "Ana" }
    { uid := "u1", displayName := some "Ana", username := some "ana" } _ _
    (parseTimeToMinutes_clockString 22 0 (by decide) (by decide))
    (parseTimeToMinutes_clockString 7 0 (by decide) (by decide))
  obtain ⟨again, hagain⟩ := composeEntry_idempotent id 0 5 _ _ _ _
    { uid := "u3", displayName := none, username := none } _ h0
  exact ⟨_, again, h0, hagain⟩

/-! ## Claims on the edit authority -/

/-- C16: a non-manager (no `timesheets.manage`) who updates or deletes a record whose
userId differs from their own uid is answered 403 and the store is left unchanged,
whatever the clock says and whenever the record was created. -/
theorem nonmanager_other_record_forbidden (env : Env) (store : Store) (user : Principal)
    (id : String) (body : EntryInput) (existing : StoredRecord)
    (hexists : store.timesheets id = some existing)
    (hperm : hasPermission user.permissions "timesheets.manage" = false)
    (hother : existing.userId ≠ some user.uid) :
    updateTimesheetEntry env store user id body
        = (.error 403 "No podes editar este registro", store) ∧
      deleteTimesheetEntry env store user id
        = (.error 403 "No podes eliminar este registro", store) :=
  ⟨update_not_owner env store user id body existing hexists hperm hother,
    delete_not_owner env store user id existing hexists hperm hother⟩

theorem nonmanager_other_record_forbidden_witness :
    updateTimesheetEntry (sampleEnv (1714550400000 + 60000)) sampleStore sampleColleague "t1"
          EntryInput.empty
        = (.error 403 "No podes editar este registro", sampleStore) ∧
      deleteTimesheetEntry (sampleEnv (1714550400000 + 60000)) sampleStore sampleColleague "t1"
        = (.error 403 "No podes eliminar este registro", sampleStore) :=
  nonmanager_other_record_forbidden (sampleEnv (1714550400000 + 60000)) sampleStore
    sampleColleague "t1" EntryInput.empty sampleRecord rfl rfl (by decide)

/-- C17: for a non-manager updating a record they own, whose creation instant `c` is the
stored createdAt or, when createdAt is absent or unparseable, the date built from
`record.date` and `T00:00:00Z`: the handler answers the edit-window error exactly when
more than 24 hours have passed since `c`, so the check passes if and only if at most 24
hours have elapsed. -/
theorem update_edit_window (env : Env) (store : Store) (user : Principal) (id : String)
    (body : EntryInput) (existing : StoredRecord) (c : ℤ)
    (hexists : store.timesheets id = some existing)
    (hperm : hasPermission user.permissions "timesheets.manage" = false)
    (hown : existing.userId = some user.uid)
    (hcreated : timestampToDate env.dateParse existing.createdAt = some (some c) ∨
      (timestampToDate env.dateParse existing.createdAt = none ∧
        ∃ d, existing.date = some d ∧ d.data.isEmpty = false ∧
          env.dateParse (d ++ "T00:00:00Z") = some c)) :
    ((updateTimesheetEntry env store user id body).1
        = .error 403 "Solo podes editar durante las primeras 24 horas" ↔
      DAY_IN_MS < (env.now : ℤ) - c) ∧
    ((updateTimesheetEntry env store user id body).1
        ≠ .error 403 "Solo podes editar durante las primeras 24 horas" ↔
      (env.now : ℤ) - c ≤ DAY_IN_MS) := by
  have hc : creationDate env existing = some (some c) := by
    rcases hcreated with h | ⟨h, d, hd, hne, hp⟩
    · simp [creationDate, h]
    · simp [creationDate, h, hd, hne, hp]
  have key := (update_owner_window env store user id body existing hexists hperm hown).trans
    (editWindowExpired_of_created env existing c hc)
  exact ⟨key, by rw [Ne, key, not_lt]⟩

theorem update_edit_window_witness :
    (updateTimesheetEntry (sampleEnv (1714550400000 + 25 * 3600000)) sampleStore sampleOwner
          "t1" EntryInput.empty).1
        = .error 403 "Solo podes editar durante las primeras 24 horas" ∧
      (updateTimesheetEntry (sampleEnv (1714521600000 + 23 * 3600000)) sampleStore sampleOwner
          "t2" EntryInput.empty).1
        ≠ .error 403 "Solo podes editar durante las primeras 24 horas" :=
  ⟨(update_edit_window (sampleEnv (1714550400000 + 25 * 3600000)) sampleStore sampleOwner "t1"
      EntryInput.empty sampleRecord 1714550400000 rfl rfl rfl (Or.inl rfl)).1.mpr
      (by decide),
    (update_edit_window (sampleEnv (1714521600000 + 23 * 3600000)) sampleStore sampleOwner "t2"
      EntryInput.empty { sampleRecord with createdAt := .missing } 1714521600000 rfl rfl rfl
      (Or.inr ⟨rfl, "2024-05-01", rfl, rfl, rfl⟩)).2.mpr (by decide)⟩

/-- C18 (the code at the failing input): the owner, who has no `timesheets.manage`,
deletes the record `t1` 25 hours after its creation. The edit-window test of the update
handler holds for that record, yet the delete handler answers `ok` and the record is
removed. -/
theorem delete_own_record_after_window :
    (deleteTimesheetEntry (sampleEnv (1714550400000 + 25 * 3600000)) sampleStore sampleOwner
        "t1").1 = Response.ok ∧
      (deleteTimesheetEntry (sampleEnv (1714550400000 + 25 * 3600000)) sampleStore sampleOwner
        "t1").2.timesheets "t1" = none ∧
      sampleStore.timesheets "t1" = some sampleRecord ∧
      editWindowExpired (sampleEnv (1714550400000 + 25 * 3600000)) sampleRecord = true := by
  refine ⟨rfl, rfl, rfl, by decide⟩

/-- C19: an actor whose merged permissions hold `timesheets.manage = true` is never
rejected by the authority check: for every existing record, whoever owns it and whenever
it was created, neither the update handler nor the delete handler answers 403. -/
theorem manager_never_forbidden (env : Env) (store : Store) (user : Principal) (id : String)
    (body : EntryInput) (existing : StoredRecord)
    (hexists : store.timesheets id = some existing)
    (hperm : hasPermission user.permissions "timesheets.manage" = true) :
    (∀ msg, (updateTimesheetEntry env store user id body).1 ≠ .error 403 msg) ∧
      (∀ msg, (deleteTimesheetEntry env store user id).1 ≠ .error 403 msg) := by
  constructor
  · intro msg h
    rcases update_after_checks env store user id body existing hexists
        (by simp [hperm]) (by simp [hperm]) with ⟨m, hm⟩ | ⟨doc, hd⟩
    · rw [hm] at h; simp at h
    · rw [hd] at h; simp at h
  · intro msg h
    rcases delete_after_check env store user id existing hexists (by simp [hperm])
      with ⟨m, hm⟩ | hd
    · rw [hm] at h; simp at h
    · rw [hd] at h; simp at h

theorem manager_never_forbidden_witness :
    (∀ msg, (updateTimesheetEntry (sampleEnv (1714550400000 + 100 * 24 * 3600000)) sampleStore
        sampleManager "t1" EntryInput.empty).1 ≠ .error 403 msg) ∧
      (∀ msg, (deleteTimesheetEntry (sampleEnv (1714550400000 + 100 * 24 * 3600000))
        sampleStore sampleManager "t1").1 ≠ .error 403 msg) :=
  manager_never_forbidden (sampleEnv (1714550400000 + 100 * 24 * 3600000)) sampleStore
    sampleManager "t1" EntryInput.empty sampleRecord rfl rfl

/-- C20 (the code at the failing input): a user whose roles include `admin` and whose
merged permissions lack `timesheets.manage` updates or deletes the record `t1` of another
user. Both handlers answer 403 and leave the store unchanged. -/
theorem admin_role_without_manage_forbidden :
    "admin" ∈ sampleAdmin.roles ∧
      updateTimesheetEntry (sampleEnv (1714550400000 + 3600000)) sampleStore sampleAdmin "t1"
          EntryInput.empty
        = (.error 403 "No podes editar este registro", sampleStore) ∧
      deleteTimesheetEntry (sampleEnv (1714550400000 + 3600000)) sampleStore sampleAdmin "t1"
        = (.error 403 "No podes eliminar este registro", sampleStore) := by
  refine ⟨by decide, ?_, ?_⟩
  · exact update_not_owner _ _ _ _ _ sampleRecord rfl rfl (by decide)
  · exact delete_not_owner _ _ _ _ sampleRecord rfl rfl (by decide)

/-! ## Lemmas for the list, summary and audit claims -/

/-- The owner resolved for the actor's own uid has that uid. -/
theorem resolveOwner_self (users : String → Option UserDoc) (user : Principal) (owner : Owner)
    (h : resolveOwner users (some user.uid) user = .ok owner) : owner.userId = user.uid := by
  have htarget : orElse (some user.uid) user.uid = user.uid := by
    simp only [orElse]
    split <;> rfl
  unfold resolveOwner at h
  simp only [htarget] at h
  split at h
  · exact absurd h (by simp)
  · split at h
    · simp only [Except.ok.injEq] at h
      rw [← h]
    · split at h
      · exact absurd h (by simp)
      · simp only [Except.ok.injEq] at h
        rw [← h]

/-- The outcomes of `auditAndRespond`: the store it was given, with or without the new
movement. -/
theorem auditAndRespond_timesheets (env : Env) (store : Store) (user : Principal)
    (entityId type : String) (payload : MovementPayload) (fallback : String)
    (response : Response) :
    (auditAndRespond env store user entityId type payload fallback response).2.timesheets
      = store.timesheets := by
  unfold auditAndRespond
  cases env.auditFailure <;> rfl

/-- What `createTimesheetEntry` does for an actor without `timesheets.manage`: it answers
400 and leaves the store as it was, or it writes one record, whose userId is the actor's
uid, under the new id (and then answers 201 with that record, or 400 when the audit write
fails). -/
theorem create_nonmanager_cases (env : Env) (store : Store) (user : Principal)
    (body : EntryInput)
    (hperm : hasPermission user.permissions "timesheets.manage" = false) :
    (∃ msg, createTimesheetEntry env store user body = (.error 400 msg, store)) ∨
      ∃ rec : StoredRecord,
        (createTimesheetEntry env store user body).2.timesheets
            = Function.update store.timesheets env.newId (some rec) ∧
          rec.userId = some user.uid ∧
          ((createTimesheetEntry env store user body).1
              = .entry 201 env.newId (stripInternalFields rec) ∨
            ∃ msg, (createTimesheetEntry env store user body).1 = .error 400 msg) := by
  unfold createTimesheetEntry
  cases hv : timesheetSchema body with
  | error msg => exact Or.inl ⟨msg, rfl⟩
  | ok value =>
    simp only [hperm, Bool.false_eq_true, if_false]
    cases ho : resolveOwner store.users (some user.uid) user with
    | error msg => exact Or.inl ⟨msg, rfl⟩
    | ok owner =>
      simp only
      cases hc : composeEntry env.toLowerCase env.now Previous.empty value owner
          user.toActor with
      | error msg => exact Or.inl ⟨msg, rfl⟩
      | ok data =>
        simp only
        obtain ⟨sm, em, -, -, hdata⟩ := composeEntry_ok_inv _ _ _ _ _ _ _ hc
        refine Or.inr ⟨writtenRecord data (.timestamp env.now) user.uid
          (orElse user.displayName (orElse user.username "Sistema")), ?_, ?_, ?_⟩
        · rw [auditAndRespond_timesheets]
        · rw [hdata]
          simp only [writtenRecord, resolveOwner_self store.users user owner ho]
        · rcases auditAndRespond_fst env _ user env.newId "create" _
            "No se pudo guardar la hora" (.entry 201 env.newId _) with h | h
          · exact Or.inr h
          · exact Or.inl h

/-- A text step of `applyFilters` is one `filter`, by the criterion of the specification. -/
theorem filterText_eq (toLowerCase : String → String) (criterion : Option String)
    (field : Doc → Option String) (result : List Doc) :
    filterText toLowerCase criterion
        (fun needle item => jsIncludes (lower toLowerCase ((field item).getD "")) needle) result
      = result.filter (fun item => textCriterionHolds toLowerCase criterion (field item)) := by
  unfold filterText
  cases criterion with
  | none => simp [isTruthy, textCriterionHolds]
  | some c =>
    by_cases hc : c.data.isEmpty = true
    · simp [isTruthy, textCriterionHolds, hc]
    · simp [isTruthy, textCriterionHolds, hc]

/-- The user step of `applyFilters` is one `filter`. -/
theorem filterText_user_eq (toLowerCase : String → String) (criterion : Option String)
    (result : List Doc) :
    filterText toLowerCase criterion
        (fun needle item =>
          jsIncludes (lower toLowerCase (item.2.userDisplayName.getD "")) needle ||
            jsIncludes (lower toLowerCase (item.2.username.getD "")) needle) result
      = result.filter (fun item =>
          textCriterionHolds toLowerCase criterion item.2.userDisplayName ||
            textCriterionHolds toLowerCase criterion item.2.username) := by
  unfold filterText
  cases criterion with
  | none => simp [isTruthy, textCriterionHolds]
  | some c =>
    by_cases hc : c.data.isEmpty = true
    · simp [isTruthy, textCriterionHolds, hc]
    · simp [isTruthy, textCriterionHolds, hc]

/-- `applyFilters` keeps, in their order, the entries that satisfy every criterion. -/
theorem applyFilters_eq_filter (toLowerCase : String → String) (entries : List Doc)
    (filters : Filters) :
    applyFilters toLowerCase entries filters
      = entries.filter (satisfiesCriteria toLowerCase filters) := by
  unfold applyFilters
  simp only
  rw [filterText_eq toLowerCase filters.client (fun item => item.2.client),
    filterText_eq toLowerCase filters.task (fun item => item.2.task),
    filterText_eq toLowerCase filters.workOrder (fun item => item.2.workOrder),
    filterText_user_eq, filterText_eq toLowerCase filters.q (fun item => item.2.searchText)]
  cases hh : filters.isHoliday <;>
  by_cases hn : (parseBoolean toLowerCase filters.nightOnly).getD false = true <;>
  simp only [hn, if_true, if_false, Bool.false_eq_true, List.filter_filter] <;>
  apply List.filter_congr <;>
  intro item _ <;>
  simp only [satisfiesCriteria, hh, hn, if_true, if_false, Bool.false_eq_true] <;>
  cases textCriterionHolds toLowerCase filters.client item.2.client <;>
  cases textCriterionHolds toLowerCase filters.task item.2.task <;>
  cases textCriterionHolds toLowerCase filters.workOrder item.2.workOrder <;>
  cases textCriterionHolds toLowerCase filters.q item.2.searchText <;>
  simp [Bool.and_comm, Bool.and_left_comm]

/-- When the audit write throws, `auditAndRespond` answers 400 and keeps the store it was
given. -/
theorem auditAndRespond_of_failure (env : Env) (store : Store) (user : Principal)
    (entityId type : String) (payload : MovementPayload) (fallback : String)
    (response : Response) (msg : String) (ha : env.auditFailure = some msg) :
    auditAndRespond env store user entityId type payload fallback response
      = (.error 400 (orElse (some msg) fallback), store) := by
  simp only [auditAndRespond, ha]

/-- With a failing audit write, each mutating handler answers an error: either it stopped
before writing and the store is as it was, or it wrote and then answers 400 with the
message of the audit error, the written record (or the removal) staying in the store. -/
theorem handlers_of_audit_failure (env : Env) (store : Store) (user : Principal)
    (id : String) (body : EntryInput) (msg : String) (ha : env.auditFailure = some msg) :
    ((∃ m, createTimesheetEntry env store user body = (.error 400 m, store)) ∨
        ∃ rec, createTimesheetEntry env store user body
          = (.error 400 (orElse (some msg) "No se pudo guardar la hora"),
              { store with
                timesheets := Function.update store.timesheets env.newId (some rec) })) ∧
      ((∃ s m, updateTimesheetEntry env store user id body = (.error s m, store)) ∨
        ∃ rec, updateTimesheetEntry env store user id body
          = (.error 400 (orElse (some msg) "No se pudo actualizar la hora"),
              { store with timesheets := Function.update store.timesheets id (some rec) })) ∧
      ((∃ s m, deleteTimesheetEntry env store user id = (.error s m, store)) ∨
        deleteTimesheetEntry env store user id
          = (.error 400 (orElse (some msg) "No se pudo eliminar la hora"),
              { store with timesheets := Function.update store.timesheets id none })) := by
  refine ⟨?_, ?_, ?_⟩
  · unfold createTimesheetEntry
    cases timesheetSchema body with
    | error m => exact Or.inl ⟨m, rfl⟩
    | ok value =>
      simp only
      cases resolveOwner store.users
          (if hasPermission user.permissions "timesheets.manage" = true then value.userId
            else some user.uid) user with
      | error m => exact Or.inl ⟨m, rfl⟩
      | ok owner =>
        simp only
        cases composeEntry env.toLowerCase env.now Previous.empty value owner
            user.toActor with
        | error m => exact Or.inl ⟨m, rfl⟩
        | ok data =>
          simp only
          rw [auditAndRespond_of_failure _ _ _ _ _ _ _ _ msg ha]
          exact Or.inr ⟨_, rfl⟩
  · unfold updateTimesheetEntry
    cases store.timesheets id with
    | none => exact Or.inl ⟨_, _, rfl⟩
    | some existing =>
      simp only
      split
      · exact Or.inl ⟨_, _, rfl⟩
      · split
        · exact Or.inl ⟨_, _, rfl⟩
        · cases timesheetUpdateSchema body with
          | error m => exact Or.inl ⟨_, m, rfl⟩
          | ok value =>
            simp only
            cases resolveOwner store.users
                (if hasPermission user.permissions "timesheets.manage" = true then
                  orOption value.userId existing.userId else existing.userId) user with
            | error m => exact Or.inl ⟨_, m, rfl⟩
            | ok owner =>
              simp only
              cases composeEntry env.toLowerCase env.now existing.toPrevious value owner
                  user.toActor with
              | error m => exact Or.inl ⟨_, m, rfl⟩
              | ok data =>
                simp only
                rw [auditAndRespond_of_failure _ _ _ _ _ _ _ _ msg ha]
                exact Or.inr ⟨_, rfl⟩
  · unfold deleteTimesheetEntry
    cases store.timesheets id with
    | none => exact Or.inl ⟨_, _, rfl⟩
    | some existing =>
      simp only
      split
      · exact Or.inl ⟨_, _, rfl⟩
      · rw [auditAndRespond_of_failure _ _ _ _ _ _ _ _ msg ha]
        exact Or.inr rfl

/-- The comparator by code points is a consistent comparator. -/
theorem codePointCompare_isCollation : IsCollation codePointCompare := by
  constructor
  · intro a b
    unfold codePointCompare
    rcases lt_trichotomy a b with h | h | h
    · have h1 : ¬ b < a := lt_asymm h
      have h2 : b ≠ a := (ne_of_lt h).symm
      simp [h, h1, h2]
    · subst h
      simp
    · have h1 : ¬ a < b := lt_asymm h
      have h2 : a ≠ b := (ne_of_lt h).symm
      simp [h, h1, h2]
  · intro a b c hab hbc
    unfold codePointCompare at *
    have h1 : a ≤ b := by
      by_contra hn
      have hlt : b < a := lt_of_not_le hn
      have h1 : ¬ a < b := lt_asymm hlt
      have h2 : a ≠ b := (ne_of_lt hlt).symm
      simp [h1, h2] at hab
    have h2 : b ≤ c := by
      by_contra hn
      have hlt : c < b := lt_of_not_le hn
      have h1 : ¬ b < c := lt_asymm hlt
      have h2 : b ≠ c := (ne_of_lt hlt).symm
      simp [h1, h2] at hbc
    rcases lt_or_eq_of_le (le_trans h1 h2) with h | h
    · simp [h]
    · subst h
      simp

/-- A consistent comparator is total. -/
theorem IsCollation.total {lc : String → String → ℤ} (h : IsCollation lc) (a b : String) :
    lc a b ≤ 0 ∨ lc b a ≤ 0 := by
  by_cases hab : lc a b ≤ 0
  · exact Or.inl hab
  · exact Or.inr ((h.1 b a).mpr (le_of_lt (not_le.mp hab)))

/-- Equality under a consistent comparator is symmetric. -/
theorem IsCollation.eq_zero_symm {lc : String → String → ℤ} (h : IsCollation lc) (a b : String)
    (hab : lc a b = 0) : lc b a = 0 :=
  le_antisymm ((h.1 b a).mpr (le_of_eq hab.symm)) ((h.1 a b).mp (le_of_eq hab))

/-- Strictly before, then not after, is strictly before. -/
theorem IsCollation.lt_of_lt_of_le {lc : String → String → ℤ} (h : IsCollation lc)
    (a b c : String) (hab : lc a b < 0) (hbc : lc b c ≤ 0) : lc a c < 0 := by
  have hac : lc a c ≤ 0 := h.2 a b c (le_of_lt hab) hbc
  rcases lt_or_eq_of_le hac with hlt | heq
  · exact hlt
  · exfalso
    have hca : lc c a ≤ 0 := (h.1 c a).mpr (le_of_eq heq.symm)
    have hba : lc b a ≤ 0 := h.2 b c a hbc hca
    have := (h.1 b a).mp hba
    omega

/-- Not after, then strictly before, is strictly before. -/
theorem IsCollation.lt_of_le_of_lt {lc : String → String → ℤ} (h : IsCollation lc)
    (a b c : String) (hab : lc a b ≤ 0) (hbc : lc b c < 0) : lc a c < 0 := by
  have hac : lc a c ≤ 0 := h.2 a b c hab (le_of_lt hbc)
  rcases lt_or_eq_of_le hac with hlt | heq
  · exact hlt
  · exfalso
    have hca : lc c a ≤ 0 := (h.1 c a).mpr (le_of_eq heq.symm)
    have hcb : lc c b ≤ 0 := h.2 c a b hca hab
    have := (h.1 c b).mp hcb
    omega

/-- The comparator of `fetchEntries` is not positive exactly when the two documents are in
the order of the specification. -/
theorem compareEntries_le_iff (lc : String → String → ℤ) (ascending : Bool) (a b : Doc) :
    compareEntries lc ascending a b ≤ 0 ↔ inFetchOrder lc ascending a b := by
  unfold compareEntries inFetchOrder
  cases ascending
  · simp only [Bool.false_eq_true, if_false]
    by_cases h0 : lc (b.2.date.getD "") (a.2.date.getD "") = 0
    · simp [h0]
    · simp only [ne_eq, h0, not_false_eq_true, if_true, false_and, or_false]
      constructor
      · intro h
        have h' : lc (b.2.date.getD "") (a.2.date.getD "") ≤ 0 := by exact_mod_cast h
        exact lt_of_le_of_ne h' h0
      · intro h
        exact_mod_cast le_of_lt h
  · simp only [if_true]
    by_cases h0 : lc (a.2.date.getD "") (b.2.date.getD "") = 0
    · simp [h0]
    · simp only [ne_eq, h0, not_false_eq_true, if_true, false_and, or_false]
      constructor
      · intro h
        have h' : lc (a.2.date.getD "") (b.2.date.getD "") ≤ 0 := by exact_mod_cast h
        exact lt_of_le_of_ne h' h0
      · intro h
        exact_mod_cast le_of_lt h

/-- The ascending order of the specification is total. -/
theorem inFetchOrder_total (lc : String → String → ℤ) (h : IsCollation lc) (ascending : Bool)
    (a b : Doc) : inFetchOrder lc ascending a b ∨ inFetchOrder lc ascending b a := by
  have key : ∀ x y : Doc,
      (lc (x.2.date.getD "") (y.2.date.getD "") < 0 ∨
        (lc (x.2.date.getD "") (y.2.date.getD "") = 0 ∧ startOf x ≤ startOf y)) ∨
      (lc (y.2.date.getD "") (x.2.date.getD "") < 0 ∨
        (lc (y.2.date.getD "") (x.2.date.getD "") = 0 ∧ startOf y ≤ startOf x)) := by
    intro x y
    rcases lt_trichotomy (lc (x.2.date.getD "") (y.2.date.getD "")) 0 with hlt | heq | hgt
    · exact Or.inl (Or.inl hlt)
    · rcases le_total (startOf x) (startOf y) with hs | hs
      · exact Or.inl (Or.inr ⟨heq, hs⟩)
      · exact Or.inr (Or.inr ⟨h.eq_zero_symm _ _ heq, hs⟩)
    · have hyx : lc (y.2.date.getD "") (x.2.date.getD "") ≤ 0 := (h.1 _ _).mpr (le_of_lt hgt)
      rcases lt_or_eq_of_le hyx with h1 | h1
      · exact Or.inr (Or.inl h1)
      · have := h.eq_zero_symm _ _ h1
        omega
  unfold inFetchOrder
  cases ascending
  · simp only [Bool.false_eq_true, if_false]
    exact (key b a)
  · simp only [if_true]
    exact key a b

/-- The order of the specification is transitive. -/
theorem inFetchOrder_trans (lc : String → String → ℤ) (h : IsCollation lc) (ascending : Bool)
    (a b c : Doc) (hab : inFetchOrder lc ascending a b) (hbc : inFetchOrder lc ascending b c) :
    inFetchOrder lc ascending a c := by
  have key : ∀ x y z : Doc,
      (lc (x.2.date.getD "") (y.2.date.getD "") < 0 ∨
        (lc (x.2.date.getD "") (y.2.date.getD "") = 0 ∧ startOf x ≤ startOf y)) →
      (lc (y.2.date.getD "") (z.2.date.getD "") < 0 ∨
        (lc (y.2.date.getD "") (z.2.date.getD "") = 0 ∧ startOf y ≤ startOf z)) →
      (lc (x.2.date.getD "") (z.2.date.getD "") < 0 ∨
        (lc (x.2.date.getD "") (z.2.date.getD "") = 0 ∧ startOf x ≤ startOf z)) := by
    intro x y z hxy hyz
    rcases hxy with h1 | ⟨h1, s1⟩ <;> rcases hyz with h2 | ⟨h2, s2⟩
    · exact Or.inl (h.lt_of_lt_of_le _ _ _ h1 (le_of_lt h2))
    · exact Or.inl (h.lt_of_lt_of_le _ _ _ h1 (le_of_eq h2))
    · exact Or.inl (h.lt_of_le_of_lt _ _ _ (le_of_eq h1) h2)
    · refine Or.inr ⟨?_, le_trans s1 s2⟩
      have hle : lc (x.2.date.getD "") (z.2.date.getD "") ≤ 0 :=
        h.2 _ _ _ (le_of_eq h1) (le_of_eq h2)
      have hge : lc (z.2.date.getD "") (x.2.date.getD "") ≤ 0 :=
        h.2 _ _ _ (le_of_eq (h.eq_zero_symm _ _ h2)) (le_of_eq (h.eq_zero_symm _ _ h1))
      exact le_antisymm hle ((h.1 _ _).mp hge)
  unfold inFetchOrder at *
  cases ascending
  · simp only [Bool.false_eq_true, if_false] at *
    exact key c b a hbc hab
  · simp only [if_true] at *
    exact key a b c hab hbc

/-- The documents sorted by the comparator of `fetchEntries` are in the order of the
specification, pairwise. -/
theorem insertionSort_inFetchOrder (lc : String → String → ℤ) (h : IsCollation lc)
    (ascending : Bool) (docs : List Doc) :
    (docs.insertionSort (fun a b => compareEntries lc ascending a b ≤ 0)).Pairwise
      (inFetchOrder lc ascending) := by
  have htotal : IsTotal Doc (fun a b => compareEntries lc ascending a b ≤ 0) :=
    ⟨fun a b => by
      simp only [compareEntries_le_iff]
      exact inFetchOrder_total lc h ascending a b⟩
  have htrans : IsTrans Doc (fun a b => compareEntries lc ascending a b ≤ 0) :=
    ⟨fun a b c hab hbc => by
      simp only [compareEntries_le_iff] at *
      exact inFetchOrder_trans lc h ascending a b c hab hbc⟩
  have hsorted := @List.sorted_insertionSort Doc
    (fun a b => compareEntries lc ascending a b ≤ 0) _ htotal htrans docs
  exact List.Pairwise.imp (fun {a b} hab => (compareEntries_le_iff lc ascending a b).mp hab)
    hsorted

theorem bumpRow_fst (entry : Doc) (kv : String × SummaryRow) : (bumpRow entry kv).1 = kv.1 := by
  unfold bumpRow
  split <;> rfl

theorem map_bumpRow_keys (entry : Doc) (acc : List (String × SummaryRow)) :
    (acc.map (bumpRow entry)).map Prod.fst = acc.map Prod.fst := by
  rw [List.map_map]
  apply List.map_congr_left
  intro kv _
  exact bumpRow_fst entry kv

theorem map_bumpRow_of_not_mem (entry : Doc) (acc : List (String × SummaryRow))
    (h : summaryKey entry ∉ acc.map Prod.fst) : acc.map (bumpRow entry) = acc := by
  conv_rhs => rw [← List.map_id acc]
  apply List.map_congr_left
  intro kv hkv
  have hne : kv.1 ≠ summaryKey entry := by
    intro heq
    exact h (heq ▸ List.mem_map_of_mem Prod.fst hkv)
  simp [bumpRow, hne]

/-- The reducer, by cases on whether the key already has a row. -/
theorem accumulate_eq (acc : List (String × SummaryRow)) (entry : Doc)
    (hkey : isInheritedKey (summaryKey entry) = false) :
    accumulate acc entry =
      if summaryKey entry ∈ acc.map Prod.fst then acc.map (bumpRow entry)
      else acc ++ [(summaryKey entry, addEntry (newRow entry) entry)] := by
  have hb : (fun kv : String × SummaryRow =>
      if kv.1 = summaryKey entry then (kv.1, addEntry kv.2 entry) else kv) = bumpRow entry := by
    funext kv
    rfl
  unfold accumulate
  simp only [hkey, Bool.false_eq_true, if_false, hb]
  by_cases hmem : summaryKey entry ∈ acc.map Prod.fst
  · have hsome : (List.lookup (summaryKey entry) acc).isSome = true := by
      rw [List.lookup_isSome_iff]
      obtain ⟨kv, hkv, hk⟩ := List.mem_map.mp hmem
      exact ⟨kv, hkv, by simp [hk]⟩
    simp only [hsome, if_true, hmem]
  · have hnone : (List.lookup (summaryKey entry) acc).isSome = false := by
      rw [Bool.eq_false_iff]
      intro hsome
      rw [List.lookup_isSome_iff] at hsome
      obtain ⟨p, hp, hk⟩ := hsome
      exact hmem (List.mem_map.mpr ⟨p, hp, (beq_iff_eq.mp hk).symm⟩)
    simp only [hnone, Bool.false_eq_true, if_false, hmem, List.map_append, List.map_cons,
      List.map_nil, map_bumpRow_of_not_mem entry acc hmem]
    simp [bumpRow]

/-- One step of the reducer keeps the three facts that tie the accumulator to the entries
already read: its keys are distinct, they are the keys of those entries, and each row is
the fold of `addEntry` over the entries of its key, started from the row of the first. -/
theorem accumulate_inv (done : List Doc) (acc : List (String × SummaryRow)) (entry : Doc)
    (hkey : isInheritedKey (summaryKey entry) = false)
    (h1 : (acc.map Prod.fst).Nodup)
    (h2 : ∀ k, k ∈ acc.map Prod.fst ↔ ∃ e ∈ done, summaryKey e = k)
    (h3 : ∀ kv ∈ acc, ∃ first tail,
      done.filter (fun e => decide (summaryKey e = kv.1)) = first :: tail ∧
        kv.2 = tail.foldl addEntry (addEntry (newRow first) first)) :
    ((accumulate acc entry).map Prod.fst).Nodup ∧
      (∀ k, k ∈ (accumulate acc entry).map Prod.fst ↔
        ∃ e ∈ done ++ [entry], summaryKey e = k) ∧
      ∀ kv ∈ accumulate acc entry, ∃ first tail,
        (done ++ [entry]).filter (fun e => decide (summaryKey e = kv.1)) = first :: tail ∧
          kv.2 = tail.foldl addEntry (addEntry (newRow first) first) := by
  rw [accumulate_eq acc entry hkey]
  have hother : ∀ k, k ≠ summaryKey entry →
      (done ++ [entry]).filter (fun e => decide (summaryKey e = k))
        = done.filter (fun e => decide (summaryKey e = k)) := by
    intro k hk
    simp [List.filter_append, List.filter_cons, Ne.symm hk]
  have hsame : (done ++ [entry]).filter (fun e => decide (summaryKey e = summaryKey entry))
      = done.filter (fun e => decide (summaryKey e = summaryKey entry)) ++ [entry] := by
    simp [List.filter_append, List.filter_cons]
  by_cases hmem : summaryKey entry ∈ acc.map Prod.fst
  · simp only [hmem, if_true]
    refine ⟨by rw [map_bumpRow_keys]; exact h1, ?_, ?_⟩
    · intro k
      rw [map_bumpRow_keys, h2 k]
      constructor
      · rintro ⟨e, he, hk⟩
        exact ⟨e, List.mem_append_left _ he, hk⟩
      · rintro ⟨e, he, hk⟩
        rcases List.mem_append.mp he with he | he
        · exact ⟨e, he, hk⟩
        · have : e = entry := by simpa using he
          subst this
          exact (h2 k).mp (hk ▸ hmem)
    · intro kv hkv
      obtain ⟨old, hold, rfl⟩ := List.mem_map.mp hkv
      obtain ⟨first, tail, hf, hrow⟩ := h3 old hold
      by_cases hk : old.1 = summaryKey entry
      · refine ⟨first, tail ++ [entry], ?_, ?_⟩
        · simp only [bumpRow, hk, if_true]
          rw [hsame, ← hk, hf]
          rfl
        · simp only [bumpRow, hk, if_true, List.foldl_append, List.foldl_cons, List.foldl_nil]
          rw [hrow]
      · refine ⟨first, tail, ?_, ?_⟩
        · simp only [bumpRow, hk, if_false]
          rw [hother _ hk, hf]
        · simp only [bumpRow, hk, if_false]
          exact hrow
  · simp only [hmem, if_false]
    refine ⟨?_, ?_, ?_⟩
    · rw [List.map_append, List.map_cons, List.map_nil]
      exact List.Nodup.append h1 (List.nodup_singleton _)
        (by
          intro k hk1 hk2
          have : k = summaryKey entry := by simpa using hk2
          exact hmem (this ▸ hk1))
    · intro k
      rw [List.map_append, List.mem_append, h2 k]
      constructor
      · rintro (⟨e, he, hk⟩ | hk)
        · exact ⟨e, List.mem_append_left _ he, hk⟩
        · have : k = summaryKey entry := by simpa using hk
          exact ⟨entry, by simp, this.symm⟩
      · rintro ⟨e, he, hk⟩
        rcases List.mem_append.mp he with he | he
        · exact Or.inl ⟨e, he, hk⟩
        · have : e = entry := by simpa using he
          subst this
          exact Or.inr (by simp [hk])
    · intro kv hkv
      rcases List.mem_append.mp hkv with hold | hnew
      · obtain ⟨first, tail, hf, hrow⟩ := h3 kv hold
        have hk : kv.1 ≠ summaryKey entry := by
          intro heq
          exact hmem (heq ▸ List.mem_map_of_mem Prod.fst hold)
        exact ⟨first, tail, by rw [hother _ hk, hf], hrow⟩
      · have hkv' : kv = (summaryKey entry, addEntry (newRow entry) entry) := by
          simpa using hnew
        subst hkv'
        refine ⟨entry, [], ?_, rfl⟩
        have hnone : done.filter (fun e => decide (summaryKey e = summaryKey entry)) = [] := by
          rw [List.filter_eq_nil_iff]
          intro e he hk
          exact hmem ((h2 _).mpr ⟨e, he, by simpa using hk⟩)
        simp only
        rw [hsame, hnone]
        rfl

/-- The three facts hold for the accumulator of the whole fold. -/
theorem foldl_accumulate_inv (rest : List Doc) :
    ∀ (done : List Doc) (acc : List (String × SummaryRow)),
      (∀ e ∈ rest, isInheritedKey (summaryKey e) = false) →
      (acc.map Prod.fst).Nodup →
      (∀ k, k ∈ acc.map Prod.fst ↔ ∃ e ∈ done, summaryKey e = k) →
      (∀ kv ∈ acc, ∃ first tail,
        done.filter (fun e => decide (summaryKey e = kv.1)) = first :: tail ∧
          kv.2 = tail.foldl addEntry (addEntry (newRow first) first)) →
      ((rest.foldl accumulate acc).map Prod.fst).Nodup ∧
        (∀ k, k ∈ (rest.foldl accumulate acc).map Prod.fst ↔
          ∃ e ∈ done ++ rest, summaryKey e = k) ∧
        ∀ kv ∈ rest.foldl accumulate acc, ∃ first tail,
          (done ++ rest).filter (fun e => decide (summaryKey e = kv.1)) = first :: tail ∧
            kv.2 = tail.foldl addEntry (addEntry (newRow first) first) := by
  induction rest with
  | nil =>
    intro done acc _ h1 h2 h3
    simp only [List.foldl_nil, List.append_nil]
    exact ⟨h1, h2, h3⟩
  | cons entry rest ih =>
    intro done acc hrest h1 h2 h3
    obtain ⟨g1, g2, g3⟩ := accumulate_inv done acc entry
      (hrest entry (List.mem_cons_self _ _)) h1 h2 h3
    have := ih (done ++ [entry]) (accumulate acc entry)
      (fun e he => hrest e (List.mem_cons_of_mem _ he)) g1 g2 g3
    simp only [List.append_assoc, List.singleton_append] at this
    simpa only [List.foldl_cons] using this

/-- The accumulator of `summarizeTimesheets` after reading `entries`. -/
theorem foldl_accumulate_spec (entries : List Doc)
    (hkeys : ∀ e ∈ entries, isInheritedKey (summaryKey e) = false) :
    ((entries.foldl accumulate []).map Prod.fst).Nodup ∧
      (∀ k, k ∈ (entries.foldl accumulate []).map Prod.fst ↔
        ∃ e ∈ entries, summaryKey e = k) ∧
      ∀ kv ∈ entries.foldl accumulate [], ∃ first tail,
        entries.filter (fun e => decide (summaryKey e = kv.1)) = first :: tail ∧
          kv.2 = tail.foldl addEntry (addEntry (newRow first) first) := by
  have := foldl_accumulate_inv entries [] [] hkeys (by simp) (by simp) (by simp)
  simpa only [List.nil_append] using this

/-- The fields of a row after a run of `addEntry`. -/
theorem foldl_addEntry_fields (es : List Doc) :
    ∀ row : SummaryRow,
      (es.foldl addEntry row).userId = row.userId ∧
      (es.foldl addEntry row).displayName = row.displayName ∧
      (es.foldl addEntry row).username = row.username ∧
      (es.foldl addEntry row).holidayMinutes
        = row.holidayMinutes + (es.map (fun e => e.2.holidayMinutes.getD 0)).sum ∧
      (es.foldl addEntry row).nightMinutes
        = row.nightMinutes + (es.map (fun e => e.2.nightMinutes.getD 0)).sum ∧
      (es.foldl addEntry row).normalMinutes
        = row.normalMinutes +
          ((es.filter (fun e => !(e.2.isHoliday.getD false))).map
            (fun e => max (e.2.durationMinutes.getD 0 - e.2.nightMinutes.getD 0) 0)).sum := by
  induction es with
  | nil => intro row; simp
  | cons e es ih =>
    intro row
    obtain ⟨i1, i2, i3, i4, i5, i6⟩ := ih (addEntry row e)
    simp only [List.foldl_cons, i1, i2, i3, i4, i5, i6, List.map_cons, List.sum_cons]
    refine ⟨rfl, rfl, rfl, ?_, ?_, ?_⟩
    · simp only [addEntry]; ring
    · simp only [addEntry]; ring
    · by_cases hh : e.2.isHoliday.getD false = true
      · simp [addEntry, hh, List.filter_cons]
      · simp [addEntry, hh, List.filter_cons]
        ring

/-- `Object.values` lists the rows of the accumulator, in some order. -/
theorem objectValues_perm (acc : List (String × SummaryRow)) :
    (objectValues acc).Perm (acc.map Prod.snd) := by
  unfold objectValues
  apply List.Perm.map
  exact ((List.perm_insertionSort _ _).append_right _).trans (List.filter_append_perm _ acc)

/-- Under a consistent comparator the sort of the summary returns the rows sorted by
display name, provided every row has one. -/
theorem sortRows_spec (lc : String → String → ℤ) (hcoll : IsCollation lc)
    (rows : List SummaryRow) (hnames : ∀ row ∈ rows, row.displayName.isSome = true) :
    ∃ sorted, sortRows lc rows = .ok sorted ∧ sorted.Perm rows ∧
      sorted.Pairwise (fun a b => lc (a.displayName.getD "") (b.displayName.getD "") ≤ 0) := by
  unfold sortRows
  by_cases hlen : rows.length ≤ 1
  · refine ⟨rows, by simp only [hlen, if_true], List.Perm.refl _, ?_⟩
    match rows, hlen with
    | [], _ => exact List.Pairwise.nil
    | [_], _ => exact List.pairwise_singleton _ _
    | _ :: _ :: _, h => simp at h
  · have hall : rows.all (fun row => row.displayName.isSome) = true := by
      rw [List.all_eq_true]
      exact hnames
    have htotal : IsTotal SummaryRow
        (fun a b => lc (a.displayName.getD "") (b.displayName.getD "") ≤ 0) :=
      ⟨fun a b => hcoll.total _ _⟩
    have htrans : IsTrans SummaryRow
        (fun a b => lc (a.displayName.getD "") (b.displayName.getD "") ≤ 0) :=
      ⟨fun a b c hab hbc => hcoll.2 _ _ _ hab hbc⟩
    refine ⟨rows.insertionSort
        (fun a b => lc (a.displayName.getD "") (b.displayName.getD "") ≤ 0),
      by simp only [hlen, if_false, hall, if_true], List.perm_insertionSort _ _, ?_⟩
    exact @List.sorted_insertionSort SummaryRow
      (fun a b => lc (a.displayName.getD "") (b.displayName.getD "") ≤ 0) _ htotal htrans rows

/-- Each row of the accumulator, read against the entries of its user. -/
theorem accumulated_row_spec (entries : List Doc)
    (hkeys : ∀ e ∈ entries, isInheritedKey (summaryKey e) = false)
    (huser : ∀ e ∈ entries, e.2.userId.isSome = true)
    (kv : String × SummaryRow) (hkv : kv ∈ entries.foldl accumulate []) :
    kv.2.userId = some kv.1 ∧
      (∃ first ∈ entries, kv.2.displayName = orOption first.2.userDisplayName first.2.username) ∧
      kv.2.holidayMinutes
        = ((entriesOf entries kv.1).map (fun e => e.2.holidayMinutes.getD 0)).sum ∧
      kv.2.nightMinutes
        = ((entriesOf entries kv.1).map (fun e => e.2.nightMinutes.getD 0)).sum ∧
      kv.2.normalMinutes
        = (((entriesOf entries kv.1).filter (fun e => !(e.2.isHoliday.getD false))).map
            (fun e => max (e.2.durationMinutes.getD 0 - e.2.nightMinutes.getD 0) 0)).sum := by
  obtain ⟨-, -, h3⟩ := foldl_accumulate_spec entries hkeys
  obtain ⟨first, tail, hf, hrow⟩ := h3 kv hkv
  have hfilter : entries.filter (fun e => decide (summaryKey e = kv.1))
      = entriesOf entries kv.1 := by
    unfold entriesOf
    apply List.filter_congr
    intro e he
    obtain ⟨u, hu⟩ := Option.isSome_iff_exists.mp (huser e he)
    simp [summaryKey, hu]
  have hfirst : first ∈ entries.filter (fun e => decide (summaryKey e = kv.1)) := by
    rw [hf]
    exact List.mem_cons_self _ _
  obtain ⟨hfmem, hfkey⟩ := List.mem_filter.mp hfirst
  have hfkey' : summaryKey first = kv.1 := by simpa using hfkey
  have hrow' : kv.2 = (first :: tail).foldl addEntry (newRow first) := hrow
  obtain ⟨f1, f2, -, f4, f5, f6⟩ := foldl_addEntry_fields (first :: tail) (newRow first)
  rw [← hfilter, hf, hrow']
  refine ⟨?_, ⟨first, hfmem, ?_⟩, ?_, ?_, ?_⟩
  · rw [f1]
    obtain ⟨u, hu⟩ := Option.isSome_iff_exists.mp (huser first hfmem)
    simp only [newRow, hu]
    simp only [summaryKey, hu, Option.getD_some] at hfkey'
    rw [hfkey']
  · rw [f2]
    rfl
  · rw [f4]
    simp [newRow]
  · rw [f5]
    simp [newRow]
  · rw [f6]
    simp [newRow]

/-- The summary of entries that all have a user id and a display name, and none of whose
user ids is an inherited member name: `summaryOf` returns rows that are, in some order,
the rows of the accumulator, sorted by display name. -/
theorem summaryOf_spec (lc : String → String → ℤ) (hcoll : IsCollation lc)
    (entries : List Doc)
    (hkeys : ∀ e ∈ entries, isInheritedKey (summaryKey e) = false)
    (huser : ∀ e ∈ entries, e.2.userId.isSome = true)
    (hname : ∀ e ∈ entries, (orOption e.2.userDisplayName e.2.username).isSome = true) :
    ∃ rows, summaryOf lc entries = .ok rows ∧
      rows.Perm ((entries.foldl accumulate []).map Prod.snd) ∧
      rows.Pairwise (fun a b => lc (a.displayName.getD "") (b.displayName.getD "") ≤ 0) := by
  unfold summaryOf
  have hnames : ∀ row ∈ objectValues (entries.foldl accumulate []),
      row.displayName.isSome = true := by
    intro row hrow
    have hmem := (objectValues_perm _).mem_iff.mp hrow
    obtain ⟨kv, hkv, rfl⟩ := List.mem_map.mp hmem
    obtain ⟨-, ⟨first, hfirst, hd⟩, -⟩ := accumulated_row_spec entries hkeys huser kv hkv
    rw [hd]
    exact hname first hfirst
  obtain ⟨sorted, hs, hperm, hpair⟩ := sortRows_spec lc hcoll _ hnames
  exact ⟨sorted, hs, hperm.trans (objectValues_perm _), hpair⟩

/-- An adjacent pair of a pairwise ordered list is ordered. -/
theorem chain_of_pairwise {α : Type} (r : α → α → Prop) (l : List α) (h : l.Pairwise r) :
    l.Chain' r :=
  List.Pairwise.chain' h

/-- `fetchEntries` returns what the store returned, sorted in the order of the
specification, when the store returned documents that all have a date. -/
theorem fetchEntries_spec (lc : String → String → ℤ) (hcoll : IsCollation lc)
    (runQuery : StoreQuery → Except String (List Doc)) (scope : Scope) (docs : List Doc)
    (hrun : runQuery (buildQuery scope) = .ok docs)
    (hdates : ∀ doc ∈ docs, doc.2.date.isSome = true) :
    ∃ result, fetchEntries lc runQuery scope = .ok result ∧ result.Perm docs ∧
      result.Pairwise (inFetchOrder lc (decide (scope.order = some "asc"))) := by
  unfold fetchEntries sortEntries
  simp only [hrun]
  by_cases hlen : docs.length ≤ 1
  · refine ⟨docs, by simp only [hlen, if_true], List.Perm.refl _, ?_⟩
    match docs, hlen with
    | [], _ => exact List.Pairwise.nil
    | [_], _ => exact List.pairwise_singleton _ _
    | _ :: _ :: _, h => simp at h
  · have hall : docs.all (fun doc => doc.2.date.isSome) = true := by
      rw [List.all_eq_true]
      exact hdates
    exact ⟨docs.insertionSort
        (fun a b => compareEntries lc (decide (scope.order = some "asc")) a b ≤ 0),
      by simp only [hlen, if_false, hall, if_true], List.perm_insertionSort _ _,
      insertionSort_inFetchOrder lc hcoll _ docs⟩

/-- The limit that `fetchEntries` hands to the store is never above 1000. -/
theorem storeLimit_le (limit : LimitArg) :
    storeLimit limit = .negInf ∨ ∃ q : ℚ, storeLimit limit = .fin q ∧ q ≤ 1000 := by
  have key : ∀ n : JSNum, minWith (numberOr n 500) 1000 = .negInf ∨
      ∃ q : ℚ, minWith (numberOr n 500) 1000 = .fin q ∧ q ≤ 1000 := by
    intro n
    cases n with
    | nan => exact Or.inr ⟨_, rfl, min_le_right _ _⟩
    | posInf => exact Or.inr ⟨_, rfl, le_refl _⟩
    | negInf => exact Or.inl rfl
    | fin q =>
      by_cases hq : q = 0
      · exact Or.inr ⟨min 500 1000, by simp only [numberOr, hq, if_true, minWith],
          min_le_right _ _⟩
      · exact Or.inr ⟨min q 1000, by simp only [numberOr, hq, if_false, minWith],
          min_le_right _ _⟩
  unfold storeLimit
  cases limit with
  | absent => exact key (.fin 500)
  | text s => exact key _
  | number n => exact key _

/-- The run of the create handler up to the audit write. -/
theorem create_run (env : Env) (store : Store) (user : Principal) (body value : EntryInput)
    (owner : Owner) (data : Entry)
    (hv : timesheetSchema body = .ok value)
    (ho : resolveOwner store.users
      (if hasPermission user.permissions "timesheets.manage" = true then value.userId
        else some user.uid) user = .ok owner)
    (hc : composeEntry env.toLowerCase env.now Previous.empty value owner user.toActor
      = .ok data) :
    createTimesheetEntry env store user body =
      auditAndRespond env
        { store with
          timesheets := Function.update store.timesheets env.newId
            (some (writtenRecord data (.timestamp env.now) user.uid
              (orElse user.displayName (orElse user.username "Sistema")))) }
        user env.newId "create"
        (buildMovementPayload env.newId
          (writtenRecord data (.timestamp env.now) user.uid
            (orElse user.displayName (orElse user.username "Sistema"))))
        "No se pudo guardar la hora"
        (.entry 201 env.newId
          (stripInternalFields
            (writtenRecord data (.timestamp env.now) user.uid
              (orElse user.displayName (orElse user.username "Sistema"))))) := by
  unfold createTimesheetEntry
  simp only [hv, ho, hc]

/-- A record that creation by a non-manager leaves under the new id has the actor's uid
as its userId. -/
theorem create_nonmanager_userId (env : Env) (store : Store) (user : Principal)
    (body : EntryInput) (rec : StoredRecord)
    (hperm : hasPermission user.permissions "timesheets.manage" = false)
    (hfresh : store.timesheets env.newId = none)
    (hrec : (createTimesheetEntry env store user body).2.timesheets env.newId = some rec) :
    rec.userId = some user.uid := by
  rcases create_nonmanager_cases env store user body hperm with ⟨msg, h⟩ | ⟨r, h, hr, -⟩
  · rw [h] at hrec
    simp only at hrec
    rw [hfresh] at hrec
    exact absurd hrec (by simp)
  · rw [h, Function.update_same] at hrec
    rw [← Option.some.inj hrec]
    exact hr

/-- The value that the create schema returns for the body used in the examples. -/
theorem sampleBody_valid :
    timesheetSchema
        { userId := some "u1", date := some "2024-05-06", startTime := some "08:00",
          endTime := some "16:00", client := some " Acme ", task := none,
          workOrder := none, isHoliday := none }
      = .ok
        { userId := some "u1", date := some "2024-05-06", startTime := some "08:00",
          endTime := some "16:00", client := some "Acme", task := some "",
          workOrder := some "", isHoliday := some false } := by
  rfl

/-! ## Lemmas on the rows of the summary -/

/-- The user ids of the rows of the accumulator are its keys. -/
theorem accumulated_userIds (entries : List Doc)
    (hkeys : ∀ e ∈ entries, isInheritedKey (summaryKey e) = false)
    (huser : ∀ e ∈ entries, e.2.userId.isSome = true) :
    ((entries.foldl accumulate []).map Prod.snd).map (fun row => row.userId)
      = ((entries.foldl accumulate []).map Prod.fst).map some := by
  rw [List.map_map, List.map_map]
  apply List.map_congr_left
  intro kv hkv
  exact (accumulated_row_spec entries hkeys huser kv hkv).1

/-- The key of an entry that has a user id is that user id. -/
theorem summaryKey_eq_iff (e : Doc) (h : e.2.userId.isSome = true) (u : String) :
    summaryKey e = u ↔ e.2.userId = some u := by
  obtain ⟨v, hv⟩ := Option.isSome_iff_exists.mp h
  simp [summaryKey, hv]

/-- The rows of a summary, read against the entries: the summary is computed, there is a
row for a user exactly when the user has an entry, the user ids of the rows are distinct,
each row holds the sums over the entries of its user, and the rows are sorted. -/
theorem summaryOf_rows (lc : String → String → ℤ) (hcoll : IsCollation lc)
    (entries : List Doc)
    (hkeys : ∀ e ∈ entries, isInheritedKey (summaryKey e) = false)
    (huser : ∀ e ∈ entries, e.2.userId.isSome = true)
    (hname : ∀ e ∈ entries, (orOption e.2.userDisplayName e.2.username).isSome = true) :
    ∃ rows, summaryOf lc entries = .ok rows ∧
      (rows.map (fun row => row.userId)).Nodup ∧
      (∀ u : String, some u ∈ rows.map (fun row => row.userId) ↔
        ∃ e ∈ entries, e.2.userId = some u) ∧
      (∀ row ∈ rows, ∃ u, row.userId = some u) ∧
      (∀ row ∈ rows, ∀ u, row.userId = some u →
        row.holidayMinutes
            = ((entriesOf entries u).map (fun e => e.2.holidayMinutes.getD 0)).sum ∧
          row.nightMinutes
            = ((entriesOf entries u).map (fun e => e.2.nightMinutes.getD 0)).sum ∧
          row.normalMinutes
            = (((entriesOf entries u).filter (fun e => !(e.2.isHoliday.getD false))).map
                (fun e => max (e.2.durationMinutes.getD 0 - e.2.nightMinutes.getD 0) 0)).sum) ∧
      rows.Pairwise (fun a b => lc (a.displayName.getD "") (b.displayName.getD "") ≤ 0) := by
  obtain ⟨rows, hrows, hperm, hsorted⟩ := summaryOf_spec lc hcoll entries hkeys huser hname
  obtain ⟨hnodup, hmem, -⟩ := foldl_accumulate_spec entries hkeys
  have hids : (rows.map (fun row => row.userId)).Perm
      (((entries.foldl accumulate []).map Prod.fst).map some) := by
    rw [← accumulated_userIds entries hkeys huser]
    exact hperm.map _
  have hrow : ∀ row ∈ rows, ∃ kv ∈ entries.foldl accumulate [], kv.2 = row := by
    intro row hr
    obtain ⟨kv, hkv, heq⟩ := List.mem_map.mp (hperm.mem_iff.mp hr)
    exact ⟨kv, hkv, heq⟩
  refine ⟨rows, hrows, ?_, ?_, ?_, ?_, hsorted⟩
  · exact hids.nodup_iff.mpr (hnodup.map (Option.some_injective _))
  · intro u
    rw [hids.mem_iff, List.mem_map]
    constructor
    · rintro ⟨k, hk, hku⟩
      obtain ⟨e, he, hek⟩ := (hmem k).mp hk
      refine ⟨e, he, ?_⟩
      rw [← (Option.some_injective _ hku)]
      exact (summaryKey_eq_iff e (huser e he) k).mp hek
    · rintro ⟨e, he, heu⟩
      exact ⟨u, (hmem u).mpr ⟨e, he, (summaryKey_eq_iff e (huser e he) u).mpr heu⟩, rfl⟩
  · intro row hr
    obtain ⟨kv, hkv, rfl⟩ := hrow row hr
    exact ⟨kv.1, (accumulated_row_spec entries hkeys huser kv hkv).1⟩
  · intro row hr u hu
    obtain ⟨kv, hkv, rfl⟩ := hrow row hr
    obtain ⟨h1, -, h3, h4, h5⟩ := accumulated_row_spec entries hkeys huser kv hkv
    have hk : kv.1 = u := Option.some_injective _ (h1.symm.trans hu)
    rw [hk] at h3 h4 h5
    exact ⟨h3, h4, h5⟩

/-- For entries that satisfy the invariants, the normal, holiday and night sums add up to
the durations plus the night minutes of the holiday entries. -/
theorem sum_normal_holiday_night (l : List Doc) (hinv : ∀ e ∈ l, SatisfiesInvariants e) :
    ((l.filter (fun e => !(e.2.isHoliday.getD false))).map
          (fun e => max (e.2.durationMinutes.getD 0 - e.2.nightMinutes.getD 0) 0)).sum
        + (l.map (fun e => e.2.holidayMinutes.getD 0)).sum
        + (l.map (fun e => e.2.nightMinutes.getD 0)).sum
      = (l.map (fun e => e.2.durationMinutes.getD 0)).sum
        + ((l.filter (fun e => e.2.isHoliday.getD false)).map
            (fun e => e.2.nightMinutes.getD 0)).sum := by
  induction l with
  | nil => simp
  | cons e l ih =>
    have ih := ih (fun x hx => hinv x (List.mem_cons_of_mem _ hx))
    obtain ⟨h0, h1, h2⟩ := hinv e (List.mem_cons_self _ _)
    cases hh : e.2.isHoliday.getD false
    · rw [hh] at h2
      simp only [Bool.false_eq_true, if_false] at h2
      have hmax : max (e.2.durationMinutes.getD 0 - e.2.nightMinutes.getD 0) 0
          = e.2.durationMinutes.getD 0 - e.2.nightMinutes.getD 0 :=
        max_eq_left (sub_nonneg.mpr h1)
      simp only [List.filter_cons, hh, Bool.not_false, if_true, Bool.false_eq_true, if_false,
        List.map_cons, List.sum_cons, hmax, h2]
      linarith
    · rw [hh] at h2
      simp only [if_true] at h2
      simp only [List.filter_cons, hh, Bool.not_true, Bool.false_eq_true, if_false, if_true,
        List.map_cons, List.sum_cons, h2]
      linarith

/-- The night minutes of the holiday entries add up to 0 exactly when each of them is 0,
the night minutes being not negative. -/
theorem holiday_night_sum_eq_zero_iff (l : List Doc)
    (hinv : ∀ e ∈ l, 0 ≤ e.2.nightMinutes.getD 0) :
    ((l.filter (fun e => e.2.isHoliday.getD false)).map
        (fun e => e.2.nightMinutes.getD 0)).sum = 0 ↔
      ∀ e ∈ l, e.2.isHoliday.getD false = true → e.2.nightMinutes.getD 0 = 0 := by
  induction l with
  | nil => simp
  | cons e l ih =>
    have ih := ih (fun x hx => hinv x (List.mem_cons_of_mem _ hx))
    have h0 := hinv e (List.mem_cons_self _ _)
    have htail : 0 ≤ ((l.filter (fun e => e.2.isHoliday.getD false)).map
        (fun e => e.2.nightMinutes.getD 0)).sum := by
      apply List.sum_nonneg
      intro x hx
      obtain ⟨y, hy, rfl⟩ := List.mem_map.mp hx
      exact hinv y (List.mem_cons_of_mem _ (List.mem_filter.mp hy).1)
    cases hh : e.2.isHoliday.getD false
    · simp only [List.filter_cons, hh, Bool.false_eq_true, if_false, List.mem_cons,
        forall_eq_or_imp, false_implies, true_and]
      exact ih
    · simp only [List.filter_cons, hh, if_true, List.map_cons, List.sum_cons, List.mem_cons,
        forall_eq_or_imp, true_implies]
      rw [← ih]
      constructor
      · intro h
        constructor <;> linarith
      · rintro ⟨h1, h2⟩
        rw [h1, h2, add_zero]

/-- The handler `summarizeTimesheets` answers the rows of `summaryOf` on the filtered
entries, when the fetch and the summary succeed. -/
theorem summarizeTimesheets_of_fetched (toLowerCase : String → String)
    (lc : String → String → ℤ) (runQuery : StoreQuery → Except String (List Doc))
    (query : ListQuery) (entries : List Doc) (rows : List SummaryRow)
    (hfetch : fetchEntries lc runQuery
      { userId := query.userId, date := none, fromDate := query.fromDate,
        toDate := query.toDate, limit := summaryLimit query.limit, order := some "asc" }
      = .ok entries)
    (hsum : summaryOf lc (applyFilters toLowerCase entries (filtersOf toLowerCase query))
      = .ok rows) :
    summarizeTimesheets toLowerCase lc runQuery query = .ok rows := by
  simp only [summarizeTimesheets, hfetch, hsum]

/-- The handler `listTimesheets` answers the filtered entries, without their internal
fields, when the fetch succeeds. -/
theorem listTimesheets_of_fetched (toLowerCase : String → String)
    (lc : String → String → ℤ) (runQuery : StoreQuery → Except String (List Doc))
    (query : ListQuery) (entries : List Doc)
    (hfetch : fetchEntries lc runQuery
      { userId := query.userId, date := query.date, fromDate := query.fromDate,
        toDate := query.toDate, limit := query.limit, order := none }
      = .ok entries) :
    listTimesheets toLowerCase lc runQuery query
      = .ok ((applyFilters toLowerCase entries (filtersOf toLowerCase query)).map
          (fun doc => (doc.1, stripInternalFields doc.2))) := by
  simp only [listTimesheets, hfetch]

/-! ## Claim on the owner of a created entry -/

/-- C21: creation by a non-manager always yields an entry owned by the actor. For every
request body, whatever userId it supplies, a record that `createTimesheetEntry`, run by an
actor without `timesheets.manage`, persists under the new id has userId equal to the
actor's uid. -/
theorem create_by_nonmanager_owned_by_actor (env : Env) (store : Store) (user : Principal)
    (body : EntryInput) (rec : StoredRecord)
    (hperm : hasPermission user.permissions "timesheets.manage" = false)
    (hfresh : store.timesheets env.newId = none)
    (hrec : (createTimesheetEntry env store user body).2.timesheets env.newId = some rec) :
    rec.userId = some user.uid :=
  create_nonmanager_userId env store user body rec hperm hfresh hrec

theorem create_by_nonmanager_owned_by_actor_witness :
    ∃ rec,
      (createTimesheetEntry (sampleEnv 1714982400000) sampleStore sampleColleague
          { userId := some "u1", date := some "2024-05-06", startTime := some "08:00",
            endTime := some "16:00", client := some " Acme ", task := none,
            workOrder := none, isHoliday := none }).2.timesheets "t9" = some rec ∧
        rec.userId = some "u2" := by
  have hc := composeEntry_of_parsed id 1714982400000 Previous.empty
    { userId := some "u1", date := some "2024-05-06", startTime := some "08:00",
      endTime := some "16:00", client := some "Acme", task := some "",
      workOrder := some "", isHoliday := some false }
    ⟨"u2", "luis", "Luis"⟩ sampleColleague.toActor _ _
    (parseTimeToMinutes_clockString 8 0 (by decide) (by decide))
    (parseTimeToMinutes_clockString 16 0 (by decide) (by decide))
  have ho : resolveOwner sampleStore.users
      (if hasPermission sampleColleague.permissions "timesheets.manage" = true then some "u1"
        else some sampleColleague.uid) sampleColleague
      = .ok ⟨"u2", "luis", "Luis"⟩ := rfl
  have hrun := create_run (sampleEnv 1714982400000) sampleStore sampleColleague _ _ _ _
    sampleBody_valid ho hc
  have hstored : ∃ rec, (createTimesheetEntry (sampleEnv 1714982400000) sampleStore
      sampleColleague
      { userId := some "u1", date := some "2024-05-06", startTime := some "08:00",
        endTime := some "16:00", client := some " Acme ", task := none,
        workOrder := none, isHoliday := none }).2.timesheets "t9" = some rec := by
    rw [hrun, auditAndRespond_timesheets]
    show ∃ rec, Function.update sampleStore.timesheets "t9" _ "t9" = some rec
    rw [Function.update_same]
    exact ⟨_, rfl⟩
  obtain ⟨rec, hrec⟩ := hstored
  exact ⟨rec, hrec, create_by_nonmanager_owned_by_actor (sampleEnv 1714982400000) sampleStore
    sampleColleague _ rec rfl rfl hrec⟩

/-! ## Claims on `applyFilters` -/

/-- C22: `applyFilters` returns, in their original order, exactly the entries that satisfy
every supplied criterion: client, task and workOrder by a case-insensitive substring match
on their field (both sides trimmed and lower-cased by `lower`), user by such a match on
the display name or the username, isHoliday by equality of booleans, nightOnly by
nightMinutes > 0, q by a substring match on searchText; with no criterion nothing is
filtered. -/
theorem applyFilters_spec (toLowerCase : String → String) (entries : List Doc)
    (filters : Filters) :
    applyFilters toLowerCase entries filters
        = entries.filter (satisfiesCriteria toLowerCase filters) ∧
      applyFilters toLowerCase entries Filters.empty = entries := by
  refine ⟨applyFilters_eq_filter toLowerCase entries filters, ?_⟩
  rw [applyFilters_eq_filter]
  simp [satisfiesCriteria, Filters.empty, textCriterionHolds, parseBoolean]

/-- C23: for any list of entries whose nightMinutes are not negative, `applyFilters` with
only nightOnly set, to a value that `parseBoolean` reads as true, returns a sub-list of the
input in which every entry has nightMinutes > 0, and every input entry left out has
nightMinutes = 0. -/
theorem applyFilters_nightOnly (toLowerCase : String → String) (entries : List Doc)
    (flag : FlagValue) (hflag : parseBoolean toLowerCase flag = some true)
    (hinv : ∀ e ∈ entries, 0 ≤ e.2.nightMinutes.getD 0) :
    (applyFilters toLowerCase entries { Filters.empty with nightOnly := flag }).Sublist
        entries ∧
      (∀ e ∈ applyFilters toLowerCase entries { Filters.empty with nightOnly := flag },
        0 < e.2.nightMinutes.getD 0) ∧
      ∀ e ∈ entries,
        e ∉ applyFilters toLowerCase entries { Filters.empty with nightOnly := flag } →
          e.2.nightMinutes.getD 0 = 0 := by
  have heq : applyFilters toLowerCase entries { Filters.empty with nightOnly := flag }
      = entries.filter (fun e => decide (0 < e.2.nightMinutes.getD 0)) := by
    rw [applyFilters_eq_filter]
    apply List.filter_congr
    intro e _
    simp [satisfiesCriteria, Filters.empty, textCriterionHolds, hflag]
  rw [heq]
  refine ⟨List.filter_sublist _, ?_, ?_⟩
  · intro e he
    simpa using (List.mem_filter.mp he).2
  · intro e he hout
    have hnot : ¬ 0 < e.2.nightMinutes.getD 0 := by
      intro hpos
      exact hout (List.mem_filter.mpr ⟨he, by simpa using hpos⟩)
    exact le_antisymm (not_lt.mp hnot) (hinv e he)

theorem applyFilters_nightOnly_witness :
    (applyFilters id [sampleHolidayShift, sampleNormalShift, sampleNightShift]
        { Filters.empty with nightOnly := .text "true" }).Sublist
        [sampleHolidayShift, sampleNormalShift, sampleNightShift] ∧
      (∀ e ∈ applyFilters id [sampleHolidayShift, sampleNormalShift, sampleNightShift]
          { Filters.empty with nightOnly := .text "true" },
        0 < e.2.nightMinutes.getD 0) ∧
      ∀ e ∈ [sampleHolidayShift, sampleNormalShift, sampleNightShift],
        e ∉ applyFilters id [sampleHolidayShift, sampleNormalShift, sampleNightShift]
            { Filters.empty with nightOnly := .text "true" } →
          e.2.nightMinutes.getD 0 = 0 :=
  applyFilters_nightOnly id [sampleHolidayShift, sampleNormalShift, sampleNightShift]
    (.text "true") rfl
    (by
      intro e he
      simp only [List.mem_cons, List.mem_singleton, List.not_mem_nil, or_false] at he
      rcases he with rfl | rfl | rfl <;>
        norm_num [sampleHolidayShift, sampleNormalShift, sampleNightShift, sampleRecord])

/-! ## Claims on the summary -/

/-- C24: for every list of entries and every user id occurring in it, the summary has a row
of that user, and a row of that user has holidayMinutes = the sum of the holidayMinutes of
the entries of the user, nightMinutes = the sum of their nightMinutes, and normalMinutes =
the sum over the non-holiday entries of the user of max(durationMinutes - nightMinutes, 0).
The entries all have a user id and a display name or username, no user id is the name of
a member of `Object.prototype`, and `localeCompare` is a consistent comparator. -/
theorem summary_row_sums (lc : String → String → ℤ) (hcoll : IsCollation lc)
    (entries : List Doc)
    (hkeys : ∀ e ∈ entries, isInheritedKey (summaryKey e) = false)
    (huser : ∀ e ∈ entries, e.2.userId.isSome = true)
    (hname : ∀ e ∈ entries, (orOption e.2.userDisplayName e.2.username).isSome = true)
    (u : String) (hu : ∃ e ∈ entries, e.2.userId = some u) :
    ∃ rows, summaryOf lc entries = .ok rows ∧
      (∃ row ∈ rows, row.userId = some u) ∧
      ∀ row ∈ rows, row.userId = some u →
        row.holidayMinutes
            = ((entriesOf entries u).map (fun e => e.2.holidayMinutes.getD 0)).sum ∧
          row.nightMinutes
            = ((entriesOf entries u).map (fun e => e.2.nightMinutes.getD 0)).sum ∧
          row.normalMinutes
            = (((entriesOf entries u).filter (fun e => !(e.2.isHoliday.getD false))).map
                (fun e => max (e.2.durationMinutes.getD 0 - e.2.nightMinutes.getD 0) 0)).sum := by
  obtain ⟨rows, hrows, -, hmem, -, hsums, -⟩ :=
    summaryOf_rows lc hcoll entries hkeys huser hname
  refine ⟨rows, hrows, ?_, fun row hr h => hsums row hr u h⟩
  obtain ⟨row, hr, hrow⟩ := List.mem_map.mp ((hmem u).mpr hu)
  exact ⟨row, hr, hrow⟩

theorem summary_row_sums_witness :
    ∃ rows, summaryOf codePointCompare [sampleHolidayShift, sampleNormalShift] = .ok rows ∧
      (∃ row ∈ rows, row.userId = some "u1") ∧
      ∀ row ∈ rows, row.userId = some "u1" →
        row.normalMinutes = 480 ∧ row.holidayMinutes = 480 ∧ row.nightMinutes = 60 := by
  obtain ⟨rows, hrows, hex, hsums⟩ := summary_row_sums codePointCompare
    codePointCompare_isCollation [sampleHolidayShift, sampleNormalShift]
    (by
      intro e he
      simp only [List.mem_cons, List.mem_singleton, List.not_mem_nil, or_false] at he
      rcases he with rfl | rfl <;> rfl)
    (by
      intro e he
      simp only [List.mem_cons, List.mem_singleton, List.not_mem_nil, or_false] at he
      rcases he with rfl | rfl <;> rfl)
    (by
      intro e he
      simp only [List.mem_cons, List.mem_singleton, List.not_mem_nil, or_false] at he
      rcases he with rfl | rfl <;> rfl)
    "u1" ⟨sampleHolidayShift, List.mem_cons_self _ _, rfl⟩
  refine ⟨rows, hrows, hex, ?_⟩
  intro row hr hu
  obtain ⟨h1, h2, h3⟩ := hsums row hr hu
  have hof : entriesOf [sampleHolidayShift, sampleNormalShift] "u1"
      = [sampleHolidayShift, sampleNormalShift] := by
    simp [entriesOf, sampleHolidayShift, sampleNormalShift, sampleRecord]
  rw [hof] at h1 h2 h3
  refine ⟨?_, ?_, ?_⟩
  · rw [h3]
    norm_num [sampleHolidayShift, sampleNormalShift, sampleRecord]
  · rw [h1]
    norm_num [sampleHolidayShift, sampleNormalShift, sampleRecord]
  · rw [h2]
    norm_num [sampleHolidayShift, sampleNormalShift, sampleRecord]

/-- C25: the summary contains exactly one row per distinct user id present in the
filtered entries, and the rows are sorted ascending by displayName. The user ids of the
rows are pairwise distinct, a user id is that of a row exactly when it is that of an
entry, every row has a user id, and each row comes before the rows after it in the order
of `localeCompare` on the display names. The entries all have a user id and a display
name or username, no user id is the name of a member of `Object.prototype`, and
`localeCompare` is a consistent comparator. -/
theorem summary_one_row_per_user (lc : String → String → ℤ) (hcoll : IsCollation lc)
    (entries : List Doc)
    (hkeys : ∀ e ∈ entries, isInheritedKey (summaryKey e) = false)
    (huser : ∀ e ∈ entries, e.2.userId.isSome = true)
    (hname : ∀ e ∈ entries, (orOption e.2.userDisplayName e.2.username).isSome = true) :
    ∃ rows, summaryOf lc entries = .ok rows ∧
      (rows.map (fun row => row.userId)).Nodup ∧
      (∀ u : String, some u ∈ rows.map (fun row => row.userId) ↔
        ∃ e ∈ entries, e.2.userId = some u) ∧
      (∀ row ∈ rows, ∃ u, row.userId = some u) ∧
      rows.Pairwise (fun a b => lc (a.displayName.getD "") (b.displayName.getD "") ≤ 0) := by
  obtain ⟨rows, hrows, hnodup, hmem, hsome, -, hsorted⟩ :=
    summaryOf_rows lc hcoll entries hkeys huser hname
  exact ⟨rows, hrows, hnodup, hmem, hsome, hsorted⟩

theorem summary_one_row_per_user_witness :
    ∃ rows,
      summaryOf codePointCompare [sampleNightShift, sampleHolidayShift, sampleNormalShift]
        = .ok rows ∧
      (rows.map (fun row => row.userId)).Nodup ∧
      (∀ u : String, some u ∈ rows.map (fun row => row.userId) ↔
        ∃ e ∈ [sampleNightShift, sampleHolidayShift, sampleNormalShift],
          e.2.userId = some u) ∧
      (∀ row ∈ rows, ∃ u, row.userId = some u) ∧
      rows.Pairwise
        (fun a b => codePointCompare (a.displayName.getD "") (b.displayName.getD "") ≤ 0) :=
  summary_one_row_per_user codePointCompare codePointCompare_isCollation
    [sampleNightShift, sampleHolidayShift, sampleNormalShift]
    (by
      intro e he
      simp only [List.mem_cons, List.mem_singleton, List.not_mem_nil, or_false] at he
      rcases he with rfl | rfl | rfl <;> rfl)
    (by
      intro e he
      simp only [List.mem_cons, List.mem_singleton, List.not_mem_nil, or_false] at he
      rcases he with rfl | rfl | rfl <;> rfl)
    (by
      intro e he
      simp only [List.mem_cons, List.mem_singleton, List.not_mem_nil, or_false] at he
      rcases he with rfl | rfl | rfl <;> rfl)

/-! ## Claim on a failing audit write -/

/-- C26 (counterexample): the audit write throws `audit sink down` while a user without
`timesheets.manage` creates an entry. The record is stored under the new id `t9`, yet the
handler answers 400 with the message of the audit error, not 201. -/
theorem create_fails_when_audit_fails :
    (createTimesheetEntry { sampleEnv 1714982400000 with auditFailure := some "audit sink down" }
        sampleStore sampleOwner
        { userId := some "u1", date := some "2024-05-06", startTime := some "08:00",
          endTime := some "16:00", client := some " Acme ", task := none,
          workOrder := none, isHoliday := none }).1 = .error 400 "audit sink down" ∧
      ((createTimesheetEntry
          { sampleEnv 1714982400000 with auditFailure := some "audit sink down" }
          sampleStore sampleOwner
          { userId := some "u1", date := some "2024-05-06", startTime := some "08:00",
            endTime := some "16:00", client := some " Acme ", task := none,
            workOrder := none, isHoliday := none }).2.timesheets "t9").isSome = true ∧
      sampleStore.timesheets "t9" = none := by
  have hc := composeEntry_of_parsed id 1714982400000 Previous.empty
    { userId := some "u1", date := some "2024-05-06", startTime := some "08:00",
      endTime := some "16:00", client := some "Acme", task := some "",
      workOrder := some "", isHoliday := some false }
    ⟨"u1", "ana", "Ana"⟩ sampleOwner.toActor _ _
    (parseTimeToMinutes_clockString 8 0 (by decide) (by decide))
    (parseTimeToMinutes_clockString 16 0 (by decide) (by decide))
  have ho : resolveOwner sampleStore.users
      (if hasPermission sampleOwner.permissions "timesheets.manage" = true then some "u1"
        else some sampleOwner.uid) sampleOwner
      = .ok ⟨"u1", "ana", "Ana"⟩ := rfl
  have hrun := create_run
    { sampleEnv 1714982400000 with auditFailure := some "audit sink down" } sampleStore
    sampleOwner _ _ _ _ sampleBody_valid ho hc
  rw [hrun, auditAndRespond_of_failure _ _ _ _ _ _ _ _ "audit sink down" rfl]
  exact ⟨rfl, rfl, rfl⟩

/-- C26 (amended): a failure of the audit write is not swallowed. When `logMovement`
throws, each of the create, update and delete handlers answers an error: either it stopped
before writing and the store is unchanged, or it had written and answers 400 with the
message of the audit error while the written record, or the removal, stays in the
store. -/
theorem audit_failure_surfaces (env : Env) (store : Store) (user : Principal)
    (id : String) (body : EntryInput) (msg : String) (ha : env.auditFailure = some msg) :
    ((∃ m, createTimesheetEntry env store user body = (.error 400 m, store)) ∨
        ∃ rec, createTimesheetEntry env store user body
          = (.error 400 (orElse (some msg) "No se pudo guardar la hora"),
              { store with
                timesheets := Function.update store.timesheets env.newId (some rec) })) ∧
      ((∃ s m, updateTimesheetEntry env store user id body = (.error s m, store)) ∨
        ∃ rec, updateTimesheetEntry env store user id body
          = (.error 400 (orElse (some msg) "No se pudo actualizar la hora"),
              { store with timesheets := Function.update store.timesheets id (some rec) })) ∧
      ((∃ s m, deleteTimesheetEntry env store user id = (.error s m, store)) ∨
        deleteTimesheetEntry env store user id
          = (.error 400 (orElse (some msg) "No se pudo eliminar la hora"),
              { store with timesheets := Function.update store.timesheets id none })) :=
  handlers_of_audit_failure env store user id body msg ha

theorem audit_failure_surfaces_witness :
    deleteTimesheetEntry
        { sampleEnv (1714550400000 + 3600000) with auditFailure := some "audit sink down" }
        sampleStore sampleOwner "t1"
      = (.error 400 "audit sink down",
          { sampleStore with timesheets := Function.update sampleStore.timesheets "t1" none }) := by
  rcases (audit_failure_surfaces
      { sampleEnv (1714550400000 + 3600000) with auditFailure := some "audit sink down" }
      sampleStore sampleOwner "t1" EntryInput.empty "audit sink down" rfl).2.2
    with ⟨s, m, h⟩ | h
  · have hstore := congrArg (fun r => r.2.timesheets "t1") h
    have hdel : (deleteTimesheetEntry
        { sampleEnv (1714550400000 + 3600000) with auditFailure := some "audit sink down" }
        sampleStore sampleOwner "t1").2.timesheets "t1" = none := rfl
    simp only [hdel] at hstore
    exact absurd hstore (by simp [sampleStore])
  · exact h

/-! ## Claims on `fetchEntries` -/

/-- C27: `fetchEntries` returns its records ordered by date and then by start (the stored
startMinutes, or the parsed startTime when startMinutes is missing), ascending when order
is `asc` and descending otherwise. With `localeCompare` a consistent comparator and every
document returned by the store having a date, the call succeeds, its result is a
rearrangement of the documents of the store, and every adjacent pair of the result is in
that order. -/
theorem fetchEntries_ordered (lc : String → String → ℤ) (hcoll : IsCollation lc)
    (runQuery : StoreQuery → Except String (List Doc)) (scope : Scope) (docs : List Doc)
    (hrun : runQuery (buildQuery scope) = .ok docs)
    (hdates : ∀ doc ∈ docs, doc.2.date.isSome = true) :
    ∃ result, fetchEntries lc runQuery scope = .ok result ∧ result.Perm docs ∧
      result.Chain' (inFetchOrder lc (decide (scope.order = some "asc"))) := by
  obtain ⟨result, hres, hperm, hsorted⟩ :=
    fetchEntries_spec lc hcoll runQuery scope docs hrun hdates
  exact ⟨result, hres, hperm, chain_of_pairwise _ _ hsorted⟩

theorem fetchEntries_ordered_witness :
    ∃ result,
      fetchEntries codePointCompare
          (fun _ => .ok [sampleNormalShift, sampleNightShift, sampleHolidayShift])
          { userId := none, date := none, fromDate := none, toDate := none,
            limit := .absent, order := some "asc" } = .ok result ∧
        result.Perm [sampleNormalShift, sampleNightShift, sampleHolidayShift] ∧
        result.Chain' (inFetchOrder codePointCompare (decide (some "asc" = some "asc"))) :=
  fetchEntries_ordered codePointCompare codePointCompare_isCollation
    (fun _ => .ok [sampleNormalShift, sampleNightShift, sampleHolidayShift])
    { userId := none, date := none, fromDate := none, toDate := none,
      limit := .absent, order := some "asc" }
    [sampleNormalShift, sampleNightShift, sampleHolidayShift] rfl
    (by
      intro doc hdoc
      simp only [List.mem_cons, List.mem_singleton, List.not_mem_nil, or_false] at hdoc
      rcases hdoc with rfl | rfl | rfl <;> rfl)

/-- C28 (the code at the failing input): a summary request with limit 2000. The handler
computes `Math.min(Number('2000') || 1000, 2000) = 2000` and hands it to `fetchEntries`,
which caps it again with `Math.min(Number(limit) || 500, 1000)`: the limit of the query
that the store receives is 1000, not 2000. Whatever limit `fetchEntries` is given, by
either call site, the limit handed to the store is at most 1000. -/
theorem summary_limit_capped_at_1000 :
    summaryLimit (.text "2000") = .number (.fin 2000) ∧
      (buildQuery
          { userId := none, date := none, fromDate := none, toDate := none,
            limit := summaryLimit (.text "2000"), order := some "asc" }).limit
        = .fin 1000 ∧
      ∀ limit : LimitArg, storeLimit limit = .negInf ∨
        ∃ q : ℚ, storeLimit limit = .fin q ∧ q ≤ 1000 := by
  have hnum : jsNumber "2000".data = .fin 2000 := by
    simp [jsNumber, trimChars, isJsWhiteSpace, parseNumericLiteral, parseSignedDecimal,
      parseUnsignedDecimal, isRadixDigit, digitValue, parseExponent, radixValue]
  have hsum : summaryLimit (.text "2000") = .number (.fin 2000) := by
    simp only [summaryLimit, LimitArg.toNumber, hnum]
    norm_num [numberOr, minWith]
  refine ⟨hsum, ?_, storeLimit_le⟩
  show storeLimit (summaryLimit (.text "2000")) = .fin 1000
  rw [hsum]
  norm_num [storeLimit, LimitArg.toNumber, numberOr, minWith]

/-! ## Claim on night minutes of a shift entered in two pieces -/

/-- C29 (the code at the failing input): the shift 22:00 to 07:00 split at 01:00. The
piece 22:00 to 01:00 has 180 night minutes and the piece 01:00 to 07:00 has 0, the start
day having no night window before 06:00, while the whole shift has 480: the sum of the
pieces is 180, not 480. -/
theorem computeNightMinutes_not_additive :
    computeNightMinutes 1320 60 = 180 ∧ computeNightMinutes 60 420 = 0 ∧
      computeNightMinutes 1320 420 = 480 ∧
      computeNightMinutes 1320 60 + computeNightMinutes 60 420
        ≠ computeNightMinutes 1320 420 := by
  have h1 : computeNightMinutes 1320 60 = 180 := by
    norm_num [computeNightMinutes, NIGHT_WINDOWS, DAY_MINUTES, addOverlap]
  have h2 : computeNightMinutes 60 420 = 0 := by
    norm_num [computeNightMinutes, NIGHT_WINDOWS, DAY_MINUTES, addOverlap]
  have h3 : computeNightMinutes 1320 420 = 480 := by
    norm_num [computeNightMinutes, NIGHT_WINDOWS, DAY_MINUTES, addOverlap]
  refine ⟨h1, h2, h3, ?_⟩
  rw [h1, h2, h3]
  norm_num

/-! ## Claim on the total shown by the summary view -/

/-- C30: for entries that satisfy the invariants of the data model, the total that the
summary view shows for a user, normalMinutes + holidayMinutes + nightMinutes of the row of
the user, is the sum of the durationMinutes of the entries of the user plus the sum of the
nightMinutes of the holiday entries of the user; it is the plain sum of the durations
exactly when no holiday entry of the user has night minutes. -/
theorem summary_total_minutes (lc : String → String → ℤ) (hcoll : IsCollation lc)
    (entries : List Doc)
    (hkeys : ∀ e ∈ entries, isInheritedKey (summaryKey e) = false)
    (huser : ∀ e ∈ entries, e.2.userId.isSome = true)
    (hname : ∀ e ∈ entries, (orOption e.2.userDisplayName e.2.username).isSome = true)
    (hinv : ∀ e ∈ entries, SatisfiesInvariants e)
    (u : String) (hu : ∃ e ∈ entries, e.2.userId = some u) :
    ∃ rows, summaryOf lc entries = .ok rows ∧
      (∃ row ∈ rows, row.userId = some u) ∧
      ∀ row ∈ rows, row.userId = some u →
        totalMinutes false row
            = ((entriesOf entries u).map (fun e => e.2.durationMinutes.getD 0)).sum
              + (((entriesOf entries u).filter (fun e => e.2.isHoliday.getD false)).map
                  (fun e => e.2.nightMinutes.getD 0)).sum ∧
          (totalMinutes false row
              = ((entriesOf entries u).map (fun e => e.2.durationMinutes.getD 0)).sum ↔
            ∀ e ∈ entriesOf entries u,
              e.2.isHoliday.getD false = true → e.2.nightMinutes.getD 0 = 0) := by
  obtain ⟨rows, hrows, -, hmem, -, hsums, -⟩ :=
    summaryOf_rows lc hcoll entries hkeys huser hname
  have hsub : ∀ e ∈ entriesOf entries u, SatisfiesInvariants e :=
    fun e he => hinv e (List.mem_filter.mp he).1
  have htotal : ∀ row ∈ rows, row.userId = some u →
      totalMinutes false row
        = ((entriesOf entries u).map (fun e => e.2.durationMinutes.getD 0)).sum
          + (((entriesOf entries u).filter (fun e => e.2.isHoliday.getD false)).map
              (fun e => e.2.nightMinutes.getD 0)).sum := by
    intro row hr h
    obtain ⟨h1, h2, h3⟩ := hsums row hr u h
    simp only [totalMinutes, Bool.false_eq_true, if_false]
    rw [h1, h2, h3]
    exact sum_normal_holiday_night _ hsub
  refine ⟨rows, hrows, ?_, ?_⟩
  · obtain ⟨row, hr, hrow⟩ := List.mem_map.mp ((hmem u).mpr hu)
    exact ⟨row, hr, hrow⟩
  · intro row hr h
    refine ⟨htotal row hr h, ?_⟩
    rw [htotal row hr h, ← holiday_night_sum_eq_zero_iff _ (fun e he => (hsub e he).1)]
    constructor
    · intro heq
      linarith
    · intro hz
      rw [hz, add_zero]

theorem summary_total_minutes_witness :
    ∃ rows, summaryOf codePointCompare [sampleHolidayShift, sampleNormalShift] = .ok rows ∧
      (∃ row ∈ rows, row.userId = some "u1") ∧
      ∀ row ∈ rows, row.userId = some "u1" → totalMinutes false row = 960 + 60 := by
  have hinv : ∀ e ∈ [sampleHolidayShift, sampleNormalShift], SatisfiesInvariants e := by
    intro e he
    simp only [List.mem_cons, List.mem_singleton, List.not_mem_nil, or_false] at he
    rcases he with rfl | rfl <;>
      norm_num [SatisfiesInvariants, sampleHolidayShift, sampleNormalShift, sampleRecord]
  obtain ⟨rows, hrows, hex, htotal⟩ := summary_total_minutes codePointCompare
    codePointCompare_isCollation [sampleHolidayShift, sampleNormalShift]
    (by
      intro e he
      simp only [List.mem_cons, List.mem_singleton, List.not_mem_nil, or_false] at he
      rcases he with rfl | rfl <;> rfl)
    (by
      intro e he
      simp only [List.mem_cons, List.mem_singleton, List.not_mem_nil, or_false] at he
      rcases he with rfl | rfl <;> rfl)
    (by
      intro e he
      simp only [List.mem_cons, List.mem_singleton, List.not_mem_nil, or_false] at he
      rcases he with rfl | rfl <;> rfl)
    hinv "u1" ⟨sampleHolidayShift, List.mem_cons_self _ _, rfl⟩
  refine ⟨rows, hrows, hex, ?_⟩
  intro row hr hu
  have hof : entriesOf [sampleHolidayShift, sampleNormalShift] "u1"
      = [sampleHolidayShift, sampleNormalShift] := by
    simp [entriesOf, sampleHolidayShift, sampleNormalShift, sampleRecord]
  rw [(htotal row hr hu).1, hof]
  norm_num [sampleHolidayShift, sampleNormalShift, sampleRecord]

end Timesheets
